import Mathlib

/-!
# ClashSubGenerator: subscription decoding, grouping and document assembly

A shallow embedding of `src/subscriber.cpp` and
`src/proxy_decoder/trojan_decoder.cpp`.

Conventions of the embedding.

* A `YAML::Node` is a handle: copying a node (`YAML::Node(proxy)`, `push_back`
  into a vector or a sequence, `auto x = proxy["name"]`) shares the underlying
  node, and assigning a value through any handle changes what every other
  handle sees.  The proxy records therefore live in one list (`proxies`), and a
  handle to a record is its position in that list.
* `std::map<std::string, V>` is an association list that is iterated in key
  order; lookups go by key equality.  The member `group_result` is declared in
  `subscriber.h`; it is taken to be such a map, like the maps that the two
  files declare themselves.
* C++ exceptions are the `Except` monad.
* Code of the repository that is not part of the two files above (`Utils`,
  `Uri`, `ProxyDecoderFactory`, the exception classes, `strip_name`) and the
  library functions whose result depends on floating point or on the library
  version (`std::stof`, `std::regex_match`, `fmt::format`) are parameters.
-/

namespace ClashSub

/-! ## std::map with std::string keys -/

/-- Lexicographic comparison of two character sequences, the order of
`std::string::compare` (the order of UTF-8 bytes is the order of code points). -/
def lex_less : List Char → List Char → Bool
  | _, [] => false
  | [], _ :: _ => true
  | a :: as, b :: bs =>
    if a.toNat < b.toNat then true
    else if b.toNat < a.toNat then false
    else lex_less as bs

/-- The comparison `std::less<std::string>` of the maps of the program. -/
def key_less (a b : String) : Bool := lex_less a.data b.data

/-- A `std::map<std::string, V>`: its entries in iteration order. -/
abbrev StdMap (V : Type) := List (String × V)

namespace StdMap

variable {V : Type}

/-- The member `count(k)` as a truth value (`if (m.count(k))`). -/
def count (m : StdMap V) (k : String) : Bool := m.any (fun e => decide (e.1 = k))

/-- The value stored under `k` (`find`, `at`, `operator[]` on a present key). -/
def find (m : StdMap V) (k : String) : Option V :=
  match m with
  | [] => none
  | e :: rest => if e.1 = k then some e.2 else find rest k

/-- Placing a new entry at its position in key order. -/
def place (k : String) (v : V) : StdMap V → StdMap V
  | [] => [(k, v)]
  | e :: rest => if key_less k e.1 then (k, v) :: e :: rest else e :: place k v rest

/-- The members `insert`, `emplace` and `try_emplace`: a present key keeps its
value, an absent key gets the entry. -/
def insert (m : StdMap V) (k : String) (v : V) : StdMap V :=
  if m.count k then m else place k v m

/-- The member `erase(k)`. -/
def erase (m : StdMap V) (k : String) : StdMap V := m.filter (fun e => !decide (e.1 = k))

/-- Changing the value under `k` through the reference returned by `at(k)` or
`operator[]`. -/
def update (m : StdMap V) (k : String) (f : V → V) : StdMap V :=
  m.map (fun e => if e.1 = k then (e.1, f e.2) else e)

end StdMap

/-! ## Data model -/

/-- A C++ `float` as far as the program looks at it (it is only compared with
`1.0`): a finite value, an infinity or a NaN. -/
inductive FloatVal where
  | finite (q : ℚ)
  | inf (negative : Bool)
  | nan
  deriving DecidableEq

/-- The comparison `amplification > 1.0`. -/
def FloatVal.gtOne : FloatVal → Bool
  | .finite q => decide (1 < q)
  | .inf negative => !negative
  | .nan => false

/-- The tuple `NameAttribute` (`location, id, netflix, amplification`). -/
structure NameAttribute where
  location : String
  id : Int
  netflix : Bool
  amplification : FloatVal
  deriving DecidableEq

/-- A scalar of a proxy record, kept with the C++ type it was assigned from. -/
inductive Scalar where
  | str (s : String)
  | int (n : Int)
  | bool (b : Bool)
  deriving DecidableEq

/-- A proxy record, a YAML map: its `name`, the `attributes` map written by
`append_attributes` (absent when the key is not defined) and the other keys.
Every record has a name that is a string (without one, `grouping` throws at
`proxy["name"].as<std::string>()`), and the records of a list are distinct
nodes. -/
structure ProxyNode where
  name : String
  attributes : Option NameAttribute
  fields : List (String × Scalar)
  deriving DecidableEq

deriving instance DecidableEq for Except

/-- The exceptions that leave `Subscriber::grouping` (it has no handler). -/
inductive Failure where
  | bad_conversion
  | invalid_argument
  | out_of_range
  | undefined_behaviour
  deriving DecidableEq

/-- The map `provider["definition"]`: for each key the result of `as<int>()`,
`none` when the key is absent or not an integer (the conversion throws). -/
structure Definition where
  location_name : Option Int
  position : Option Int
  netflix : Option Int
  amplification : Option Int

/-- The provider configuration: `definition` (absent when not defined),
`group_merge` as its entries in document order, and the optional group label
head `provider["prefix"]`. -/
structure Provider where
  definition : Option Definition
  group_merge : List (String × String)
  label_head : Option String

/-- Functions the two source files call and do not define. -/
structure Helpers where
  /-- The function `Utils::trim_copy` (also the in-place `Utils::trim`). -/
  trim_copy : String → String
  /-- The function `Utils::split`. -/
  split : String → Char → List String
  /-- The function `Utils::url_decode`. -/
  url_decode : String → Bool → String
  /-- The function `ProxyDecoder::strip_name`: display name and query string. -/
  strip_name : String → String × String
  /-- The function `Base64::decode`. -/
  base64_decode : String → String
  /-- The library function `std::stof`; an error when it throws
  (`invalid_argument` or `out_of_range`). -/
  stof : String → Except Failure FloatVal
  /-- The formatting `fmt::format` with the pattern of `get_name_generator`
  applied to the symbol and the id. -/
  format_label : String → Int → String

/-- The members of `Subscriber` that `grouping`, `get` and `parse_name` use.
The member `name_pattern` is the compiled regular expression of the source,
represented by what `std::regex_match` yields with it: `none` without a match,
otherwise the sub-matches (whole match first).  The member `proxies` holds the
records; their positions are the handles. -/
structure Subscriber where
  regex_collapse : Bool
  enable_grouping : Bool
  exclude_amplified_node : Bool
  use_emoji : Bool
  provider : Provider
  emoji_map : List (String × String)
  name_pattern : String → Option (List String)
  proxies : List ProxyNode
  group_result : StdMap (List Nat)

/-! ## Name attribute parser -/

/-- The characters `std::isspace` accepts in the C locale. -/
def is_space (c : Char) : Bool :=
  c.toNat = 32 ∨ (9 ≤ c.toNat ∧ c.toNat ≤ 13)

/-- The library function `std::stoi` in base 10: leading white space, an
optional sign, then at least one digit (`invalid_argument` otherwise); what
follows the digits is ignored; a value that does not fit an `int` is
`out_of_range`. -/
def stoi (s : String) : Except Failure Int :=
  let cs := s.data.dropWhile is_space
  let body := match cs with
    | '-' :: r => r
    | '+' :: r => r
    | r => r
  let negative := match cs with
    | '-' :: _ => true
    | _ => false
  let digits := body.takeWhile Char.isDigit
  if digits = [] then .error .invalid_argument
  else
    let n : Nat := digits.foldl (fun a c => 10 * a + (c.toNat - 48)) 0
    let v : Int := if negative then -(n : Int) else n
    if v < -2147483648 ∨ 2147483647 < v then .error .out_of_range else .ok v

/-- The function `Subscriber::get_regex_result` applied to the sub-matches of a
match: with `regex_collapse` the empty ones are erased. -/
def get_regex_result (s : Subscriber) (result : List String) : List String :=
  if s.regex_collapse then result.filter (fun m => !m.isEmpty) else result

/-- The lambda `get_value` of `parse_name`; `index` is
`provider["definition"][key_name].as<int>()`.  An index below `-1` passes the
test `size > def_index` and reads outside the vector. -/
def get_value (regex_result : List String) (index : Option Int) (default_value : String) :
    Except Failure String :=
  match index with
  | none => .error .bad_conversion
  | some def_index =>
    if def_index ≠ -1 ∧ (regex_result.length : Int) > def_index then
      if 0 ≤ def_index then .ok (regex_result.getD def_index.toNat "")
      else .error .undefined_behaviour
    else .ok default_value

/-- The value `1.0f`. -/
def FloatVal.one : FloatVal := .finite 1

/-- The initial value of `attribute` in `parse_name`. -/
def default_attribute (name : String) : NameAttribute :=
  { location := name, id := -1, netflix := false, amplification := FloatVal.one }

/-- The function `Subscriber::parse_name`. -/
def parse_name (H : Helpers) (s : Subscriber) (name : String) : Except Failure NameAttribute :=
  match s.name_pattern name with
  | none => .ok (default_attribute name)
  | some result =>
    let regex_result := get_regex_result s result
    match s.provider.definition with
    | none => .ok (default_attribute name)
    | some d => do
      let location ← get_value regex_result d.location_name ""
      if location.isEmpty then
        pure (default_attribute name)
      else
        let position ← get_value regex_result d.position "-1"
        let id ← stoi position
        let netflix ← get_value regex_result d.netflix ""
        let amplification ← get_value regex_result d.amplification "1.0f"
        let value ← H.stof (if amplification.isEmpty then "1.0f" else amplification)
        pure { location := location, id := id, netflix := !netflix.isEmpty,
               amplification := value }

/-! ## Grouping engine -/

/-- The state of the first loop of `grouping`: the records already visited (as
they are after the visit), `group_result` and the local `netflix_group`. -/
structure Bucketing where
  nodes : List ProxyNode
  group_result : StdMap (List Nat)
  netflix_group : List Nat

/-- One pass of the body of the first loop of `grouping` (lines 122-150) for the
record `proxy`, whose handle is its position `acc.nodes.length`. -/
def grouping_step (H : Helpers) (s : Subscriber) (acc : Bucketing) (proxy : ProxyNode) :
    Except Failure Bucketing :=
  let proxy_name := H.trim_copy proxy.name
  match parse_name H s proxy_name with
  | .error e => .error e
  | .ok parsed =>
    let node : ProxyNode := { proxy with name := proxy_name, attributes := some parsed }
    if s.exclude_amplified_node && parsed.amplification.gtOne then
      .ok { acc with nodes := acc.nodes ++ [node] }
    else
      let handle := acc.nodes.length
      let created := acc.group_result.insert parsed.location []
      .ok { nodes := acc.nodes ++ [node]
            group_result := created.update parsed.location (fun v => v ++ [handle])
            netflix_group :=
              if parsed.netflix then acc.netflix_group ++ [handle] else acc.netflix_group }

/-- The first loop of `grouping` over the records not yet visited. -/
def grouping_loop (H : Helpers) (s : Subscriber) :
    List ProxyNode → Bucketing → Except Failure Bucketing
  | [], acc => .ok acc
  | proxy :: rest, acc =>
    match grouping_step H s acc proxy with
    | .error e => .error e
    | .ok acc1 => grouping_loop H s rest acc1

/-- The loop over `provider["group_merge"]` (lines 153-164): the buckets and the
`remove_list`.  The source bucket stays in place; it is only noted for removal.
(For a rule whose two names are equal the C++ call inserts a vector into itself;
the embedding takes the members twice.) -/
def merge_loop : List (String × String) → StdMap (List Nat) → List String →
    StdMap (List Nat) × List String
  | [], g, remove_list => (g, remove_list)
  | (source_name, target_name) :: rest, g, remove_list =>
    if g.count source_name && g.count target_name then
      let source_vec := (g.find source_name).getD []
      merge_loop rest (g.update target_name (fun v => v ++ source_vec))
        (remove_list ++ [source_name])
    else merge_loop rest g remove_list

/-- The function `Subscriber::remove_groups` (the list is emptied afterwards). -/
def remove_groups (g : StdMap (List Nat)) (remove_list : List String) : StdMap (List Nat) :=
  remove_list.foldl StdMap.erase g

/-- The merge step of `grouping` (lines 153-165): the loop over the rules, then
`remove_groups`. -/
def merge_groups (rules : List (String × String)) (g : StdMap (List Nat)) : StdMap (List Nat) :=
  let merged := merge_loop rules g []
  remove_groups merged.1 merged.2

/-- The loop of the minimum-size filter (lines 168-173) over the entries of
`group_result`: the local `ungrouped` and the `remove_list`. -/
def size_loop (group_min_size : Nat) : StdMap (List Nat) → List Nat → List String →
    List Nat × List String
  | [], ungrouped, remove_list => (ungrouped, remove_list)
  | (name, node) :: rest, ungrouped, remove_list =>
    if node.length < group_min_size then
      size_loop group_min_size rest (ungrouped ++ node) (remove_list ++ [name])
    else size_loop group_min_size rest ungrouped remove_list

/-- The last two statements of `grouping` (lines 184-192). -/
def insert_special (g : StdMap (List Nat)) (netflix_group ungrouped : List Nat) :
    StdMap (List Nat) :=
  let g1 := if netflix_group.isEmpty then g else g.insert "netflix" netflix_group
  if ungrouped.isEmpty then g1 else g1.insert "Ungrouped" ungrouped

/-- The function `Subscriber::grouping`. -/
def grouping (H : Helpers) (s : Subscriber) (group_min_size : Nat) : Except Failure Subscriber :=
  if s.enable_grouping then
    match grouping_loop H s s.proxies
        { nodes := [], group_result := s.group_result, netflix_group := [] } with
    | .error e => .error e
    | .ok b =>
      let g1 := merge_groups s.provider.group_merge b.group_result
      let small := size_loop group_min_size g1 [] []
      let g2 := remove_groups g1 small.2
      .ok { s with proxies := b.nodes, group_result := insert_special g2 b.netflix_group small.1 }
  else
    let nodes := s.proxies.map (fun proxy => { proxy with name := H.trim_copy proxy.name })
    .ok { s with proxies := nodes
                 group_result := insert_special s.group_result [] (List.range nodes.length) }

/-! ## Name generator and document assembler -/

/-- The function `Subscriber::name2emoji`. -/
def name2emoji (s : Subscriber) (name : String) : String :=
  match StdMap.find s.emoji_map name with
  | some symbol => symbol
  | none => name

/-- The conversion of a `size_t` to `int` (`id = ++location_counter[name]`). -/
def to_int (n : Nat) : Int :=
  let r := n % 4294967296
  if r < 2147483648 then (r : Int) else (r : Int) - 4294967296

/-- What a call of the name generator leaves behind: the returned label, the
static `location_counter` and the final value of the local `id`. -/
structure Generated where
  label : String
  location_counter : StdMap Nat
  id : Int

/-- The lambda returned by `Subscriber::get_name_generator`, applied to a record
whose `attributes` are `attributes`.  The map `location_counter` is a static of
the lambda: it is handed in and out. -/
def name_generator (H : Helpers) (s : Subscriber) (location_counter : StdMap Nat)
    (proxy : ProxyNode) (attributes : NameAttribute) : Generated :=
  let name := attributes.location
  if attributes.id = -1 then
    let created := location_counter.insert name 0
    let next := ((created.find name).getD 0 + 1) % 18446744073709551616
    let id := to_int next
    { label := if s.use_emoji then H.format_label (name2emoji s name) id else proxy.name
      location_counter := created.update name (fun _ => next)
      id := id }
  else
    { label := if s.use_emoji then H.format_label (name2emoji s name) attributes.id
               else proxy.name
      location_counter := location_counter
      id := attributes.id }

/-- The state of the loops of `get`: the shared records, the static
`location_counter`, the handles pushed to `node["proxies"]`, and a trace of the
ids taken from `location_counter` (handle of the record, location, id). -/
structure Assembly where
  nodes : List ProxyNode
  location_counter : StdMap Nat
  flat : List Nat
  assigned : List (Nat × String × Int)

/-- The body of the inner loop of `get` (lines 216-237) for the member `handle`
of the bucket `name`; `current` is `current_group["proxies"]`.  A record with
`attributes` gets the generated label as its `name` (the assignment to
`proxy_name` writes through the handle); a record without keeps its name (`g`
then only carries that name and the untouched counters). -/
def get_proxy (H : Helpers) (s : Subscriber) (name : String) (st : Assembly)
    (current : List String) (handle : Nat) : Assembly × List String :=
  match st.nodes[handle]? with
  | none => (st, current)
  | some proxy =>
    let g : Generated := match proxy.attributes with
      | some a => name_generator H s st.location_counter proxy a
      | none => { label := proxy.name, location_counter := st.location_counter, id := 0 }
    let trace := match proxy.attributes with
      | some a => if a.id = -1 then [(handle, a.location, g.id)] else []
      | none => []
    ({ nodes := st.nodes.set handle { proxy with name := g.label, attributes := none }
       location_counter := g.location_counter
       flat := if name ≠ "netflix" then st.flat ++ [handle] else st.flat
       assigned := st.assigned ++ trace },
     current ++ [g.label])

/-- The inner loop of `get` over the members of one bucket. -/
def get_members (H : Helpers) (s : Subscriber) (name : String) :
    List Nat → Assembly → List String → Assembly × List String
  | [], st, current => (st, current)
  | handle :: rest, st, current =>
    let r := get_proxy H s name st current handle
    get_members H s name rest r.1 r.2

/-- A group of the document. -/
structure Group where
  name : String
  proxies : List String
  deriving DecidableEq

/-- The outer loop of `get` over the entries of `group_result`; `groups` and
`group_name` are the two sequences of the document. -/
def get_groups (H : Helpers) (s : Subscriber) (head : String) :
    StdMap (List Nat) → Assembly → List Group → List String →
    Assembly × List Group × List String
  | [], st, groups, group_name => (st, groups, group_name)
  | (name, nodes) :: rest, st, groups, group_name =>
    let label := head ++ "-" ++ name
    let r := get_members H s name nodes st []
    get_groups H s head rest r.1 (groups ++ [{ name := label, proxies := r.2 }])
      (group_name ++ [label])

/-- The document returned by `get`; `proxies` holds the records as they are when
`get` returns. -/
structure Document where
  groups : List Group
  proxies : List ProxyNode
  group_name : List String
  deriving DecidableEq

/-- The result of a run of `get`: the final state of the loops and the two
sequences of group data. -/
structure Output where
  assembly : Assembly
  groups : List Group
  group_name : List String

/-- The local `prefix` of `get`: `provider["prefix"]` when it is defined,
`Generated` otherwise. -/
def label_head_of (s : Subscriber) : String :=
  match s.provider.label_head with
  | some text => text
  | none => "Generated"

/-- The function `Subscriber::get`, started with the static `location_counter`
as the earlier calls in the process left it. -/
def Subscriber.get (H : Helpers) (s : Subscriber) (location_counter : StdMap Nat) : Output :=
  let start : Assembly :=
    { nodes := s.proxies, location_counter := location_counter, flat := [], assigned := [] }
  if s.group_result.isEmpty then
    { assembly := start, groups := [], group_name := [] }
  else
    let r := get_groups H s (label_head_of s) s.group_result start [] []
    { assembly := r.1, groups := r.2.1, group_name := r.2.2 }

/-- The YAML document a run of `get` returns. -/
def Output.document (o : Output) : Document :=
  { groups := o.groups
    proxies := o.assembly.flat.filterMap (fun handle => o.assembly.nodes[handle]?)
    group_name := o.group_name }

/-! ## Decoders and the batch decode loop -/

/-- What the code reads from a parsed `Uri`: the results of `getSchema`,
`getHost`, `getPort`, `getQueryString` and `getRawUri`. -/
structure Uri where
  schema : String
  host : String
  port : Int
  queryString : String
  rawUri : String
  deriving DecidableEq

/-- Modelled from the spec: the exception classes are declared outside the two
source files.  A failure of URI parsing, of decoder resolution or of decoding
is a `CSGRuntimeException`, the class the batch decode loop catches; the value
is the text of `what()`. -/
structure CSGRuntimeException where
  what : String
  deriving DecidableEq

/-- The function `TrojanDecoder::get_parameters`. -/
def get_parameters (H : Helpers) (query_string : String) : StdMap String :=
  (H.split query_string '&').foldl
    (fun parameters pair =>
      match H.split pair '=' with
      | [key, value] => parameters.insert key value
      | _ => parameters)
    []

/-- The function `TrojanDecoder::decode_config` on a decoder whose member
`proxy` is still empty. -/
def TrojanDecoder.decode_config (H : Helpers) (uri : Uri) :
    Except CSGRuntimeException ProxyNode :=
  let stripped := H.strip_name uri.queryString
  let parameters := get_parameters H stripped.2
  match H.split uri.host '@' with
  | [password, server] =>
    .ok { name := H.url_decode stripped.1 true
          attributes := none
          fields :=
            [("type", Scalar.str "trojan"), ("server", Scalar.str server),
             ("port", Scalar.int uri.port), ("password", Scalar.str password),
             ("udp", Scalar.bool true)] ++
            (match parameters.find "sni" with
             | some sni => [("sni", Scalar.str sni)]
             | none => []) }
  | _ => .error { what := "Incorrect Trojan config, missing password or server" }

/-- A decoder as `ProxyDecoderFactory::make` returns it: its `decode_config`;
the result `none` is a node that is not defined. -/
abbrev Decoder := Uri → Except CSGRuntimeException (Option ProxyNode)

/-- The functions the batch decode loop calls for a line. -/
structure Stages where
  /-- The function `Uri::Parse`. -/
  parse : String → Except CSGRuntimeException Uri
  /-- The function `ProxyDecoderFactory::make`. -/
  make : String → Except CSGRuntimeException Decoder

/-- The state of the loop of `Subscriber::decode_config`: the sequence
`proxies`, `decoded_counter`, and the lines reported by `SPDLOG_WARN`. -/
structure Decoded where
  proxies : List ProxyNode
  decoded_counter : StdMap Nat
  warnings : List String

/-- The body of the loop of `Subscriber::decode_config` (lines 78-95).  The
key of `decoded_counter` is taken to be the scheme. -/
def decode_line (H : Helpers) (D : Stages) (st : Decoded) (line : String) : Decoded :=
  if line.isEmpty then st
  else
    let proxy := H.trim_copy line
    match D.parse proxy with
    | .error _ => { st with warnings := st.warnings ++ [proxy] }
    | .ok uri =>
      match D.make uri.schema with
      | .error _ => { st with warnings := st.warnings ++ [proxy] }
      | .ok decoder =>
        let created := st.decoded_counter.insert uri.schema 0
        let counter := created.update uri.schema (fun n => (n + 1) % 4294967296)
        match decoder uri with
        | .error _ =>
          { st with decoded_counter := counter, warnings := st.warnings ++ [proxy] }
        | .ok (some proxy_config) =>
          { st with decoded_counter := counter, proxies := st.proxies ++ [proxy_config] }
        | .ok none => { st with decoded_counter := counter }

/-- The loop of `Subscriber::decode_config` over the lines of the batch. -/
def decode_lines (H : Helpers) (D : Stages) (lines : List String) : Decoded :=
  lines.foldl (decode_line H D) { proxies := [], decoded_counter := [], warnings := [] }

/-- The function `Subscriber::decode_config`. -/
def decode_config (H : Helpers) (D : Stages) (config : String) : List ProxyNode :=
  (decode_lines H D (H.split (H.base64_decode config) (Char.ofNat 10))).proxies

/-! ## A concrete set of helpers

The helpers below stand in for the code outside the two source files wherever a
statement is evaluated on concrete data. -/

namespace Sample

/-- Modelled from the spec: `Utils::trim_copy` is not among the source files;
"leading/trailing whitespace trimmed". -/
def trim_copy (text : String) : String :=
  String.mk ((text.data.dropWhile is_space).reverse.dropWhile is_space).reverse

/-- The pieces of a character sequence between the occurrences of `delim`;
`piece` holds the current piece in reverse. -/
def split_chars (delim : Char) : List Char → List Char → List String
  | [], piece => [String.mk piece.reverse]
  | c :: rest, piece =>
    if c = delim then String.mk piece.reverse :: split_chars delim rest []
    else split_chars delim rest (c :: piece)

/-- Modelled from the spec: `Utils::split` is not among the source files;
"splits on" the delimiter, every piece kept. -/
def split (text : String) (delim : Char) : List String := split_chars delim text.data []

/-- The value of a hexadecimal digit. -/
def hex_value (c : Char) : Option Nat :=
  if c.isDigit then some (c.toNat - 48)
  else if 97 ≤ c.toNat ∧ c.toNat ≤ 102 then some (c.toNat - 87)
  else if 65 ≤ c.toNat ∧ c.toNat ≤ 70 then some (c.toNat - 55)
  else none

/-- Percent-decoding of a character sequence (escapes below 128 only). -/
def url_decode_chars : List Char → List Char
  | '%' :: a :: b :: rest =>
    match hex_value a, hex_value b with
    | some x, some y => Char.ofNat (16 * x + y) :: url_decode_chars rest
    | _, _ => '%' :: url_decode_chars (a :: b :: rest)
  | c :: rest => c :: url_decode_chars rest
  | [] => []

/-- Modelled from the spec: `Utils::url_decode` is not among the source files;
"percent-decoding".  The flag (how `+` is read) is left aside. -/
def url_decode (text : String) (_flag : Bool) : String := String.mk (url_decode_chars text.data)

/-- Modelled from the spec: `ProxyDecoder::strip_name` is not among the source
files; the display name is the fragment after `#`, the query string is what
stands before it. -/
def strip_name (query : String) : String × String :=
  (String.mk ((query.data.dropWhile (fun c => c ≠ '#')).drop 1),
   String.mk (query.data.takeWhile (fun c => c ≠ '#')))

/-- The six bits of a character of the base64 alphabet. -/
def base64_value (c : Char) : Option Nat :=
  if 65 ≤ c.toNat ∧ c.toNat ≤ 90 then some (c.toNat - 65)
  else if 97 ≤ c.toNat ∧ c.toNat ≤ 122 then some (c.toNat - 71)
  else if c.isDigit then some (c.toNat + 4)
  else if c = '+' then some 62
  else if c = '/' then some 63
  else none

/-- The bytes of a sequence of six-bit values. -/
def base64_bytes : List Nat → List Nat
  | a :: b :: c :: d :: rest =>
    (4 * a + b / 16) :: ((b % 16) * 16 + c / 4) :: ((c % 4) * 64 + d) :: base64_bytes rest
  | [a, b, c] => [4 * a + b / 16, (b % 16) * 16 + c / 4]
  | [a, b] => [4 * a + b / 16]
  | _ => []

/-- Modelled from the spec: `Base64::decode` is not among the source files; the
"transport decoding" of a base64 bundle (bytes below 128 only). -/
def base64_decode (text : String) : String :=
  String.mk ((base64_bytes (text.data.filterMap base64_value)).map Char.ofNat)

/-- The value of a sequence of decimal digits. -/
def digits_value (digits : List Char) : Nat :=
  digits.foldl (fun a c => 10 * a + (c.toNat - 48)) 0

/-- The library function `std::stof` on a plain decimal (`digits`, optionally
`.digits`, after an optional `-`), whose value is taken exactly; it stands for
`std::stof` on texts such as `1.0f`, `2.0` or `0.5`, whose value is a float. -/
def stof (text : String) : Except Failure FloatVal :=
  let negative := text.data.head? = some '-'
  let body := if negative then text.data.drop 1 else text.data
  let whole := body.takeWhile Char.isDigit
  let tail := body.dropWhile Char.isDigit
  let fraction := if tail.head? = some '.' then (tail.drop 1).takeWhile Char.isDigit else []
  if whole = [] ∧ fraction = [] then .error .invalid_argument
  else
    let scaled : Int := digits_value whole * 10 ^ fraction.length + digits_value fraction
    .ok (.finite (mkRat (if negative then -scaled else scaled) (10 ^ fraction.length)))

/-- The decimal digits of a number, least significant first; `fuel` bounds the
number of digits. -/
def digits_of : Nat → Nat → List Char
  | 0, _ => []
  | fuel + 1, n => Char.ofNat (48 + n % 10) :: (if n / 10 = 0 then [] else digits_of fuel (n / 10))

/-- Modelled from the spec: a label is "symbol(location) + zero-padded(id,
width=2)". -/
def format_label (symbol : String) (id : Int) : String :=
  let digits := (digits_of (id.natAbs + 1) id.natAbs).reverse
  let padded := if id < 0 then '-' :: digits else if digits.length < 2 then '0' :: digits else digits
  symbol ++ String.mk padded

/-- The result of `std::regex_match` for a regular expression made of `count`
groups `([^-]*)` joined by `-`: the name matches when it has `count` pieces
between dashes, and the sub-matches are the name and the pieces. -/
def dash_fields (count : Nat) (name : String) : Option (List String) :=
  let pieces := split name '-'
  if pieces.length = count then some (name :: pieces) else none

/-- A record with the given name and no other key. -/
def record (name : String) : ProxyNode := { name := name, attributes := none, fields := [] }

/-- A subscriber with grouping enabled, no provider entries and a name
pattern that matches nothing. -/
def plain : Subscriber :=
  { regex_collapse := false, enable_grouping := true, exclude_amplified_node := false,
    use_emoji := false,
    provider := { definition := none, group_merge := [], label_head := none },
    emoji_map := [], name_pattern := fun _ => none, proxies := [], group_result := [] }

/-- Modelled from the spec: `Uri::Parse` is not among the source files; it "fails
with a `MalformedUri` condition if no scheme delimiter is present".  The host
is the authority up to its port (user-info included, as `decode_config` of the
Trojan decoder splits it at `@`), the query string is what follows `?`. -/
def parse (text : String) : Except CSGRuntimeException Uri :=
  let schema := text.data.takeWhile (fun c => c ≠ ':')
  match text.data.dropWhile (fun c => c ≠ ':') with
  | ':' :: '/' :: '/' :: rest =>
    let authority := rest.takeWhile (fun c => c ≠ '/' ∧ c ≠ '?' ∧ c ≠ '#')
    let tail := rest.dropWhile (fun c => c ≠ '/' ∧ c ≠ '?' ∧ c ≠ '#')
    let query := match tail.dropWhile (fun c => c ≠ '?' ∧ c ≠ '#') with
      | '?' :: q => q
      | q => q
    .ok { schema := String.mk schema
          host := String.mk (authority.takeWhile (fun c => c ≠ ':'))
          port := (digits_value ((authority.dropWhile (fun c => c ≠ ':')).drop 1) : Int)
          queryString := String.mk query
          rawUri := text }
  | _ => .error { what := "malformed uri" }

/-- The helpers above as one set. -/
def helpers : Helpers :=
  { trim_copy := trim_copy, split := split, url_decode := url_decode, strip_name := strip_name,
    base64_decode := base64_decode, stof := stof, format_label := format_label }

/-- Modelled from the spec: `ProxyDecoderFactory::make` is not among the source
files; it "fails with `UnsupportedScheme` if no variant is registered for the
scheme".  The registry holds the Trojan decoder. -/
def make (schema : String) : Except CSGRuntimeException Decoder :=
  if schema = "trojan" then
    .ok (fun uri =>
      match TrojanDecoder.decode_config helpers uri with
      | .ok node => .ok (some node)
      | .error e => .error e)
  else .error { what := "unsupported scheme" }

/-- The stages of the batch decode loop with the registry above. -/
def stages : Stages := { parse := parse, make := make }

/-- A registry whose decoder returns a node that is not defined. -/
def blank_stages : Stages := { parse := parse, make := fun _ => .ok (fun _ => .ok none) }

end Sample

/-! ## Definitions that follow the specification -/

/-- The record that a line of the batch contributes: none for an empty line and
for a line on which URI parsing, decoder resolution or decoding fails, and the
decoded record (when it is defined) otherwise. -/
def line_record (H : Helpers) (D : Stages) (line : String) : Option ProxyNode :=
  if line.isEmpty then none
  else
    match D.parse (H.trim_copy line) with
    | .error _ => none
    | .ok uri =>
      match D.make uri.schema with
      | .error _ => none
      | .ok decoder =>
        match decoder uri with
        | .ok (some node) => some node
        | .ok none => none
        | .error _ => none

/-- A non-empty line fails: one of the three stages throws. -/
def line_fails (H : Helpers) (D : Stages) (line : String) : Bool :=
  if line.isEmpty then false
  else
    match D.parse (H.trim_copy line) with
    | .error _ => true
    | .ok uri =>
      match D.make uri.schema with
      | .error _ => true
      | .ok decoder =>
        match decoder uri with
        | .ok _ => false
        | .error _ => true

/-- A non-empty line passes the three stages and its decoder returns a node
that is not defined. -/
def line_undefined (H : Helpers) (D : Stages) (line : String) : Bool :=
  if line.isEmpty then false
  else
    match D.parse (H.trim_copy line) with
    | .error _ => false
    | .ok uri =>
      match D.make uri.schema with
      | .error _ => false
      | .ok decoder =>
        match decoder uri with
        | .ok none => true
        | .ok (some _) => false
        | .error _ => false

/-- The keys of a map, in iteration order. -/
def StdMap.keys {V : Type} (m : StdMap V) : List String := m.map Prod.fst

/-- The handles held by the buckets of a bucket set, bucket after bucket. -/
def members (g : StdMap (List Nat)) : List Nat := g.flatMap Prod.snd

/-- Applying one merge rule the way the specification words it: when both
buckets exist, the members of the source are appended to the target and the
source bucket is removed; otherwise nothing changes. -/
def merge_rule (g : StdMap (List Nat)) (rule : String × String) : StdMap (List Nat) :=
  if g.count rule.1 && g.count rule.2 then
    (g.update rule.2 (fun v => v ++ (g.find rule.1).getD [])).erase rule.1
  else g

/-- Applying the rules one at a time in declaration order. -/
def merge_sequential (rules : List (String × String)) (g : StdMap (List Nat)) :
    StdMap (List Nat) :=
  rules.foldl merge_rule g

/-- No rule names, as source or as target, the source of an earlier rule. -/
def sources_not_reused : List (String × String) → Bool
  | [] => true
  | rule :: rest =>
    rest.all (fun later => decide (later.1 ≠ rule.1) && decide (later.2 ≠ rule.1)) &&
      sources_not_reused rest

/-- No rule merges a bucket into itself. -/
def no_self_merge (rules : List (String × String)) : Bool :=
  rules.all (fun rule => decide (rule.1 ≠ rule.2))

/-- The exclude-amplified policy drops the record: its name parses to an
amplification above `1.0` while `exclude_amplified_node` is set. -/
def dropped (H : Helpers) (s : Subscriber) (proxy : ProxyNode) : Bool :=
  match parse_name H s (H.trim_copy proxy.name) with
  | .ok a => s.exclude_amplified_node && a.amplification.gtOne
  | .error _ => false

/-- The handles of the records of `proxies` (the first has handle `start`) that
the exclude-amplified policy does not drop, in input order. -/
def kept_from (H : Helpers) (s : Subscriber) (start : Nat) (proxies : List ProxyNode) :
    List Nat :=
  ((proxies.enumFrom start).filter (fun e => !dropped H s e.2)).map Prod.fst

/-- The handles of the input records that the exclude-amplified policy does
not drop, in input order. -/
def kept_handles (H : Helpers) (s : Subscriber) : List Nat := kept_from H s 0 s.proxies

/-- The location label that the name of a record parses to. -/
def location_of (H : Helpers) (s : Subscriber) (proxy : ProxyNode) : Option String :=
  match parse_name H s (H.trim_copy proxy.name) with
  | .ok a => some a.location
  | .error _ => none

/-- The handles that `get` pushes to the flat list: the members of the buckets
other than `netflix`, bucket after bucket. -/
def flat_source (g : StdMap (List Nat)) : List Nat :=
  (g.filter (fun e => !decide (e.1 = "netflix"))).flatMap Prod.snd

/-- The record with handle `h` carries attributes of location `location` that
have no explicit id: a visit of `get` takes an id for it. -/
def awaits_id (nodes : List ProxyNode) (h : Nat) (location : String) : Bool :=
  match nodes[h]? with
  | none => false
  | some node =>
    match node.attributes with
    | none => false
    | some a => decide (a.id = -1) && decide (a.location = location)

/-- The ids that a trace assigns for the location `location`, in order. -/
def ids_of (location : String) (trace : List (Nat × String × Int)) : List Int :=
  (trace.filter (fun t => decide (t.2.1 = location))).map (fun t => t.2.2)

/-- The integers `first, first + 1, ..`, `count` of them. -/
def consecutive (first count : Nat) : List Int :=
  (List.range count).map (fun k => ((first + k : Nat) : Int))

/-- The value of `location_counter[location]`, `0` for an absent key. -/
def counter_of (location_counter : StdMap Nat) (location : String) : Nat :=
  (location_counter.find location).getD 0

/-- The effect of visiting the handles `handles` in `get`, from the state `st`
to the state `st1`: the visited records end without attributes, the other
records are untouched, and the trace gains one entry for each visited record
that awaited an id; for each location these ids continue the counter. -/
structure Visits (st : Assembly) (handles : List Nat) (st1 : Assembly) : Prop where
  length_eq : st1.nodes.length = st.nodes.length
  stripped : ∀ h ∈ handles, ∀ node, st1.nodes[h]? = some node → node.attributes = none
  untouched : ∀ h, h ∉ handles → st1.nodes[h]? = st.nodes[h]?
  trace : ∃ T, st1.assigned = st.assigned ++ T ∧ (T.map (fun t => t.1)).Nodup ∧
    T.length ≤ handles.length ∧
    (∀ h location, (∃ id, (h, location, id) ∈ T) ↔
      (h ∈ handles ∧ awaits_id st.nodes h location = true)) ∧
    (∀ location, counter_of st.location_counter location + handles.length < 2147483648 →
      ids_of location T =
        consecutive (counter_of st.location_counter location + 1) (ids_of location T).length ∧
      counter_of st1.location_counter location =
        counter_of st.location_counter location + (ids_of location T).length)

/-- The label `label` is the name of a record of the flat list that carries no
attributes: later visits leave the name as it is. -/
def settled (st : Assembly) (label : String) : Prop :=
  ∃ h ∈ st.flat, ∃ node, st.nodes[h]? = some node ∧ node.name = label ∧ node.attributes = none

/-- The body of the loop of `get_parameters` for one pair. -/
def add_parameter (H : Helpers) (parameters : StdMap String) (pair : String) : StdMap String :=
  match H.split pair '=' with
  | [key, value] => parameters.insert key value
  | _ => parameters

/-- The number of `=` in a pair. -/
def equals_count (pair : String) : Nat := pair.data.count '='

/-- The value of a pair that splits at `=` into the key `key` and a value. -/
def value_for (H : Helpers) (key : String) (pair : String) : Option String :=
  match H.split pair '=' with
  | [k, value] => if k = key then some value else none
  | _ => none

/-- The value of the first pair of the query string that splits at `=` into
the key `key` and a value. -/
def first_value (H : Helpers) (query_string key : String) : Option String :=
  ((H.split query_string '&').filterMap (value_for H key)).head?

/-- The value of the last pair of the query string that splits at `=` into
the key `key` and a value. -/
def last_value (H : Helpers) (query_string key : String) : Option String :=
  ((H.split query_string '&').filterMap (value_for H key)).getLast?

/-! ## Properties of the decoders and of the batch decode loop -/

/-- The parsed form of `trojan://pass1@host1:443?sni=example.com#My%20Node`. -/
theorem sample_parse_trojan :
    Sample.parse "trojan://pass1@host1:443?sni=example.com#My%20Node" =
      .ok { schema := "trojan", host := "pass1@host1", port := 443,
            queryString := "sni=example.com#My%20Node",
            rawUri := "trojan://pass1@host1:443?sni=example.com#My%20Node" } := by
  decide

/-- C9: for a URI whose authority splits at `@` into a password and a server,
the Trojan decoder (on a fresh decoder) returns a record with type `trojan`,
that server, the port of the URI, that password, `udp` true, the decoded
display name taken from the query string, and an `sni` key that carries the
value of the `sni` query parameter exactly when the parameter map has one; the
record has no other key. -/
theorem trojan_decode_record (H : Helpers) (uri : Uri) (password server : String)
    (h : H.split uri.host '@' = [password, server]) :
    ∃ node, TrojanDecoder.decode_config H uri = .ok node ∧
      node.name = H.url_decode (H.strip_name uri.queryString).1 true ∧
      node.attributes = none ∧
      StdMap.find node.fields "type" = some (Scalar.str "trojan") ∧
      StdMap.find node.fields "server" = some (Scalar.str server) ∧
      StdMap.find node.fields "port" = some (Scalar.int uri.port) ∧
      StdMap.find node.fields "password" = some (Scalar.str password) ∧
      StdMap.find node.fields "udp" = some (Scalar.bool true) ∧
      StdMap.find node.fields "sni" =
        (StdMap.find (get_parameters H (H.strip_name uri.queryString).2) "sni").map Scalar.str ∧
      (∀ key ∈ node.fields.map Prod.fst,
        key ∈ ["type", "server", "port", "password", "udp", "sni"]) := by
  unfold TrojanDecoder.decode_config
  rw [h]
  cases hsni : StdMap.find (get_parameters H (H.strip_name uri.queryString).2) "sni" <;>
    simp only [hsni] <;> simp [StdMap.find] <;> tauto

/-- C9, evaluated: `trojan://pass1@host1:443?sni=example.com#My%20Node` decodes
to the record of the scenario. -/
theorem trojan_decode_record_witness :
    Sample.split "pass1@host1" '@' = ["pass1", "host1"] ∧
    (∃ node, TrojanDecoder.decode_config Sample.helpers
        { schema := "trojan", host := "pass1@host1", port := 443,
          queryString := "sni=example.com#My%20Node",
          rawUri := "trojan://pass1@host1:443?sni=example.com#My%20Node" } = .ok node ∧
      node.name = "My Node" ∧
      node.attributes = none ∧
      StdMap.find node.fields "type" = some (Scalar.str "trojan") ∧
      StdMap.find node.fields "server" = some (Scalar.str "host1") ∧
      StdMap.find node.fields "port" = some (Scalar.int 443) ∧
      StdMap.find node.fields "password" = some (Scalar.str "pass1") ∧
      StdMap.find node.fields "udp" = some (Scalar.bool true) ∧
      StdMap.find node.fields "sni" = some (Scalar.str "example.com") ∧
      (∀ key ∈ node.fields.map Prod.fst,
        key ∈ ["type", "server", "port", "password", "udp", "sni"])) :=
  ⟨by decide,
   trojan_decode_record Sample.helpers
     { schema := "trojan", host := "pass1@host1", port := 443,
       queryString := "sni=example.com#My%20Node",
       rawUri := "trojan://pass1@host1:443?sni=example.com#My%20Node" }
     "pass1" "host1" (by decide)⟩

/-- C10, refuted as stated: `trojan://pass1@host1:443` (no fragment) decodes
without error to a record whose display name is empty. -/
theorem trojan_decode_empty_name :
    ∃ node, TrojanDecoder.decode_config Sample.helpers
        { schema := "trojan", host := "pass1@host1", port := 443, queryString := "",
          rawUri := "trojan://pass1@host1:443" } = .ok node ∧
      node.name = "" :=
  ⟨{ name := "", attributes := none,
     fields := [("type", Scalar.str "trojan"), ("server", Scalar.str "host1"),
                ("port", Scalar.int 443), ("password", Scalar.str "pass1"),
                ("udp", Scalar.bool true)] },
   by decide, rfl⟩

/-- C10, amended: the Trojan decoder returns a record exactly when the
authority splits at `@` into two pieces, and fails with the invalid-definition
error (`UnsupportedConfiguration`) exactly when it does not; the display name
takes no part in the decision. -/
theorem trojan_decode_checks_authority_only (H : Helpers) (uri : Uri) :
    ((∃ node, TrojanDecoder.decode_config H uri = .ok node ∧
        node.name = H.url_decode (H.strip_name uri.queryString).1 true) ↔
      (H.split uri.host '@').length = 2) ∧
    (TrojanDecoder.decode_config H uri =
        .error { what := "Incorrect Trojan config, missing password or server" } ↔
      (H.split uri.host '@').length ≠ 2) := by
  unfold TrojanDecoder.decode_config
  rcases hs : H.split uri.host '@' with _ | ⟨a, _ | ⟨b, _ | ⟨c, rest⟩⟩⟩ <;> simp

/-- One pass of the loop body appends the record of the line, if any. -/
theorem decode_line_proxies (H : Helpers) (D : Stages) (st : Decoded) (line : String) :
    (decode_line H D st line).proxies = st.proxies ++ (line_record H D line).toList := by
  unfold decode_line line_record
  by_cases he : line.isEmpty = true
  · simp [he]
  · simp only [he]
    rcases D.parse (H.trim_copy line) with e | uri
    · simp
    · dsimp only
      rcases D.make uri.schema with e | decoder
      · simp
      · dsimp only
        rcases decoder uri with e | (_ | node) <;> simp

/-- One pass of the loop body logs a warning exactly for a failing line. -/
theorem decode_line_warnings (H : Helpers) (D : Stages) (st : Decoded) (line : String) :
    (decode_line H D st line).warnings.length =
      st.warnings.length + (if line_fails H D line then 1 else 0) := by
  unfold decode_line line_fails
  by_cases he : line.isEmpty = true
  · simp [he]
  · simp only [he]
    rcases D.parse (H.trim_copy line) with e | uri
    · simp
    · dsimp only
      rcases D.make uri.schema with e | decoder
      · simp
      · dsimp only
        rcases decoder uri with e | (_ | node) <;> simp

/-- The records of the loop started in any state. -/
theorem decode_fold_proxies (H : Helpers) (D : Stages) (lines : List String) (st : Decoded) :
    (lines.foldl (decode_line H D) st).proxies =
      st.proxies ++ lines.filterMap (line_record H D) := by
  induction lines generalizing st with
  | nil => simp
  | cons line rest ih =>
    rw [List.foldl_cons, ih, decode_line_proxies]
    cases hr : line_record H D line <;> simp [List.filterMap_cons, hr]

/-- The warnings of the loop started in any state. -/
theorem decode_fold_warnings (H : Helpers) (D : Stages) (lines : List String) (st : Decoded) :
    (lines.foldl (decode_line H D) st).warnings.length =
      st.warnings.length + (lines.filter (line_fails H D)).length := by
  induction lines generalizing st with
  | nil => simp
  | cons line rest ih =>
    rw [List.foldl_cons, ih, decode_line_warnings]
    cases hf : line_fails H D line
    · simp [List.filter_cons, hf]
    · simp [List.filter_cons, hf]
      omega

/-- A non-empty line is of exactly one kind: it yields a record, it fails, or
its decoder returns a node that is not defined. -/
theorem line_kinds (H : Helpers) (D : Stages) (line : String) :
    (if (line_record H D line).isSome then 1 else 0) + (if line_fails H D line then 1 else 0) +
        (if line_undefined H D line then 1 else 0) =
      if line.isEmpty then 0 else 1 := by
  unfold line_record line_fails line_undefined
  by_cases he : line.isEmpty = true
  · simp [he]
  · simp only [he]
    rcases D.parse (H.trim_copy line) with e | uri
    · simp
    · dsimp only
      rcases D.make uri.schema with e | decoder
      · simp
      · dsimp only
        rcases decoder uri with e | (_ | node) <;> simp

/-- C7: the batch decode loop is a total function of the batch (a failing line
cannot abort it), and its result is, in input order, the records of the lines
on which URI parsing, decoder resolution and decoding succeed; the other lines
contribute nothing, whatever stands around them; a line contributes a record
exactly when it is not empty, no stage fails on it and the decoded node is
defined. -/
theorem decode_config_skips_failing_lines (H : Helpers) (D : Stages) (config : String)
    (before after : List String) (line : String) :
    decode_config H D config =
      (H.split (H.base64_decode config) (Char.ofNat 10)).filterMap (line_record H D) ∧
    (decode_lines H D (before ++ line :: after)).proxies =
      (decode_lines H D before).proxies ++ (line_record H D line).toList ++
        (decode_lines H D after).proxies ∧
    ((line_record H D line).isSome = true ↔
      (line.isEmpty = false ∧ line_fails H D line = false ∧
        line_undefined H D line = false)) := by
  refine ⟨?_, ?_, ?_⟩
  · simp [decode_config, decode_lines, decode_fold_proxies]
  · simp only [decode_lines, decode_fold_proxies, List.nil_append, List.filterMap_append,
      List.filterMap_cons]
    cases line_record H D line <;> simp
  · unfold line_fails line_record line_undefined
    by_cases he : line.isEmpty = true
    · simp [he]
    · simp only [he]
      rcases D.parse (H.trim_copy line) with e | uri
      · simp
      · dsimp only
        rcases D.make uri.schema with e | decoder
        · simp
        · dsimp only
          rcases decoder uri with e | (_ | node) <;> simp

/-- C8, refuted as stated: with a decoder that returns a node that is not
defined, the line `x://a` is neither accepted nor logged, so accepted plus
skipped is 0 while the batch has one non-empty line. -/
theorem decode_counts_miss_undefined :
    (decode_lines Sample.helpers Sample.blank_stages ["x://a"]).proxies.length +
        (decode_lines Sample.helpers Sample.blank_stages ["x://a"]).warnings.length = 0 ∧
    (["x://a"].filter (fun line => !line.isEmpty)).length = 1 := by
  decide

/-- C8, amended: for every batch, the accepted records, the lines skipped with a
warning and the lines whose decoder returned a node that is not defined (these
are dropped without a warning) add up to the non-empty lines; so accepted plus
skipped equals the non-empty lines whenever no decoder returns such a node. -/
theorem decode_counts (H : Helpers) (D : Stages) (lines : List String) :
    (decode_lines H D lines).proxies.length + (decode_lines H D lines).warnings.length +
        (lines.filter (line_undefined H D)).length =
      (lines.filter (fun line => !line.isEmpty)).length ∧
    ((lines.filter (line_undefined H D)).length = 0 →
      (decode_lines H D lines).proxies.length + (decode_lines H D lines).warnings.length =
        (lines.filter (fun line => !line.isEmpty)).length) := by
  have main : (decode_lines H D lines).proxies.length +
      (decode_lines H D lines).warnings.length + (lines.filter (line_undefined H D)).length =
      (lines.filter (fun line => !line.isEmpty)).length := by
    simp only [decode_lines, decode_fold_proxies, decode_fold_warnings, List.nil_append,
      List.length_nil, Nat.zero_add]
    induction lines with
    | nil => simp
    | cons line rest ih =>
      have hk := line_kinds H D line
      simp only [List.filterMap_cons, List.filter_cons]
      cases hr : line_record H D line <;> cases hf : line_fails H D line <;>
        cases hu : line_undefined H D line <;> cases he : line.isEmpty <;>
        simp [hr, hf, hu, he] at hk ⊢ <;> simp at ih <;> omega
  refine ⟨main, ?_⟩
  intro h0
  rw [h0] at main
  exact main

/-- C8, evaluated with the Trojan registry: of a good line, an empty line, a
line without scheme, a line of an unknown scheme and a Trojan line without
password, one record is accepted and three lines are skipped with a warning. -/
theorem decode_counts_witness :
    (["trojan://pass1@host1:443?sni=example.com#My%20Node", "", "bogus", "ss://x",
      "trojan://host1:443"].filter (line_undefined Sample.helpers Sample.stages)).length = 0 ∧
    (decode_lines Sample.helpers Sample.stages
      ["trojan://pass1@host1:443?sni=example.com#My%20Node", "", "bogus", "ss://x",
       "trojan://host1:443"]).proxies.length = 1 ∧
    (decode_lines Sample.helpers Sample.stages
      ["trojan://pass1@host1:443?sni=example.com#My%20Node", "", "bogus", "ss://x",
       "trojan://host1:443"]).warnings = ["bogus", "ss://x", "trojan://host1:443"] ∧
    (decode_lines Sample.helpers Sample.stages
      ["trojan://pass1@host1:443?sni=example.com#My%20Node", "", "bogus", "ss://x",
       "trojan://host1:443"]).proxies.length +
      (decode_lines Sample.helpers Sample.stages
        ["trojan://pass1@host1:443?sni=example.com#My%20Node", "", "bogus", "ss://x",
         "trojan://host1:443"]).warnings.length =
      (["trojan://pass1@host1:443?sni=example.com#My%20Node", "", "bogus", "ss://x",
        "trojan://host1:443"].filter (fun line => !line.isEmpty)).length :=
  ⟨by decide, by decide, by decide,
   (decode_counts Sample.helpers Sample.stages
      ["trojan://pass1@host1:443?sni=example.com#My%20Node", "", "bogus", "ss://x",
       "trojan://host1:443"]).2 (by decide)⟩

/-! ## Properties of the maps -/

namespace StdMap

variable {V : Type}

theorem keys_cons (e : String × V) (rest : StdMap V) :
    keys (e :: rest) = e.1 :: keys rest := rfl

theorem erase_cons (e : String × V) (rest : StdMap V) (k : String) :
    erase (e :: rest) k = if e.1 = k then erase rest k else e :: erase rest k := by
  by_cases h : e.1 = k <;> simp [erase, List.filter_cons, h]

theorem update_cons (e : String × V) (rest : StdMap V) (k : String) (f : V → V) :
    update (e :: rest) k f = (if e.1 = k then (e.1, f e.2) else e) :: update rest k f := rfl

theorem find_cons (e : String × V) (rest : StdMap V) (k : String) :
    find (e :: rest) k = if e.1 = k then some e.2 else find rest k := rfl

theorem count_iff (m : StdMap V) (k : String) : m.count k = true ↔ k ∈ m.keys := by
  simp [count, keys]

theorem count_false_iff (m : StdMap V) (k : String) : m.count k = false ↔ k ∉ m.keys := by
  rw [← count_iff]; simp

theorem find_none_iff (m : StdMap V) (k : String) : m.find k = none ↔ k ∉ m.keys := by
  induction m with
  | nil => simp [find, keys]
  | cons e rest ih =>
    rw [find_cons, keys_cons]
    by_cases h : e.1 = k
    · simp [h]
    · simp only [h, if_false, ih, List.mem_cons, not_or]
      exact ⟨fun hr => ⟨fun hk => h hk.symm, hr⟩, fun hr => hr.2⟩

theorem find_mem (m : StdMap V) (k : String) (v : V) (h : m.find k = some v) : (k, v) ∈ m := by
  induction m with
  | nil => simp [find] at h
  | cons e rest ih =>
    rw [find_cons] at h
    by_cases he : e.1 = k
    · simp only [he, if_true, Option.some.injEq] at h
      subst h; subst he
      exact List.mem_cons_self _ _
    · simp only [he, if_false] at h
      exact List.mem_cons_of_mem _ (ih h)

theorem place_perm (k : String) (v : V) (m : StdMap V) : (place k v m).Perm ((k, v) :: m) := by
  induction m with
  | nil => simp [place]
  | cons e rest ih =>
    by_cases h : key_less k e.1 = true
    · simp [place, h]
    · simp only [place, h]
      exact (List.Perm.cons e ih).trans (List.Perm.swap _ _ _)

theorem insert_perm (m : StdMap V) (k : String) (v : V) (h : k ∉ m.keys) :
    (m.insert k v).Perm ((k, v) :: m) := by
  have hc : m.count k = false := (count_false_iff m k).2 h
  simp only [insert, hc]
  exact place_perm k v m

theorem insert_present (m : StdMap V) (k : String) (v : V) (h : k ∈ m.keys) :
    m.insert k v = m := by
  have hc : m.count k = true := (count_iff m k).2 h
  simp [insert, hc]

theorem mem_keys_insert (m : StdMap V) (k : String) (v : V) (x : String) :
    x ∈ (m.insert k v).keys ↔ x = k ∨ x ∈ m.keys := by
  by_cases h : k ∈ m.keys
  · rw [insert_present m k v h]
    constructor
    · intro hx; exact Or.inr hx
    · rintro (rfl | hx)
      · exact h
      · exact hx
  · have hp := (insert_perm m k v h).map Prod.fst
    simp only [keys]
    rw [hp.mem_iff]
    simp

theorem nodup_keys_insert (m : StdMap V) (k : String) (v : V) (h : m.keys.Nodup) :
    (m.insert k v).keys.Nodup := by
  by_cases hk : k ∈ m.keys
  · rw [insert_present m k v hk]; exact h
  · have hp := (insert_perm m k v hk).map Prod.fst
    simp only [keys]
    rw [hp.nodup_iff]
    simp only [List.map_cons, List.nodup_cons]
    exact ⟨hk, h⟩

theorem keys_update (m : StdMap V) (k : String) (f : V → V) : (m.update k f).keys = m.keys := by
  induction m with
  | nil => rfl
  | cons e rest ih =>
    rw [update_cons, keys_cons, keys_cons, ih]
    by_cases h : e.1 = k <;> simp [h]

theorem mem_keys_erase (m : StdMap V) (k x : String) :
    x ∈ (m.erase k).keys ↔ x ∈ m.keys ∧ x ≠ k := by
  induction m with
  | nil => simp [erase, keys]
  | cons e rest ih =>
    rw [erase_cons]
    by_cases h : e.1 = k
    · simp only [h, if_true, ih, keys_cons, List.mem_cons]
      constructor
      · rintro ⟨hx, hk⟩; exact ⟨Or.inr hx, hk⟩
      · rintro ⟨hx | hx, hk⟩
        · exact absurd hx hk
        · exact ⟨hx, hk⟩
    · simp only [h, if_false, keys_cons, List.mem_cons, ih]
      constructor
      · rintro (hx | ⟨hx, hk⟩)
        · exact ⟨Or.inl hx, fun hk => h (hx ▸ hk)⟩
        · exact ⟨Or.inr hx, hk⟩
      · rintro ⟨hx | hx, hk⟩
        · exact Or.inl hx
        · exact Or.inr ⟨hx, hk⟩

theorem keys_erase_sublist (m : StdMap V) (k : String) : (m.erase k).keys.Sublist m.keys := by
  simp only [erase, keys]
  exact (List.filter_sublist _).map _

theorem nodup_keys_erase (m : StdMap V) (k : String) (h : m.keys.Nodup) :
    (m.erase k).keys.Nodup :=
  h.sublist (keys_erase_sublist m k)

theorem find_update_other (m : StdMap V) (k x : String) (f : V → V) (h : x ≠ k) :
    (m.update k f).find x = m.find x := by
  induction m with
  | nil => rfl
  | cons e rest ih =>
    rw [update_cons, find_cons, find_cons, ih]
    by_cases he : e.1 = k
    · have hx : ¬ e.1 = x := fun hx => h (hx.symm.trans he)
      simp [he, hx, Ne.symm h]
    · simp [he]

theorem find_update_self (m : StdMap V) (k : String) (f : V → V) :
    (m.update k f).find k = (m.find k).map f := by
  induction m with
  | nil => rfl
  | cons e rest ih =>
    rw [update_cons, find_cons, find_cons, ih]
    by_cases he : e.1 = k <;> simp [he]

theorem find_erase_other (m : StdMap V) (k x : String) (h : x ≠ k) :
    (m.erase k).find x = m.find x := by
  induction m with
  | nil => rfl
  | cons e rest ih =>
    rw [erase_cons, find_cons]
    by_cases he : e.1 = k
    · rw [if_pos he, if_neg (fun hx => h (hx.symm.trans he)), ih]
    · rw [if_neg he, find_cons, ih]

theorem count_erase_other (m : StdMap V) (k x : String) (h : x ≠ k) :
    (m.erase k).count x = m.count x := by
  rw [Bool.eq_iff_iff, count_iff, count_iff, mem_keys_erase]
  simp [h]

theorem count_update (m : StdMap V) (k x : String) (f : V → V) :
    (m.update k f).count x = m.count x := by
  rw [Bool.eq_iff_iff, count_iff, count_iff, keys_update]

theorem update_erase_comm (m : StdMap V) (k x : String) (f : V → V) (h : x ≠ k) :
    (m.erase k).update x f = (m.update x f).erase k := by
  induction m with
  | nil => rfl
  | cons e rest ih =>
    rw [erase_cons, update_cons, erase_cons]
    by_cases he : e.1 = k
    · have hx : ¬ e.1 = x := fun hx => h (hx.symm.trans he)
      rw [if_pos he, if_neg hx, if_pos he, ih]
    · rw [if_neg he, update_cons, ih]
      by_cases hx : e.1 = x
      · rw [if_pos hx, if_neg (by simpa using he)]
      · rw [if_neg hx, if_neg he]

theorem place_cons (k : String) (v : V) (e : String × V) (rest : StdMap V) :
    place k v (e :: rest) =
      if key_less k e.1 = true then (k, v) :: e :: rest else e :: place k v rest := rfl

theorem find_place_self (m : StdMap V) (k : String) (v : V) (h : k ∉ m.keys) :
    (place k v m).find k = some v := by
  induction m with
  | nil => simp [place, find]
  | cons e rest ih =>
    rw [keys_cons, List.mem_cons, not_or] at h
    rw [place_cons]
    by_cases hl : key_less k e.1 = true
    · rw [if_pos hl, find_cons, if_pos rfl]
    · rw [if_neg hl, find_cons, if_neg (Ne.symm h.1)]
      exact ih h.2

theorem find_place_other (m : StdMap V) (k x : String) (v : V) (h : x ≠ k) :
    (place k v m).find x = m.find x := by
  induction m with
  | nil => simp [place, find, Ne.symm h]
  | cons e rest ih =>
    rw [place_cons]
    by_cases hl : key_less k e.1 = true
    · rw [if_pos hl, find_cons, if_neg (Ne.symm h)]
    · rw [if_neg hl, find_cons, find_cons, ih]

theorem find_insert_self (m : StdMap V) (k : String) (v : V) :
    (m.insert k v).find k = some ((m.find k).getD v) := by
  by_cases h : k ∈ m.keys
  · rw [insert_present m k v h]
    cases hf : m.find k with
    | none => exact absurd h ((find_none_iff m k).1 hf)
    | some w => rfl
  · have hn : m.find k = none := (find_none_iff m k).2 h
    have hc : m.count k = false := (count_false_iff m k).2 h
    simp only [insert, hc, hn, Option.getD_none]
    exact find_place_self m k v h

theorem find_insert_other (m : StdMap V) (k x : String) (v : V) (h : x ≠ k) :
    (m.insert k v).find x = m.find x := by
  by_cases hk : m.count k = true
  · simp [insert, hk]
  · simp only [insert, hk]
    exact find_place_other m k x v h

end StdMap

/-! ## Properties of the bucket sets and of the merge step -/

theorem mem_members (g : StdMap (List Nat)) (h : Nat) :
    h ∈ members g ↔ ∃ e ∈ g, h ∈ e.2 := by
  simp [members, List.mem_flatMap]

theorem members_cons (e : String × List Nat) (rest : StdMap (List Nat)) :
    members (e :: rest) = e.2 ++ members rest := by
  simp [members]

theorem members_perm {g g1 : StdMap (List Nat)} (h : g.Perm g1) :
    (members g).Perm (members g1) :=
  List.Perm.flatMap_right _ h

theorem members_insert (g : StdMap (List Nat)) (k : String) (v : List Nat) (h : k ∉ g.keys) :
    (members (g.insert k v)).Perm (v ++ members g) := by
  have hp := members_perm (StdMap.insert_perm g k v h)
  rwa [members_cons] at hp

theorem members_update_append (g : StdMap (List Nat)) (k : String) (x : List Nat)
    (hn : g.keys.Nodup) (hk : k ∈ g.keys) :
    (members (g.update k (fun v => v ++ x))).Perm (members g ++ x) := by
  induction g with
  | nil => simp [StdMap.keys] at hk
  | cons e rest ih =>
    rw [StdMap.keys_cons, List.nodup_cons] at hn
    rw [StdMap.update_cons, members_cons, members_cons]
    by_cases he : e.1 = k
    · have hr : k ∉ StdMap.keys rest := he ▸ hn.1
      have hu : StdMap.update rest k (fun v => v ++ x) = rest := by
        clear ih hn hk
        induction rest with
        | nil => rfl
        | cons e1 rest1 ih1 =>
          rw [StdMap.keys_cons, List.mem_cons, not_or] at hr
          rw [StdMap.update_cons, if_neg (Ne.symm hr.1), ih1 hr.2]
      rw [if_pos he, hu]
      simp only [List.append_assoc]
      exact List.Perm.append_left _ List.perm_append_comm
    · rw [if_neg he]
      rw [StdMap.keys_cons, List.mem_cons] at hk
      have hk1 : k ∈ StdMap.keys rest := by
        rcases hk with hk | hk
        · exact absurd hk.symm he
        · exact hk
      rw [List.append_assoc]
      exact List.Perm.append_left _ (ih hn.2 hk1)

theorem erase_absent (g : StdMap (List Nat)) (k : String) (h : k ∉ g.keys) : g.erase k = g := by
  induction g with
  | nil => rfl
  | cons e rest ih =>
    rw [StdMap.keys_cons, List.mem_cons, not_or] at h
    rw [StdMap.erase_cons, if_neg (Ne.symm h.1), ih h.2]

theorem members_erase (g : StdMap (List Nat)) (k : String) (hn : g.keys.Nodup) :
    (members (g.erase k) ++ (g.find k).getD []).Perm (members g) := by
  induction g with
  | nil => simp [StdMap.erase, StdMap.find, members]
  | cons e rest ih =>
    rw [StdMap.keys_cons, List.nodup_cons] at hn
    rw [StdMap.erase_cons, StdMap.find_cons, members_cons]
    by_cases he : e.1 = k
    · have hr : k ∉ StdMap.keys rest := he ▸ hn.1
      rw [if_pos he, if_pos he, erase_absent rest k hr]
      exact List.perm_append_comm
    · rw [if_neg he, if_neg he, members_cons, List.append_assoc]
      exact List.Perm.append_left _ (ih hn.2)

theorem mem_members_erase (g : StdMap (List Nat)) (k : String) (h : Nat)
    (hm : h ∈ members (g.erase k)) : h ∈ members g := by
  rw [mem_members] at hm ⊢
  obtain ⟨e, he, hh⟩ := hm
  exact ⟨e, (List.mem_filter.1 he).1, hh⟩

theorem mem_members_update (g : StdMap (List Nat)) (k : String) (x : List Nat) (h : Nat)
    (hm : h ∈ members (g.update k (fun v => v ++ x))) : h ∈ members g ∨ h ∈ x := by
  rw [mem_members] at hm
  obtain ⟨e, he, hh⟩ := hm
  obtain ⟨e0, he0, rfl⟩ := List.mem_map.1 he
  by_cases hk : e0.1 = k
  · rw [if_pos hk] at hh
    rcases List.mem_append.1 hh with h1 | h1
    · exact Or.inl ((mem_members g h).2 ⟨e0, he0, h1⟩)
    · exact Or.inr h1
  · rw [if_neg hk] at hh
    exact Or.inl ((mem_members g h).2 ⟨e0, he0, hh⟩)

theorem mem_find_members (g : StdMap (List Nat)) (k : String) (h : Nat)
    (hm : h ∈ (g.find k).getD []) : h ∈ members g := by
  cases hf : g.find k with
  | none => simp [hf] at hm
  | some v =>
    rw [hf] at hm
    exact (mem_members g h).2 ⟨(k, v), StdMap.find_mem g k v hf, hm⟩

theorem remove_groups_cons (g : StdMap (List Nat)) (k : String) (rest : List String) :
    remove_groups g (k :: rest) = remove_groups (g.erase k) rest := rfl

theorem mem_members_remove_groups (remove_list : List String) (g : StdMap (List Nat)) (h : Nat)
    (hm : h ∈ members (remove_groups g remove_list)) : h ∈ members g := by
  induction remove_list generalizing g with
  | nil => exact hm
  | cons k rest ih =>
    rw [remove_groups_cons] at hm
    exact mem_members_erase g k h (ih _ hm)

theorem keys_remove_groups (remove_list : List String) (g : StdMap (List Nat)) (x : String) :
    x ∈ (remove_groups g remove_list).keys ↔ x ∈ g.keys ∧ x ∉ remove_list := by
  induction remove_list generalizing g with
  | nil => simp [remove_groups]
  | cons k rest ih =>
    rw [remove_groups_cons, ih, StdMap.mem_keys_erase, List.mem_cons, not_or, and_assoc]

theorem nodup_keys_remove_groups (remove_list : List String) (g : StdMap (List Nat))
    (hn : g.keys.Nodup) : (remove_groups g remove_list).keys.Nodup := by
  induction remove_list generalizing g with
  | nil => exact hn
  | cons k rest ih =>
    rw [remove_groups_cons]
    exact ih _ (StdMap.nodup_keys_erase g k hn)

theorem merge_loop_cons (rule : String × String) (rest : List (String × String))
    (g : StdMap (List Nat)) (remove_list : List String) :
    merge_loop (rule :: rest) g remove_list =
      if (g.count rule.1 && g.count rule.2) = true then
        merge_loop rest (g.update rule.2 (fun v => v ++ (g.find rule.1).getD []))
          (remove_list ++ [rule.1])
      else merge_loop rest g remove_list := by
  obtain ⟨source_name, target_name⟩ := rule
  rfl

/-- The `remove_list` only grows: the loop started with a list gives the
buckets of the loop started with the empty list. -/
theorem merge_loop_remove_list (rules : List (String × String)) (g : StdMap (List Nat))
    (remove_list : List String) :
    merge_loop rules g remove_list =
      ((merge_loop rules g []).1, remove_list ++ (merge_loop rules g []).2) := by
  induction rules generalizing g remove_list with
  | nil => simp [merge_loop]
  | cons rule rest ih =>
    rw [merge_loop_cons, merge_loop_cons]
    by_cases hc : (g.count rule.1 && g.count rule.2) = true
    · rw [if_pos hc, if_pos hc, ih _ (remove_list ++ [rule.1]), ih _ ([] ++ [rule.1])]
      simp
    · rw [if_neg hc, if_neg hc, ih]

theorem mem_members_merge_loop (rules : List (String × String)) (g : StdMap (List Nat))
    (remove_list : List String) (h : Nat)
    (hm : h ∈ members (merge_loop rules g remove_list).1) : h ∈ members g := by
  induction rules generalizing g remove_list with
  | nil => exact hm
  | cons rule rest ih =>
    rw [merge_loop_cons] at hm
    by_cases hc : (g.count rule.1 && g.count rule.2) = true
    · rw [if_pos hc] at hm
      rcases mem_members_update g _ _ h (ih _ _ hm) with h1 | h1
      · exact h1
      · exact mem_find_members g _ h h1
    · rw [if_neg hc] at hm
      exact ih _ _ hm

theorem keys_merge_loop (rules : List (String × String)) (g : StdMap (List Nat))
    (remove_list : List String) : (merge_loop rules g remove_list).1.keys = g.keys := by
  induction rules generalizing g remove_list with
  | nil => rfl
  | cons rule rest ih =>
    rw [merge_loop_cons]
    by_cases hc : (g.count rule.1 && g.count rule.2) = true
    · rw [if_pos hc, ih, StdMap.keys_update]
    · rw [if_neg hc, ih]

/-- Every handle of the merged bucket set is a handle of the bucket set. -/
theorem mem_members_merge_groups (rules : List (String × String)) (g : StdMap (List Nat))
    (h : Nat) (hm : h ∈ members (merge_groups rules g)) : h ∈ members g :=
  mem_members_merge_loop rules g [] h (mem_members_remove_groups _ _ h hm)

theorem keys_merge_groups (rules : List (String × String)) (g : StdMap (List Nat)) (x : String)
    (hx : x ∈ (merge_groups rules g).keys) : x ∈ g.keys := by
  unfold merge_groups at hx
  rw [keys_remove_groups, keys_merge_loop] at hx
  exact hx.1

theorem nodup_keys_merge_groups (rules : List (String × String)) (g : StdMap (List Nat))
    (hn : g.keys.Nodup) : (merge_groups rules g).keys.Nodup := by
  unfold merge_groups
  apply nodup_keys_remove_groups
  rw [keys_merge_loop]
  exact hn

/-- Removing a bucket that no rule names commutes with the loop over the
rules. -/
theorem merge_loop_erase (rules : List (String × String)) (k : String)
    (hk : rules.all (fun later => decide (later.1 ≠ k) && decide (later.2 ≠ k)) = true)
    (g : StdMap (List Nat)) :
    merge_loop rules (g.erase k) [] =
      ((merge_loop rules g []).1.erase k, (merge_loop rules g []).2) := by
  induction rules generalizing g with
  | nil => rfl
  | cons rule rest ih =>
    rw [List.all_cons, Bool.and_eq_true, Bool.and_eq_true, decide_eq_true_eq,
      decide_eq_true_eq] at hk
    obtain ⟨⟨h1, h2⟩, hrest⟩ := hk
    rw [merge_loop_cons, merge_loop_cons, StdMap.count_erase_other g k _ h1,
      StdMap.count_erase_other g k _ h2, StdMap.find_erase_other g k _ h1]
    by_cases hc : (g.count rule.1 && g.count rule.2) = true
    · rw [if_pos hc, if_pos hc, StdMap.update_erase_comm g k _ _ h2,
        merge_loop_remove_list rest _ ([] ++ [rule.1]), ih hrest,
        merge_loop_remove_list rest (g.update _ _) ([] ++ [rule.1])]
    · rw [if_neg hc, if_neg hc, ih hrest]

theorem merge_sequential_cons (rule : String × String) (rest : List (String × String))
    (g : StdMap (List Nat)) :
    merge_sequential (rule :: rest) g = merge_sequential rest (merge_rule g rule) := rfl

/-- When no rule names the source of an earlier rule, removing the sources
after the last rule gives what removing each source at once gives. -/
theorem merge_groups_eq_sequential (rules : List (String × String))
    (hs : sources_not_reused rules = true) (g : StdMap (List Nat)) :
    merge_groups rules g = merge_sequential rules g := by
  induction rules generalizing g with
  | nil => rfl
  | cons rule rest ih =>
    rw [sources_not_reused, Bool.and_eq_true] at hs
    obtain ⟨hfirst, hrest⟩ := hs
    rw [merge_sequential_cons, ← ih hrest]
    unfold merge_groups merge_rule
    rw [merge_loop_cons]
    by_cases hc : (g.count rule.1 && g.count rule.2) = true
    · rw [if_pos hc, if_pos hc, merge_loop_remove_list rest _ ([] ++ [rule.1]),
        merge_loop_erase rest rule.1 hfirst]
      rfl
    · rw [if_neg hc, if_neg hc]

theorem nodup_keys_merge_rule (g : StdMap (List Nat)) (rule : String × String)
    (hn : g.keys.Nodup) : (merge_rule g rule).keys.Nodup := by
  unfold merge_rule
  by_cases hc : (g.count rule.1 && g.count rule.2) = true
  · rw [if_pos hc]
    apply StdMap.nodup_keys_erase
    rw [StdMap.keys_update]
    exact hn
  · rw [if_neg hc]
    exact hn

/-- One rule applied at once keeps every handle exactly as often as it was. -/
theorem members_merge_rule (g : StdMap (List Nat)) (rule : String × String)
    (hne : rule.1 ≠ rule.2) (hn : g.keys.Nodup) :
    (members (merge_rule g rule)).Perm (members g) := by
  unfold merge_rule
  by_cases hc : (g.count rule.1 && g.count rule.2) = true
  · rw [if_pos hc]
    rw [Bool.and_eq_true, StdMap.count_iff, StdMap.count_iff] at hc
    have hu := members_update_append g rule.2 ((g.find rule.1).getD []) hn hc.2
    have hn1 : (g.update rule.2 (fun v => v ++ (g.find rule.1).getD [])).keys.Nodup := by
      rw [StdMap.keys_update]; exact hn
    have he := members_erase (g.update rule.2 (fun v => v ++ (g.find rule.1).getD [])) rule.1 hn1
    rw [StdMap.find_update_other g rule.2 rule.1 _ hne] at he
    exact (List.perm_append_right_iff _).1 (he.trans hu)
  · rw [if_neg hc]

theorem members_merge_sequential (rules : List (String × String))
    (hne : no_self_merge rules = true) (g : StdMap (List Nat)) (hn : g.keys.Nodup) :
    (members (merge_sequential rules g)).Perm (members g) := by
  induction rules generalizing g with
  | nil => exact List.Perm.refl _
  | cons rule rest ih =>
    rw [no_self_merge, List.all_cons, Bool.and_eq_true, decide_eq_true_eq] at hne
    rw [merge_sequential_cons]
    exact (ih hne.2 _ (nodup_keys_merge_rule g rule hn)).trans
      (members_merge_rule g rule hne.1 hn)

/-- C2, refuted as stated: the first loop of `grouping` builds the buckets `A`,
`B`, `C` from three records of these names.  With the rules `A → B`, `C → A`
the code appends `A` to `B` and then, `A` being still in place, `C` to `A`, and
removes `A` and `C` after the loop: record 2 is lost; applying the rules one
at a time leaves `C` alone.  With the rules `A → B`, `A → C` the code appends
the members of `A` to both `B` and `C`: record 0 is duplicated. -/
theorem merge_step_not_sequential :
    (grouping_loop Sample.helpers Sample.plain
        [Sample.record "A", Sample.record "B", Sample.record "C"]
        { nodes := [], group_result := [], netflix_group := [] }).toOption.map
      (fun b => b.group_result) = some [("A", [0]), ("B", [1]), ("C", [2])] ∧
    merge_groups [("A", "B"), ("C", "A")] [("A", [0]), ("B", [1]), ("C", [2])] =
      [("B", [1, 0])] ∧
    merge_sequential [("A", "B"), ("C", "A")] [("A", [0]), ("B", [1]), ("C", [2])] =
      [("B", [1, 0]), ("C", [2])] ∧
    merge_groups [("A", "B"), ("A", "C")] [("A", [0]), ("B", [1]), ("C", [2])] =
      [("B", [1, 0]), ("C", [2, 0])] ∧
    merge_sequential [("A", "B"), ("A", "C")] [("A", [0]), ("B", [1]), ("C", [2])] =
      [("B", [1, 0]), ("C", [2])] := by
  decide

/-- The merge step under rules that apply one at a time (shared form). -/
theorem merge_step_sequential_aux (rules : List (String × String)) (g : StdMap (List Nat))
    (hs : sources_not_reused rules = true) :
    merge_groups rules g = merge_sequential rules g ∧
    (no_self_merge rules = true ∧ g.keys.Nodup →
      (members (merge_groups rules g)).Perm (members g)) := by
  refine ⟨merge_groups_eq_sequential rules hs g, ?_⟩
  rintro ⟨hne, hn⟩
  rw [merge_groups_eq_sequential rules hs g]
  exact members_merge_sequential rules hne g hn

/-- C2, amended: for every ordered list of merge rules in which no rule names
(as source or target) the source of an earlier rule, and every bucket set, the
merge step yields the same bucket set as applying the rules one at a time in
declaration order, removing the source at once; when moreover no rule merges a
bucket into itself and the labels of the bucket set are distinct, every handle
is a member as often after the merge as before: no record is lost or
duplicated. -/
theorem merge_step_sequential (rules : List (String × String)) (g : StdMap (List Nat))
    (hs : sources_not_reused rules = true) :
    merge_groups rules g = merge_sequential rules g ∧
    (no_self_merge rules = true ∧ g.keys.Nodup →
      (members (merge_groups rules g)).Perm (members g)) := by
  refine ⟨merge_groups_eq_sequential rules hs g, ?_⟩
  rintro ⟨hne, hn⟩
  rw [merge_groups_eq_sequential rules hs g]
  exact members_merge_sequential rules hne g hn

/-- C2, evaluated: the rules `A → B`, `B → C` on the buckets `A`, `B`, `C`. -/
theorem merge_step_sequential_witness :
    sources_not_reused [("A", "B"), ("B", "C")] = true ∧
    no_self_merge [("A", "B"), ("B", "C")] = true ∧
    (StdMap.keys ([("A", [0]), ("B", [1]), ("C", [2])] : StdMap (List Nat))).Nodup ∧
    merge_groups [("A", "B"), ("B", "C")] [("A", [0]), ("B", [1]), ("C", [2])] =
      merge_sequential [("A", "B"), ("B", "C")] [("A", [0]), ("B", [1]), ("C", [2])] ∧
    (members (merge_groups [("A", "B"), ("B", "C")]
      [("A", [0]), ("B", [1]), ("C", [2])])).Perm
      (members [("A", [0]), ("B", [1]), ("C", [2])]) :=
  ⟨by decide, by decide, by decide,
   (merge_step_sequential [("A", "B"), ("B", "C")] [("A", [0]), ("B", [1]), ("C", [2])]
     (by decide)).1,
   (merge_step_sequential [("A", "B"), ("B", "C")] [("A", [0]), ("B", [1]), ("C", [2])]
     (by decide)).2 ⟨by decide, by decide⟩⟩

/-! ## Properties of the first loop of `grouping` -/

theorem members_push (g : StdMap (List Nat)) (k : String) (x : List Nat) (hn : g.keys.Nodup) :
    (members ((g.insert k []).update k (fun v => v ++ x))).Perm (members g ++ x) := by
  have hn1 := StdMap.nodup_keys_insert g k [] hn
  have hk1 : k ∈ (g.insert k []).keys := (StdMap.mem_keys_insert g k [] k).2 (Or.inl rfl)
  refine (members_update_append _ k x hn1 hk1).trans (List.Perm.append_right _ ?_)
  by_cases hk : k ∈ g.keys
  · rw [StdMap.insert_present g k [] hk]
  · exact members_insert g k [] hk

theorem kept_from_cons (H : Helpers) (s : Subscriber) (start : Nat) (proxy : ProxyNode)
    (rest : List ProxyNode) :
    kept_from H s start (proxy :: rest) =
      (if dropped H s proxy = true then [] else [start]) ++ kept_from H s (start + 1) rest := by
  unfold kept_from
  rw [List.enumFrom_cons, List.filter_cons]
  by_cases hd : dropped H s proxy = true <;> simp [hd]

theorem mem_kept_from (H : Helpers) (s : Subscriber) (start : Nat) (proxies : List ProxyNode)
    (h : Nat) :
    h ∈ kept_from H s start proxies ↔
      start ≤ h ∧ ∃ proxy, proxies[h - start]? = some proxy ∧ dropped H s proxy = false := by
  unfold kept_from
  simp only [List.mem_map, List.mem_filter, Prod.exists, Bool.not_eq_true',
    List.mk_mem_enumFrom_iff_le_and_getElem?_sub]
  constructor
  · rintro ⟨i, proxy, ⟨⟨hle, hget⟩, hd⟩, rfl⟩
    exact ⟨hle, proxy, hget, hd⟩
  · rintro ⟨hle, proxy, hget, hd⟩
    exact ⟨h, proxy, ⟨⟨hle, hget⟩, hd⟩, rfl⟩

theorem nodup_kept_from (H : Helpers) (s : Subscriber) (start : Nat) (proxies : List ProxyNode) :
    (kept_from H s start proxies).Nodup := by
  unfold kept_from
  have h1 : ((proxies.enumFrom start).map Prod.fst).Nodup := by
    rw [List.enumFrom_map_fst]
    exact List.nodup_range' _ _
  exact h1.sublist ((List.filter_sublist _).map _)

/-- What one pass of the body of the first loop does, when it does not
throw. -/
theorem grouping_step_ok (H : Helpers) (s : Subscriber) (acc b : Bucketing) (proxy : ProxyNode)
    (h : grouping_step H s acc proxy = .ok b) :
    ∃ a, parse_name H s (H.trim_copy proxy.name) = .ok a ∧
      b.nodes = acc.nodes ++
        [{ proxy with name := H.trim_copy proxy.name, attributes := some a }] ∧
      ((dropped H s proxy = true ∧ b.group_result = acc.group_result ∧
          b.netflix_group = acc.netflix_group) ∨
       (dropped H s proxy = false ∧
          b.group_result =
            (acc.group_result.insert a.location []).update a.location
              (fun v => v ++ [acc.nodes.length]) ∧
          b.netflix_group =
            if a.netflix = true then acc.netflix_group ++ [acc.nodes.length]
            else acc.netflix_group)) := by
  unfold grouping_step at h
  cases hp : parse_name H s (H.trim_copy proxy.name) with
  | error e => simp [hp] at h
  | ok a =>
    refine ⟨a, rfl, ?_⟩
    simp only [hp] at h
    by_cases hd : (s.exclude_amplified_node && a.amplification.gtOne) = true
    · rw [if_pos hd] at h
      cases h
      exact ⟨rfl, Or.inl ⟨by simp [dropped, hp, hd], rfl, rfl⟩⟩
    · rw [if_neg hd] at h
      cases h
      exact ⟨rfl, Or.inr ⟨by simpa [dropped, hp] using hd, rfl, rfl⟩⟩

theorem grouping_loop_cons (H : Helpers) (s : Subscriber) (proxy : ProxyNode)
    (rest : List ProxyNode) (acc b : Bucketing)
    (h : grouping_loop H s (proxy :: rest) acc = .ok b) :
    ∃ acc1, grouping_step H s acc proxy = .ok acc1 ∧ grouping_loop H s rest acc1 = .ok b := by
  rw [grouping_loop] at h
  cases hs : grouping_step H s acc proxy with
  | error e => simp [hs] at h
  | ok acc1 => exact ⟨acc1, rfl, by simpa [hs] using h⟩

/-- The first loop of `grouping`, when it does not throw: the labels of the
buckets stay distinct, the buckets gain exactly the handles of the records
that are not dropped, every new label is the location of a record, and the
netflix list gains only handles of records that are not dropped. -/
theorem grouping_loop_spec (H : Helpers) (s : Subscriber) (proxies : List ProxyNode)
    (acc b : Bucketing) (h : grouping_loop H s proxies acc = .ok b)
    (hn : acc.group_result.keys.Nodup) :
    b.group_result.keys.Nodup ∧
    (members b.group_result).Perm
      (members acc.group_result ++ kept_from H s acc.nodes.length proxies) ∧
    b.nodes.length = acc.nodes.length + proxies.length ∧
    (∀ k ∈ b.group_result.keys,
      k ∈ acc.group_result.keys ∨ ∃ p ∈ proxies, location_of H s p = some k) ∧
    (∀ x ∈ b.netflix_group,
      x ∈ acc.netflix_group ∨ x ∈ kept_from H s acc.nodes.length proxies) := by
  induction proxies generalizing acc with
  | nil =>
    rw [grouping_loop] at h
    cases h
    simp [kept_from, hn]
  | cons proxy rest ih =>
    obtain ⟨acc1, hstep, hrest⟩ := grouping_loop_cons H s proxy rest acc b h
    obtain ⟨a, hp, hnodes, hcase⟩ := grouping_step_ok H s acc acc1 proxy hstep
    have hlen : acc1.nodes.length = acc.nodes.length + 1 := by simp [hnodes]
    rw [kept_from_cons]
    rcases hcase with ⟨hd, hg, hnf⟩ | ⟨hd, hg, hnf⟩
    · obtain ⟨i1, i2, i3, i4, i5⟩ := ih acc1 hrest (hg ▸ hn)
      rw [hlen, hg] at i2
      rw [hlen, hnf] at i5
      rw [hg] at i4
      refine ⟨i1, ?_, ?_, ?_, ?_⟩
      · simpa [hd] using i2
      · rw [i3, hlen, List.length_cons]; omega
      · intro k hk
        rcases i4 k hk with h1 | ⟨p, hpm, hl⟩
        · exact Or.inl h1
        · exact Or.inr ⟨p, List.mem_cons_of_mem _ hpm, hl⟩
      · intro x hx
        rcases i5 x hx with h1 | h1
        · exact Or.inl h1
        · exact Or.inr (by simpa [hd] using h1)
    · have hn1 : acc1.group_result.keys.Nodup := by
        rw [hg, StdMap.keys_update]
        exact StdMap.nodup_keys_insert _ _ _ hn
      obtain ⟨i1, i2, i3, i4, i5⟩ := ih acc1 hrest hn1
      rw [hlen] at i2 i5
      refine ⟨i1, ?_, ?_, ?_, ?_⟩
      · refine i2.trans ?_
        rw [hg]
        have hpush := members_push acc.group_result a.location [acc.nodes.length] hn
        simp only [hd, Bool.false_eq_true, if_false, ← List.append_assoc]
        exact List.Perm.append_right _ hpush
      · rw [i3, hlen, List.length_cons]; omega
      · intro k hk
        rcases i4 k hk with h1 | ⟨p, hpm, hl⟩
        · rw [hg, StdMap.keys_update, StdMap.mem_keys_insert] at h1
          rcases h1 with h1 | h1
          · exact Or.inr ⟨proxy, List.mem_cons_self _ _, by simp [location_of, hp, h1]⟩
          · exact Or.inl h1
        · exact Or.inr ⟨p, List.mem_cons_of_mem _ hpm, hl⟩
      · intro x hx
        rcases i5 x hx with h1 | h1
        · rw [hnf] at h1
          by_cases hnet : a.netflix = true
          · rw [if_pos hnet, List.mem_append, List.mem_singleton] at h1
            rcases h1 with h1 | h1
            · exact Or.inl h1
            · exact Or.inr (by simp [hd, h1])
          · rw [if_neg hnet] at h1
            exact Or.inl h1
        · exact Or.inr (by simp [hd, h1])

/-! ## Properties of the minimum-size filter and of the special buckets -/

theorem size_loop_eq (group_min_size : Nat) (g : StdMap (List Nat)) (ungrouped : List Nat)
    (remove_list : List String) :
    size_loop group_min_size g ungrouped remove_list =
      (ungrouped ++ members (g.filter (fun e => decide (e.2.length < group_min_size))),
       remove_list ++ StdMap.keys (g.filter (fun e => decide (e.2.length < group_min_size)))) := by
  induction g generalizing ungrouped remove_list with
  | nil => simp [size_loop, members, StdMap.keys]
  | cons e rest ih =>
    obtain ⟨name, node⟩ := e
    rw [size_loop]
    by_cases hsmall : node.length < group_min_size
    · rw [if_pos hsmall, ih, List.filter_cons]
      simp [hsmall, members_cons, StdMap.keys_cons]
    · rw [if_neg hsmall, ih, List.filter_cons]
      simp [hsmall]

theorem remove_groups_eq_filter (remove_list : List String) (g : StdMap (List Nat)) :
    remove_groups g remove_list = g.filter (fun e => !decide (e.1 ∈ remove_list)) := by
  induction remove_list generalizing g with
  | nil => simp [remove_groups]
  | cons k rest ih =>
    rw [remove_groups_cons, ih, StdMap.erase, List.filter_filter]
    apply List.filter_congr
    intro e _
    by_cases h1 : e.1 = k <;> by_cases h2 : e.1 ∈ rest <;> simp [h1, h2]

theorem mem_keys_filter_iff (g : StdMap (List Nat)) (p : String × List Nat → Bool)
    (hn : g.keys.Nodup) (e : String × List Nat) (he : e ∈ g) :
    e.1 ∈ StdMap.keys (g.filter p) ↔ p e = true := by
  induction g with
  | nil => simp at he
  | cons e0 rest ih =>
    rw [StdMap.keys_cons, List.nodup_cons] at hn
    rw [List.filter_cons]
    rcases List.mem_cons.1 he with rfl | hmem
    · by_cases hp : p e = true
      · simp [hp, StdMap.keys_cons]
      · simp only [hp, Bool.false_eq_true, if_false, iff_false]
        intro hk
        apply hn.1
        have hsub : (StdMap.keys (List.filter p rest)).Sublist (StdMap.keys rest) :=
          (List.filter_sublist _).map _
        exact hsub.subset hk
    · have hne : e.1 ≠ e0.1 := by
        intro heq
        apply hn.1
        rw [← heq]
        exact List.mem_map_of_mem Prod.fst hmem
      by_cases hp0 : p e0 = true
      · rw [if_pos hp0, StdMap.keys_cons, List.mem_cons]
        constructor
        · rintro (h1 | h1)
          · exact absurd h1 hne
          · exact (ih hn.2 hmem).1 h1
        · intro h1
          exact Or.inr ((ih hn.2 hmem).2 h1)
      · rw [if_neg hp0]
        exact ih hn.2 hmem

/-- The buckets that survive the minimum-size filter are those of at least the
minimum size. -/
theorem size_filter_eq (group_min_size : Nat) (g : StdMap (List Nat)) (hn : g.keys.Nodup) :
    remove_groups g (size_loop group_min_size g [] []).2 =
      g.filter (fun e => !decide (e.2.length < group_min_size)) := by
  rw [remove_groups_eq_filter, size_loop_eq]
  apply List.filter_congr
  intro e he
  simp only [List.nil_append]
  by_cases hs : e.2.length < group_min_size
  · have := (mem_keys_filter_iff g (fun e => decide (e.2.length < group_min_size)) hn e he).2
      (by simpa using hs)
    simp [this, hs]
  · have : e.1 ∉ StdMap.keys (g.filter (fun e => decide (e.2.length < group_min_size))) := by
      intro hk
      have := (mem_keys_filter_iff g (fun e => decide (e.2.length < group_min_size)) hn e he).1 hk
      exact hs (by simpa using this)
    simp [this, hs]

/-- The minimum-size filter moves handles, it neither drops nor repeats
them. -/
theorem size_filter_perm (group_min_size : Nat) (g : StdMap (List Nat)) (hn : g.keys.Nodup) :
    (members (remove_groups g (size_loop group_min_size g [] []).2) ++
      (size_loop group_min_size g [] []).1).Perm (members g) := by
  rw [size_filter_eq group_min_size g hn, size_loop_eq]
  simp only [List.nil_append]
  have hp := List.filter_append_perm (fun e : String × List Nat => decide (e.2.length < group_min_size)) g
  have hm := members_perm hp
  simp only [members, List.flatMap_append] at hm ⊢
  exact List.perm_append_comm.trans hm

theorem mem_size_loop (group_min_size : Nat) (g : StdMap (List Nat)) (h : Nat)
    (hm : h ∈ (size_loop group_min_size g [] []).1) : h ∈ members g := by
  rw [size_loop_eq] at hm
  simp only [List.nil_append] at hm
  rw [mem_members] at hm ⊢
  obtain ⟨e, he, hh⟩ := hm
  exact ⟨e, (List.mem_filter.1 he).1, hh⟩

theorem mem_members_insert (g : StdMap (List Nat)) (k : String) (v : List Nat) (h : Nat)
    (hm : h ∈ members (g.insert k v)) : h ∈ members g ∨ h ∈ v := by
  by_cases hk : k ∈ g.keys
  · rw [StdMap.insert_present g k v hk] at hm
    exact Or.inl hm
  · have hp := members_insert g k v hk
    rcases List.mem_append.1 (hp.mem_iff.1 hm) with h1 | h1
    · exact Or.inr h1
    · exact Or.inl h1

theorem mem_members_insert_special (g : StdMap (List Nat)) (netflix_group ungrouped : List Nat)
    (h : Nat) (hm : h ∈ members (insert_special g netflix_group ungrouped)) :
    h ∈ members g ∨ h ∈ netflix_group ∨ h ∈ ungrouped := by
  unfold insert_special at hm
  by_cases hu : ungrouped.isEmpty = true
  · rw [if_pos hu] at hm
    by_cases hnf : netflix_group.isEmpty = true
    · rw [if_pos hnf] at hm
      exact Or.inl hm
    · rw [if_neg hnf] at hm
      rcases mem_members_insert _ _ _ h hm with h1 | h1
      · exact Or.inl h1
      · exact Or.inr (Or.inl h1)
  · rw [if_neg hu] at hm
    rcases mem_members_insert _ _ _ h hm with h1 | h1
    · by_cases hnf : netflix_group.isEmpty = true
      · rw [if_pos hnf] at h1
        exact Or.inl h1
      · rw [if_neg hnf] at h1
        rcases mem_members_insert _ _ _ h h1 with h2 | h2
        · exact Or.inl h2
        · exact Or.inr (Or.inl h2)
    · exact Or.inr (Or.inr h1)

theorem flat_source_perm {g g1 : StdMap (List Nat)} (h : g.Perm g1) :
    (flat_source g).Perm (flat_source g1) :=
  List.Perm.flatMap_right _ (h.filter _)

theorem flat_source_eq_members (g : StdMap (List Nat)) (h : "netflix" ∉ g.keys) :
    flat_source g = members g := by
  unfold flat_source members
  rw [List.filter_eq_self.2]
  intro e he
  have : e.1 ≠ "netflix" := by
    intro heq
    apply h
    rw [← heq]
    exact List.mem_map_of_mem Prod.fst he
  simpa using this

theorem mem_flat_source (g : StdMap (List Nat)) (h : Nat) (hm : h ∈ flat_source g) :
    h ∈ members g := by
  unfold flat_source at hm
  rw [mem_members]
  obtain ⟨e, he, hh⟩ := List.mem_flatMap.1 hm
  exact ⟨e, (List.mem_filter.1 he).1, hh⟩

/-- When no bucket is labelled `netflix` or `Ungrouped`, the two special
buckets are inserted as they are, and the buckets other than `netflix` hold the
handles of the bucket set and the ungrouped handles. -/
theorem flat_source_insert_special (g : StdMap (List Nat)) (netflix_group ungrouped : List Nat)
    (h1 : "netflix" ∉ g.keys) (h2 : "Ungrouped" ∉ g.keys) :
    (flat_source (insert_special g netflix_group ungrouped)).Perm (members g ++ ungrouped) := by
  have key : ∀ g1 : StdMap (List Nat), (flat_source g1).Perm (members g) →
      "Ungrouped" ∉ g1.keys →
      (flat_source (if ungrouped.isEmpty = true then g1 else g1.insert "Ungrouped" ungrouped)).Perm
        (members g ++ ungrouped) := by
    intro g1 hg1 hu1
    by_cases hu : ungrouped.isEmpty = true
    · rw [if_pos hu]
      have : ungrouped = [] := List.isEmpty_iff.1 hu
      simpa [this] using hg1
    · rw [if_neg hu]
      refine (flat_source_perm (StdMap.insert_perm g1 _ ungrouped hu1)).trans ?_
      have : flat_source (("Ungrouped", ungrouped) :: g1) = ungrouped ++ flat_source g1 := by
        simp [flat_source, List.filter_cons]
      rw [this]
      exact List.perm_append_comm.trans (List.Perm.append_right _ hg1)
  unfold insert_special
  by_cases hnf : netflix_group.isEmpty = true
  · simp only [hnf, if_true]
    exact key g (by rw [flat_source_eq_members g h1]) h2
  · simp only [hnf, Bool.false_eq_true, if_false]
    apply key
    · refine (flat_source_perm (StdMap.insert_perm g _ netflix_group h1)).trans ?_
      have : flat_source (("netflix", netflix_group) :: g) = flat_source g := by
        simp [flat_source, List.filter_cons]
      rw [this, flat_source_eq_members g h1]
    · rw [StdMap.mem_keys_insert]
      rintro (h | h)
      · exact absurd h (by decide)
      · exact h2 h

/-! ## Properties of the loops of `get` -/

theorem get_proxy_invalid (H : Helpers) (s : Subscriber) (name : String) (st : Assembly)
    (current : List String) (handle : Nat) (h : st.nodes[handle]? = none) :
    get_proxy H s name st current handle = (st, current) := by
  unfold get_proxy
  rw [h]

theorem get_proxy_length (H : Helpers) (s : Subscriber) (name : String) (st : Assembly)
    (current : List String) (handle : Nat) :
    (get_proxy H s name st current handle).1.nodes.length = st.nodes.length := by
  unfold get_proxy
  cases hget : st.nodes[handle]? with
  | none => rfl
  | some proxy => simp

theorem get_proxy_fields (H : Helpers) (s : Subscriber) (name : String) (st : Assembly)
    (current : List String) (handle : Nat) :
    (get_proxy H s name st current handle).1.nodes.map (fun node => node.fields) =
      st.nodes.map (fun node => node.fields) := by
  unfold get_proxy
  cases hget : st.nodes[handle]? with
  | none => rfl
  | some proxy =>
    simp only [List.map_set]
    apply List.ext_getElem?
    intro i
    rw [List.getElem?_set]
    by_cases hi : handle = i
    · subst hi
      simp [hget]
      exact (List.getElem?_eq_some_iff.1 hget).1
    · simp [hi]

theorem get_proxy_flat (H : Helpers) (s : Subscriber) (name : String) (st : Assembly)
    (current : List String) (handle : Nat) :
    (get_proxy H s name st current handle).1.flat =
      st.flat ++ (if name ≠ "netflix" ∧ handle < st.nodes.length then [handle] else []) := by
  unfold get_proxy
  cases hget : st.nodes[handle]? with
  | none =>
    have : ¬ handle < st.nodes.length := by
      rw [List.getElem?_eq_none_iff] at hget
      omega
    simp [this]
  | some proxy =>
    have : handle < st.nodes.length := (List.getElem?_eq_some_iff.1 hget).1
    by_cases hn : name = "netflix" <;> simp [hn, this]

theorem get_members_cons (H : Helpers) (s : Subscriber) (name : String) (handle : Nat)
    (rest : List Nat) (st : Assembly) (current : List String) :
    get_members H s name (handle :: rest) st current =
      get_members H s name rest (get_proxy H s name st current handle).1
        (get_proxy H s name st current handle).2 := rfl

theorem get_members_length (H : Helpers) (s : Subscriber) (name : String) (handles : List Nat)
    (st : Assembly) (current : List String) :
    (get_members H s name handles st current).1.nodes.length = st.nodes.length := by
  induction handles generalizing st current with
  | nil => rfl
  | cons handle rest ih => rw [get_members_cons, ih, get_proxy_length]

theorem get_members_fields (H : Helpers) (s : Subscriber) (name : String) (handles : List Nat)
    (st : Assembly) (current : List String) :
    (get_members H s name handles st current).1.nodes.map (fun node => node.fields) =
      st.nodes.map (fun node => node.fields) := by
  induction handles generalizing st current with
  | nil => rfl
  | cons handle rest ih => rw [get_members_cons, ih, get_proxy_fields]

theorem get_members_flat (H : Helpers) (s : Subscriber) (name : String) (handles : List Nat)
    (st : Assembly) (current : List String) :
    (get_members H s name handles st current).1.flat =
      st.flat ++ (if name ≠ "netflix" then
        handles.filter (fun handle => decide (handle < st.nodes.length)) else []) := by
  induction handles generalizing st current with
  | nil => simp [get_members]
  | cons handle rest ih =>
    rw [get_members_cons, ih, get_proxy_flat, get_proxy_length]
    by_cases hn : name = "netflix"
    · simp [hn]
    · by_cases hv : handle < st.nodes.length <;> simp [hn, hv, List.filter_cons]

theorem get_groups_cons (H : Helpers) (s : Subscriber) (head : String)
    (e : String × List Nat) (rest : StdMap (List Nat)) (st : Assembly) (groups : List Group)
    (group_name : List String) :
    get_groups H s head (e :: rest) st groups group_name =
      get_groups H s head rest (get_members H s e.1 e.2 st []).1
        (groups ++ [{ name := head ++ "-" ++ e.1,
                      proxies := (get_members H s e.1 e.2 st []).2 }])
        (group_name ++ [head ++ "-" ++ e.1]) := by
  obtain ⟨name, nodes⟩ := e
  rfl

theorem get_groups_length (H : Helpers) (s : Subscriber) (head : String) (g : StdMap (List Nat))
    (st : Assembly) (groups : List Group) (group_name : List String) :
    (get_groups H s head g st groups group_name).1.nodes.length = st.nodes.length := by
  induction g generalizing st groups group_name with
  | nil => rfl
  | cons e rest ih => rw [get_groups_cons, ih, get_members_length]

theorem get_groups_fields (H : Helpers) (s : Subscriber) (head : String) (g : StdMap (List Nat))
    (st : Assembly) (groups : List Group) (group_name : List String) :
    (get_groups H s head g st groups group_name).1.nodes.map (fun node => node.fields) =
      st.nodes.map (fun node => node.fields) := by
  induction g generalizing st groups group_name with
  | nil => rfl
  | cons e rest ih => rw [get_groups_cons, ih, get_members_fields]

theorem get_groups_flat (H : Helpers) (s : Subscriber) (head : String) (g : StdMap (List Nat))
    (st : Assembly) (groups : List Group) (group_name : List String) :
    (get_groups H s head g st groups group_name).1.flat =
      st.flat ++ (g.filter (fun e => !decide (e.1 = "netflix"))).flatMap
        (fun e => e.2.filter (fun handle => decide (handle < st.nodes.length))) := by
  induction g generalizing st groups group_name with
  | nil => simp [get_groups]
  | cons e rest ih =>
    rw [get_groups_cons, ih, get_members_flat, get_members_length, List.filter_cons]
    by_cases hn : e.1 = "netflix" <;> simp [hn]

/-- The handles of the flat list of `get`: the valid members of the buckets
other than `netflix`, bucket after bucket in the order of the labels. -/
theorem get_flat (H : Helpers) (s : Subscriber) (counter : StdMap Nat) :
    (Subscriber.get H s counter).assembly.flat =
      (s.group_result.filter (fun e => !decide (e.1 = "netflix"))).flatMap
        (fun e => e.2.filter (fun handle => decide (handle < s.proxies.length))) := by
  unfold Subscriber.get
  by_cases he : s.group_result.isEmpty = true
  · rw [if_pos he]
    have : s.group_result = [] := List.isEmpty_iff.1 he
    simp [this]
  · rw [if_neg he]
    simp only [get_groups_flat, List.nil_append]

theorem get_flat_valid (H : Helpers) (s : Subscriber) (counter : StdMap Nat)
    (hv : ∀ h ∈ members s.group_result, h < s.proxies.length) :
    (Subscriber.get H s counter).assembly.flat = flat_source s.group_result := by
  rw [get_flat]
  unfold flat_source
  apply List.flatMap_congr
  intro e he
  apply List.filter_eq_self.2
  intro h hh
  have := hv h ((mem_members _ h).2 ⟨e, (List.mem_filter.1 he).1, hh⟩)
  simpa using this

theorem get_nodes_length (H : Helpers) (s : Subscriber) (counter : StdMap Nat) :
    (Subscriber.get H s counter).assembly.nodes.length = s.proxies.length := by
  unfold Subscriber.get
  by_cases he : s.group_result.isEmpty = true
  · rw [if_pos he]
  · rw [if_neg he]
    simp only [get_groups_length]

theorem get_nodes_fields (H : Helpers) (s : Subscriber) (counter : StdMap Nat) :
    (Subscriber.get H s counter).assembly.nodes.map (fun node => node.fields) =
      s.proxies.map (fun node => node.fields) := by
  unfold Subscriber.get
  by_cases he : s.group_result.isEmpty = true
  · rw [if_pos he]
  · rw [if_neg he]
    simp only [get_groups_fields]

theorem mem_get_flat (H : Helpers) (s : Subscriber) (counter : StdMap Nat) (h : Nat)
    (hm : h ∈ (Subscriber.get H s counter).assembly.flat) :
    h ∈ flat_source s.group_result ∧ h < s.proxies.length := by
  rw [get_flat] at hm
  obtain ⟨e, he, hh⟩ := List.mem_flatMap.1 hm
  rw [List.mem_filter] at hh
  exact ⟨List.mem_flatMap.2 ⟨e, he, hh.1⟩, by simpa using hh.2⟩

/-! ## Properties of `grouping` -/

/-- The steps of `grouping` with grouping enabled, when it does not throw. -/
theorem grouping_enabled (H : Helpers) (s s1 : Subscriber) (group_min_size : Nat)
    (hen : s.enable_grouping = true) (hg : grouping H s group_min_size = .ok s1) :
    ∃ b, grouping_loop H s s.proxies
        { nodes := [], group_result := s.group_result, netflix_group := [] } = .ok b ∧
      s1.proxies = b.nodes ∧
      s1.group_result =
        insert_special
          (remove_groups (merge_groups s.provider.group_merge b.group_result)
            (size_loop group_min_size
              (merge_groups s.provider.group_merge b.group_result) [] []).2)
          b.netflix_group
          (size_loop group_min_size
            (merge_groups s.provider.group_merge b.group_result) [] []).1 := by
  unfold grouping at hg
  rw [if_pos hen] at hg
  cases hl : grouping_loop H s s.proxies
      { nodes := [], group_result := s.group_result, netflix_group := [] } with
  | error e => simp [hl] at hg
  | ok b =>
    simp only [hl] at hg
    cases hg
    exact ⟨b, rfl, rfl, rfl⟩

/-- With grouping enabled on a fresh subscriber, every handle in a bucket
after `grouping` is the handle of a record that the exclude-amplified policy
did not drop. -/
theorem grouping_members_kept (H : Helpers) (s s1 : Subscriber) (group_min_size : Nat)
    (hen : s.enable_grouping = true) (hfresh : s.group_result = [])
    (hg : grouping H s group_min_size = .ok s1) (h : Nat)
    (hm : h ∈ members s1.group_result) : h ∈ kept_handles H s := by
  obtain ⟨b, hloop, _, hres⟩ := grouping_enabled H s s1 group_min_size hen hg
  rw [hfresh] at hloop
  obtain ⟨_, hperm, _, _, hnf⟩ := grouping_loop_spec H s s.proxies _ b hloop (by simp [StdMap.keys])
  simp only [members, List.flatMap_nil, List.nil_append, List.length_nil] at hperm hnf
  have hb : ∀ x, x ∈ members b.group_result → x ∈ kept_handles H s := fun x hx =>
    hperm.mem_iff.1 hx
  rw [hres] at hm
  rcases mem_members_insert_special _ _ _ h hm with h1 | h1 | h1
  · exact hb h (mem_members_merge_groups _ _ h (mem_members_remove_groups _ _ h h1))
  · rcases hnf h h1 with h2 | h2
    · simp at h2
    · exact h2
  · exact hb h (mem_members_merge_groups _ _ h (mem_size_loop _ _ h h1))

theorem grouping_nodes_length (H : Helpers) (s s1 : Subscriber) (group_min_size : Nat)
    (hen : s.enable_grouping = true) (hg : grouping H s group_min_size = .ok s1) :
    s1.proxies.length = s.proxies.length := by
  obtain ⟨b, hloop, hnodes, _⟩ := grouping_enabled H s s1 group_min_size hen hg
  have hn : ∀ (ps : List ProxyNode) (acc b : Bucketing), grouping_loop H s ps acc = .ok b →
      b.nodes.length = acc.nodes.length + ps.length := by
    intro ps
    induction ps with
    | nil =>
      intro acc b h
      rw [grouping_loop] at h
      cases h
      rfl
    | cons proxy rest ih =>
      intro acc b h
      obtain ⟨acc1, hstep, hrest⟩ := grouping_loop_cons H s proxy rest acc b h
      obtain ⟨a, _, hnodes1, _⟩ := grouping_step_ok H s acc acc1 proxy hstep
      rw [ih acc1 b hrest, hnodes1]
      simp
      omega
  rw [hnodes, hn _ _ _ hloop]
  simp

theorem grouping_nodes_fields (H : Helpers) (s s1 : Subscriber) (group_min_size : Nat)
    (hen : s.enable_grouping = true) (hg : grouping H s group_min_size = .ok s1) :
    s1.proxies.map (fun node => node.fields) = s.proxies.map (fun node => node.fields) := by
  obtain ⟨b, hloop, hnodes, _⟩ := grouping_enabled H s s1 group_min_size hen hg
  have hn : ∀ (ps : List ProxyNode) (acc b : Bucketing), grouping_loop H s ps acc = .ok b →
      b.nodes.map (fun node => node.fields) =
        acc.nodes.map (fun node => node.fields) ++ ps.map (fun node => node.fields) := by
    intro ps
    induction ps with
    | nil =>
      intro acc b h
      rw [grouping_loop] at h
      cases h
      simp
    | cons proxy rest ih =>
      intro acc b h
      obtain ⟨acc1, hstep, hrest⟩ := grouping_loop_cons H s proxy rest acc b h
      obtain ⟨a, _, hnodes1, _⟩ := grouping_step_ok H s acc acc1 proxy hstep
      rw [ih acc1 b hrest, hnodes1]
      simp
  rw [hnodes, hn _ _ _ hloop]
  simp

theorem mem_kept_handles_lt (H : Helpers) (s : Subscriber) (h : Nat)
    (hm : h ∈ kept_handles H s) : h < s.proxies.length := by
  unfold kept_handles at hm
  rw [mem_kept_from] at hm
  obtain ⟨_, proxy, hget, _⟩ := hm
  exact (List.getElem?_eq_some_iff.1 hget).1

/-- With the labels `netflix` and `Ungrouped` unused by the records and merge
rules that apply one at a time, the buckets other than `netflix` hold after
`grouping` exactly the handles of the records that were not dropped. -/
theorem grouping_flat_source (H : Helpers) (s s1 : Subscriber) (group_min_size : Nat)
    (hen : s.enable_grouping = true) (hfresh : s.group_result = [])
    (hrules : sources_not_reused s.provider.group_merge = true)
    (hself : no_self_merge s.provider.group_merge = true)
    (hlabels : ∀ p ∈ s.proxies,
      location_of H s p ≠ some "netflix" ∧ location_of H s p ≠ some "Ungrouped")
    (hg : grouping H s group_min_size = .ok s1) :
    (flat_source s1.group_result).Perm (kept_handles H s) := by
  obtain ⟨b, hloop, _, hres⟩ := grouping_enabled H s s1 group_min_size hen hg
  rw [hfresh] at hloop
  obtain ⟨hnd, hperm, _, hkeys, _⟩ :=
    grouping_loop_spec H s s.proxies _ b hloop (by simp [StdMap.keys])
  simp only [members, List.flatMap_nil, List.nil_append, List.length_nil] at hperm
  have hmerge := (merge_step_sequential_aux s.provider.group_merge b.group_result hrules).2
    ⟨hself, hnd⟩
  have hnd1 := nodup_keys_merge_groups s.provider.group_merge b.group_result hnd
  have hsize := size_filter_perm group_min_size _ hnd1
  have hkey : ∀ k, k ∈ (remove_groups (merge_groups s.provider.group_merge b.group_result)
      (size_loop group_min_size
        (merge_groups s.provider.group_merge b.group_result) [] []).2).keys →
      ∃ p ∈ s.proxies, location_of H s p = some k := by
    intro k hk
    rw [keys_remove_groups] at hk
    rcases hkeys k (keys_merge_groups _ _ k hk.1) with h1 | h1
    · simp [StdMap.keys] at h1
    · exact h1
  have h1 : "netflix" ∉ (remove_groups (merge_groups s.provider.group_merge b.group_result)
      (size_loop group_min_size
        (merge_groups s.provider.group_merge b.group_result) [] []).2).keys := by
    intro hk
    obtain ⟨p, hp, hl⟩ := hkey _ hk
    exact (hlabels p hp).1 hl
  have h2 : "Ungrouped" ∉ (remove_groups (merge_groups s.provider.group_merge b.group_result)
      (size_loop group_min_size
        (merge_groups s.provider.group_merge b.group_result) [] []).2).keys := by
    intro hk
    obtain ⟨p, hp, hl⟩ := hkey _ hk
    exact (hlabels p hp).2 hl
  rw [hres]
  exact (flat_source_insert_special _ b.netflix_group _ h1 h2).trans
    (hsize.trans (hmerge.trans hperm))

theorem filterMap_handles_length {α : Type} (nodes : List α) (handles : List Nat)
    (hv : ∀ h ∈ handles, h < nodes.length) :
    (handles.filterMap (fun h => nodes[h]?)).length = handles.length := by
  induction handles with
  | nil => rfl
  | cons h rest ih =>
    have hlt : h < nodes.length := hv h (List.mem_cons_self _ _)
    have hget : nodes[h]? = some nodes[h] := List.getElem?_eq_getElem hlt
    rw [List.filterMap_cons, hget]
    simp only [List.length_cons]
    rw [ih (fun x hx => hv x (List.mem_cons_of_mem _ hx))]

/-- C1, refuted as stated: of the records `B`, `A` (in this input order) the
flat list holds first the record `A`, then the record `B`: the list follows the
buckets in the order of their labels, not the input. -/
theorem flat_list_not_in_input_order :
    ∃ s1, grouping Sample.helpers
        { Sample.plain with proxies := [Sample.record "B", Sample.record "A"] } 1 = .ok s1 ∧
      kept_handles Sample.helpers
        { Sample.plain with proxies := [Sample.record "B", Sample.record "A"] } = [0, 1] ∧
      (Subscriber.get Sample.helpers s1 []).assembly.flat = [1, 0] ∧
      (Subscriber.get Sample.helpers s1 []).document.proxies.map (fun node => node.name) =
        ["A", "B"] :=
  ⟨{ Sample.plain with
      proxies := [{ name := "B", attributes := some (default_attribute "B"), fields := [] },
                  { name := "A", attributes := some (default_attribute "A"), fields := [] }]
      group_result := [("A", [1]), ("B", [0])] },
   rfl, by decide, by decide, by decide⟩

/-- The steps of `grouping` with grouping disabled. -/
theorem grouping_disabled (H : Helpers) (s s1 : Subscriber) (group_min_size : Nat)
    (hen : s.enable_grouping = false) (hg : grouping H s group_min_size = .ok s1) :
    s1.proxies = s.proxies.map (fun proxy => { proxy with name := H.trim_copy proxy.name }) ∧
    s1.group_result = insert_special s.group_result [] (List.range s.proxies.length) := by
  unfold grouping at hg
  rw [if_neg (by simp [hen])] at hg
  cases hg
  exact ⟨rfl, by simp⟩

theorem insert_special_fresh (ungrouped : List Nat) :
    flat_source (insert_special [] [] ungrouped) = ungrouped ∧
    members (insert_special [] [] ungrouped) = ungrouped := by
  unfold insert_special
  cases ungrouped with
  | nil => simp [flat_source, members]
  | cons h rest =>
    simp [flat_source, members, StdMap.insert, StdMap.count, StdMap.place]

/-- After `grouping` on a fresh subscriber every bucket member is the handle
of a record, and the records keep their number and their other keys. -/
theorem grouping_valid (H : Helpers) (s s1 : Subscriber) (group_min_size : Nat)
    (hfresh : s.group_result = []) (hg : grouping H s group_min_size = .ok s1) :
    (∀ h ∈ members s1.group_result, h < s1.proxies.length) ∧
    s1.proxies.length = s.proxies.length ∧
    s1.proxies.map (fun node => node.fields) = s.proxies.map (fun node => node.fields) := by
  by_cases hen : s.enable_grouping = true
  · have hlen := grouping_nodes_length H s s1 group_min_size hen hg
    refine ⟨?_, hlen, grouping_nodes_fields H s s1 group_min_size hen hg⟩
    intro h hm
    rw [hlen]
    exact mem_kept_handles_lt H s h (grouping_members_kept H s s1 group_min_size hen hfresh hg h hm)
  · have hen1 : s.enable_grouping = false := by simpa using hen
    obtain ⟨hnodes, hres⟩ := grouping_disabled H s s1 group_min_size hen1 hg
    rw [hfresh] at hres
    refine ⟨?_, by simp [hnodes], by simp [hnodes]⟩
    intro h hm
    rw [hres, (insert_special_fresh _).2] at hm
    simpa [hnodes] using hm

/-- C1, amended: on a fresh subscriber, the flat list of the document returned
by `get` after `grouping` holds the members of each bucket other than
`netflix`, bucket after bucket in the order of the labels (the netflix bucket
is never the source of an entry), and each entry carries the keys of the input
record with that handle.  With grouping disabled these are all the records in
input order.  With grouping enabled, merge rules that apply one at a time and
no record whose location label is `netflix` or `Ungrouped`, the flat list
holds every record that the exclude-amplified policy did not drop exactly
once, and no other. -/
theorem flat_list_holds_kept_records (H : Helpers) (s s1 : Subscriber) (group_min_size : Nat)
    (counter : StdMap Nat) (hfresh : s.group_result = [])
    (hg : grouping H s group_min_size = .ok s1) :
    (Subscriber.get H s1 counter).assembly.flat = flat_source s1.group_result ∧
    (Subscriber.get H s1 counter).document.proxies.length =
      (Subscriber.get H s1 counter).assembly.flat.length ∧
    (Subscriber.get H s1 counter).document.proxies.map (fun node => node.fields) =
      (Subscriber.get H s1 counter).assembly.flat.filterMap
        (fun h => (s.proxies[h]?).map (fun node => node.fields)) ∧
    (s.enable_grouping = false →
      (Subscriber.get H s1 counter).assembly.flat = List.range s.proxies.length) ∧
    (s.enable_grouping = true ∧
      sources_not_reused s.provider.group_merge = true ∧
      no_self_merge s.provider.group_merge = true ∧
      (∀ p ∈ s.proxies,
        location_of H s p ≠ some "netflix" ∧ location_of H s p ≠ some "Ungrouped") →
      (Subscriber.get H s1 counter).assembly.flat.Perm (kept_handles H s)) := by
  obtain ⟨hv, _, hfields⟩ := grouping_valid H s s1 group_min_size hfresh hg
  have hflat := get_flat_valid H s1 counter hv
  have hvalid : ∀ h ∈ (Subscriber.get H s1 counter).assembly.flat,
      h < (Subscriber.get H s1 counter).assembly.nodes.length := by
    intro h hm
    rw [get_nodes_length]
    exact (mem_get_flat H s1 counter h hm).2
  refine ⟨hflat, filterMap_handles_length _ _ hvalid, ?_, ?_, ?_⟩
  · unfold Output.document
    simp only [List.map_filterMap]
    apply List.filterMap_congr
    intro h _
    have h1 := congrArg (fun l => l[h]?) (get_nodes_fields H s1 counter)
    have h2 := congrArg (fun l => l[h]?) hfields
    simp only [List.getElem?_map] at h1 h2
    rw [← h2, ← h1]
  · intro hen
    obtain ⟨_, hres⟩ := grouping_disabled H s s1 group_min_size hen hg
    rw [hflat, hres, hfresh, (insert_special_fresh _).1]
  · rintro ⟨hen, hrules, hself, hlabels⟩
    rw [hflat]
    exact grouping_flat_source H s s1 group_min_size hen hfresh hrules hself hlabels hg

/-- C1, evaluated: the records `B`, `A`, `B` with minimum size 2 and grouping
enabled. -/
theorem flat_list_holds_kept_records_witness :
    ∃ s1, grouping Sample.helpers
        { Sample.plain with
          proxies := [Sample.record "B", Sample.record "A", Sample.record "B"] } 2 = .ok s1 ∧
      s1.group_result = [("B", [0, 2]), ("Ungrouped", [1])] ∧
      (Subscriber.get Sample.helpers s1 []).assembly.flat = flat_source s1.group_result ∧
      (Subscriber.get Sample.helpers s1 []).assembly.flat = [0, 2, 1] ∧
      (Subscriber.get Sample.helpers s1 []).assembly.flat.Perm
        (kept_handles Sample.helpers
          { Sample.plain with
            proxies := [Sample.record "B", Sample.record "A", Sample.record "B"] }) :=
  ⟨{ Sample.plain with
      proxies := [{ name := "B", attributes := some (default_attribute "B"), fields := [] },
                  { name := "A", attributes := some (default_attribute "A"), fields := [] },
                  { name := "B", attributes := some (default_attribute "B"), fields := [] }]
      group_result := [("B", [0, 2]), ("Ungrouped", [1])] },
   rfl, rfl,
   (flat_list_holds_kept_records Sample.helpers
     { Sample.plain with
       proxies := [Sample.record "B", Sample.record "A", Sample.record "B"] }
     _ 2 [] rfl rfl).1,
   by decide,
   (flat_list_holds_kept_records Sample.helpers
     { Sample.plain with
       proxies := [Sample.record "B", Sample.record "A", Sample.record "B"] }
     _ 2 [] rfl rfl).2.2.2.2 ⟨rfl, by decide, by decide, by decide⟩⟩

/-- C3, the failing input: of the records `Ungrouped`, `Ungrouped`, `HK` with
minimum size 2, the bucket `HK` (member 2) is removed by the minimum-size
filter, but the insertion of the `Ungrouped` bucket does nothing because a
location bucket of that label is present: record 2 is in no bucket at all. -/
theorem size_filter_loses_members :
    ∃ s1, grouping Sample.helpers
        { Sample.plain with
          proxies := [Sample.record "Ungrouped", Sample.record "Ungrouped",
                      Sample.record "HK"] } 2 = .ok s1 ∧
      size_loop 2 [("HK", [2]), ("Ungrouped", [0, 1])] [] [] = ([2], ["HK"]) ∧
      s1.group_result = [("Ungrouped", [0, 1])] ∧
      2 ∉ members s1.group_result :=
  ⟨{ Sample.plain with
      proxies := [{ name := "Ungrouped", attributes := some (default_attribute "Ungrouped"),
                    fields := [] },
                  { name := "Ungrouped", attributes := some (default_attribute "Ungrouped"),
                    fields := [] },
                  { name := "HK", attributes := some (default_attribute "HK"), fields := [] }]
      group_result := [("Ungrouped", [0, 1])] },
   rfl, by decide, rfl, by decide⟩

/-! ## Properties of the exclude-amplified policy -/

theorem grouping_loop_parses (H : Helpers) (s : Subscriber) (proxies : List ProxyNode)
    (acc b : Bucketing) (h : grouping_loop H s proxies acc = .ok b) :
    ∀ p ∈ proxies, ∃ a, parse_name H s (H.trim_copy p.name) = .ok a := by
  induction proxies generalizing acc with
  | nil => simp
  | cons proxy rest ih =>
    obtain ⟨acc1, hstep, hrest⟩ := grouping_loop_cons H s proxy rest acc b h
    obtain ⟨a, hp, _, _⟩ := grouping_step_ok H s acc acc1 proxy hstep
    intro p hp1
    rcases List.mem_cons.1 hp1 with rfl | hmem
    · exact ⟨a, hp⟩
    · exact ih acc1 hrest p hmem

/-- The amplification that `parse_name` returns for a matching name with a
location: the value of the amplification capture. -/
theorem parse_name_amplification (H : Helpers) (s : Subscriber) (name : String)
    (result : List String) (d : Definition) (location text : String) (value : FloatVal)
    (a : NameAttribute)
    (hmatch : s.name_pattern name = some result)
    (hdef : s.provider.definition = some d)
    (hloc : get_value (get_regex_result s result) d.location_name "" = .ok location)
    (hlne : location.isEmpty = false)
    (hamp : get_value (get_regex_result s result) d.amplification "1.0f" = .ok text)
    (htext : text.isEmpty = false)
    (hstof : H.stof text = .ok value)
    (hp : parse_name H s name = .ok a) : a.amplification = value := by
  unfold parse_name at hp
  simp only [hmatch, hdef, hloc, bind, Except.bind, hlne, Bool.false_eq_true, if_false] at hp
  cases h1 : get_value (get_regex_result s result) d.position "-1" with
  | error e => simp [h1] at hp
  | ok position =>
    simp only [h1] at hp
    cases h2 : stoi position with
    | error e => simp [h2] at hp
    | ok id =>
      simp only [h2] at hp
      cases h3 : get_value (get_regex_result s result) d.netflix "" with
      | error e => simp [h3] at hp
      | ok netflix =>
        simp only [h3, hamp, htext, Bool.false_eq_true, if_false, hstof, pure,
          Except.pure, Except.ok.injEq] at hp
        rw [← hp]

theorem get_proxy_current_length (H : Helpers) (s : Subscriber) (name : String) (st : Assembly)
    (current : List String) (handle : Nat) :
    (get_proxy H s name st current handle).2.length =
      current.length + (if handle < st.nodes.length then 1 else 0) := by
  unfold get_proxy
  cases hget : st.nodes[handle]? with
  | none =>
    have : ¬ handle < st.nodes.length := by
      rw [List.getElem?_eq_none_iff] at hget
      omega
    simp [this]
  | some proxy =>
    have : handle < st.nodes.length := (List.getElem?_eq_some_iff.1 hget).1
    simp [this]

theorem get_members_current_length (H : Helpers) (s : Subscriber) (name : String)
    (handles : List Nat) (st : Assembly) (current : List String) :
    (get_members H s name handles st current).2.length =
      current.length + (handles.filter (fun handle => decide (handle < st.nodes.length))).length := by
  induction handles generalizing st current with
  | nil => simp [get_members]
  | cons handle rest ih =>
    rw [get_members_cons, ih, get_proxy_current_length, get_proxy_length, List.filter_cons]
    by_cases hv : handle < st.nodes.length <;> simp [hv]
    omega

/-- The groups of the document: one per bucket, in the order of the buckets,
labelled with the head and the bucket label, with one member label per valid
handle of the bucket. -/
theorem get_groups_shape (H : Helpers) (s : Subscriber) (head : String) (g : StdMap (List Nat))
    (st : Assembly) (groups : List Group) (group_name : List String) :
    (get_groups H s head g st groups group_name).2.1.map
        (fun grp => (grp.name, grp.proxies.length)) =
      groups.map (fun grp => (grp.name, grp.proxies.length)) ++
        g.map (fun e => (head ++ "-" ++ e.1,
          (e.2.filter (fun handle => decide (handle < st.nodes.length))).length)) ∧
    (get_groups H s head g st groups group_name).2.2 =
      group_name ++ g.map (fun e => head ++ "-" ++ e.1) := by
  induction g generalizing st groups group_name with
  | nil => simp [get_groups]
  | cons e rest ih =>
    rw [get_groups_cons]
    obtain ⟨i1, i2⟩ := ih (get_members H s e.1 e.2 st []).1
      (groups ++ [{ name := head ++ "-" ++ e.1, proxies := (get_members H s e.1 e.2 st []).2 }])
      (group_name ++ [head ++ "-" ++ e.1])
    rw [i1, i2, get_members_length]
    simp [get_members_current_length]

theorem get_shape (H : Helpers) (s : Subscriber) (counter : StdMap Nat)
    (hv : ∀ h ∈ members s.group_result, h < s.proxies.length) :
    (Subscriber.get H s counter).groups.map (fun grp => (grp.name, grp.proxies.length)) =
      s.group_result.map (fun e => (label_head_of s ++ "-" ++ e.1, e.2.length)) ∧
    (Subscriber.get H s counter).group_name =
      s.group_result.map (fun e => label_head_of s ++ "-" ++ e.1) := by
  unfold Subscriber.get
  by_cases he : s.group_result.isEmpty = true
  · rw [if_pos he]
    have : s.group_result = [] := List.isEmpty_iff.1 he
    simp [this]
  · rw [if_neg he]
    have hs := get_groups_shape H s (label_head_of s) s.group_result
      { nodes := s.proxies, location_counter := counter, flat := [], assigned := [] } [] []
    simp only [List.map_nil, List.nil_append] at hs
    refine ⟨?_, hs.2⟩
    show List.map (fun grp => (grp.name, grp.proxies.length))
      (get_groups H s (label_head_of s) s.group_result _ [] []).2.1 = _
    rw [hs.1]
    apply List.map_congr_left
    intro e he1
    have : e.2.filter (fun handle => decide (handle < s.proxies.length)) = e.2 := by
      apply List.filter_eq_self.2
      intro h hh
      simpa using hv h ((mem_members _ h).2 ⟨e, he1, hh⟩)
    simp [this]

/-- C6, refuted as stated: the name `-c-2.0` matches the pattern, and its
amplification capture is `2.0`, above `1.0`; its location capture is empty, so
`parse_name` keeps the default attributes and the record stays, in the bucket
named after it and in the flat list. -/
theorem amplified_record_kept :
    Sample.dash_fields 3 "-c-2.0" = some ["-c-2.0", "", "c", "2.0"] ∧
    (Sample.stof "2.0").toOption.map FloatVal.gtOne = some true ∧
    ∃ s1, grouping Sample.helpers
        { Sample.plain with
          proxies := [Sample.record "-c-2.0"]
          exclude_amplified_node := true
          name_pattern := Sample.dash_fields 3
          provider :=
            { definition := some { location_name := some 1, position := some (-1),
                                   netflix := some (-1), amplification := some 3 }
              group_merge := [], label_head := none } } 1 = .ok s1 ∧
      s1.group_result = [("-c-2.0", [0])] ∧
      (Subscriber.get Sample.helpers s1 []).assembly.flat = [0] ∧
      (Subscriber.get Sample.helpers s1 []).groups =
        [{ name := "Generated--c-2.0", proxies := ["-c-2.0"] }] :=
  ⟨by decide, by decide,
   { Sample.plain with
      proxies := [{ name := "-c-2.0", attributes := some (default_attribute "-c-2.0"),
                    fields := [] }]
      exclude_amplified_node := true
      name_pattern := Sample.dash_fields 3
      provider :=
        { definition := some { location_name := some 1, position := some (-1),
                               netflix := some (-1), amplification := some 3 }
          group_merge := [], label_head := none }
      group_result := [("-c-2.0", [0])] },
   rfl, rfl, by decide, by decide⟩

/-- C6, amended: with grouping enabled and `exclude_amplified_node` set, on a
fresh subscriber, every record whose trimmed name matches the pattern with a
location capture that is not empty and an amplification capture that
`std::stof` reads as a value above `1.0` is, after `grouping`, a member of no
bucket (location buckets, `Ungrouped`, `netflix`), and its handle is not in the
flat list of `get`; the member lists of the groups hold one label per member
of the bucket they are built from. -/
theorem amplified_record_excluded (H : Helpers) (s s1 : Subscriber) (group_min_size : Nat)
    (counter : StdMap Nat) (handle : Nat) (proxy : ProxyNode) (result : List String)
    (d : Definition) (location text : String) (value : FloatVal)
    (hen : s.enable_grouping = true) (hex : s.exclude_amplified_node = true)
    (hfresh : s.group_result = [])
    (hg : grouping H s group_min_size = .ok s1)
    (hrec : s.proxies[handle]? = some proxy)
    (hmatch : s.name_pattern (H.trim_copy proxy.name) = some result)
    (hdef : s.provider.definition = some d)
    (hloc : get_value (get_regex_result s result) d.location_name "" = .ok location)
    (hlne : location.isEmpty = false)
    (hamp : get_value (get_regex_result s result) d.amplification "1.0f" = .ok text)
    (htext : text.isEmpty = false)
    (hstof : H.stof text = .ok value) (hgt : value.gtOne = true) :
    handle ∉ members s1.group_result ∧
    handle ∉ (Subscriber.get H s1 counter).assembly.flat ∧
    (Subscriber.get H s1 counter).groups.map (fun grp => (grp.name, grp.proxies.length)) =
      s1.group_result.map (fun e => (label_head_of s1 ++ "-" ++ e.1, e.2.length)) := by
  obtain ⟨b, hloop, _, _⟩ := grouping_enabled H s s1 group_min_size hen hg
  obtain ⟨a, hp⟩ := grouping_loop_parses H s s.proxies _ b hloop proxy
    (List.mem_iff_getElem?.2 ⟨handle, hrec⟩)
  have hval := parse_name_amplification H s _ result d location text value a hmatch hdef hloc
    hlne hamp htext hstof hp
  have hdrop : dropped H s proxy = true := by
    simp [dropped, hp, hex, hval, hgt]
  have hnot : handle ∉ kept_handles H s := by
    intro hm
    unfold kept_handles at hm
    rw [mem_kept_from] at hm
    obtain ⟨_, proxy1, hget, hd⟩ := hm
    rw [Nat.sub_zero, hrec, Option.some.injEq] at hget
    rw [← hget, hdrop] at hd
    exact absurd hd (by decide)
  have hin : handle ∉ members s1.group_result := fun hm =>
    hnot (grouping_members_kept H s s1 group_min_size hen hfresh hg handle hm)
  have hv : ∀ h ∈ members s1.group_result, h < s1.proxies.length := by
    intro h hm
    rw [grouping_nodes_length H s s1 group_min_size hen hg]
    exact mem_kept_handles_lt H s h (grouping_members_kept H s s1 group_min_size hen hfresh hg h hm)
  refine ⟨hin, ?_, (get_shape H s1 counter hv).1⟩
  intro hm
  exact hin (mem_flat_source _ _ (mem_get_flat H s1 counter handle hm).1)

/-- C6, evaluated: of the records `HK-a-2.0` and `HK-b-1.0` the first is
dropped. -/
theorem amplified_record_excluded_witness :
    ∃ s1, grouping Sample.helpers
        { Sample.plain with
          proxies := [Sample.record "HK-a-2.0", Sample.record "HK-b-1.0"]
          exclude_amplified_node := true
          name_pattern := Sample.dash_fields 3
          provider :=
            { definition := some { location_name := some 1, position := some (-1),
                                   netflix := some (-1), amplification := some 3 }
              group_merge := [], label_head := none } } 1 = .ok s1 ∧
      s1.group_result = [("HK", [1])] ∧
      0 ∉ members s1.group_result ∧
      0 ∉ (Subscriber.get Sample.helpers s1 []).assembly.flat ∧
      (Subscriber.get Sample.helpers s1 []).groups.map
          (fun grp => (grp.name, grp.proxies.length)) =
        s1.group_result.map (fun e => (label_head_of s1 ++ "-" ++ e.1, e.2.length)) :=
  ⟨{ Sample.plain with
      proxies := [{ name := "HK-a-2.0",
                    attributes := some { location := "HK", id := -1, netflix := false,
                                         amplification := .finite 2 },
                    fields := [] },
                  { name := "HK-b-1.0",
                    attributes := some { location := "HK", id := -1, netflix := false,
                                         amplification := .finite 1 },
                    fields := [] }]
      exclude_amplified_node := true
      name_pattern := Sample.dash_fields 3
      provider :=
        { definition := some { location_name := some 1, position := some (-1),
                               netflix := some (-1), amplification := some 3 }
          group_merge := [], label_head := none }
      group_result := [("HK", [1])] },
   rfl, rfl,
   amplified_record_excluded Sample.helpers
     { Sample.plain with
       proxies := [Sample.record "HK-a-2.0", Sample.record "HK-b-1.0"]
       exclude_amplified_node := true
       name_pattern := Sample.dash_fields 3
       provider :=
         { definition := some { location_name := some 1, position := some (-1),
                                netflix := some (-1), amplification := some 3 }
           group_merge := [], label_head := none } }
     _ 1 [] 0 (Sample.record "HK-a-2.0") ["HK-a-2.0", "HK", "a", "2.0"]
     { location_name := some 1, position := some (-1), netflix := some (-1),
       amplification := some 3 }
     "HK" "2.0" (.finite 2)
     rfl rfl rfl rfl rfl (by decide) rfl (by decide) (by decide) (by decide) (by decide)
     (by decide) (by decide)⟩

/-! ## Properties of the name generator -/

theorem to_int_small (n : Nat) (h : n < 2147483648) : to_int n = (n : Int) := by
  unfold to_int
  have h1 : n % 4294967296 = n := Nat.mod_eq_of_lt (by omega)
  simp only [h1, h, if_true]

theorem consecutive_one (first : Nat) : consecutive first 1 = [(first : Int)] := by
  simp [consecutive, List.range_succ]

theorem consecutive_append (first n1 n2 : Nat) :
    consecutive first n1 ++ consecutive (first + n1) n2 = consecutive first (n1 + n2) := by
  unfold consecutive
  rw [List.range_add, List.map_append, List.map_map]
  congr 1
  apply List.map_congr_left
  intro k _
  simp [Nat.add_assoc]

theorem ids_of_append (location : String) (T1 T2 : List (Nat × String × Int)) :
    ids_of location (T1 ++ T2) = ids_of location T1 ++ ids_of location T2 := by
  simp [ids_of]

theorem ids_of_length_le (location : String) (T : List (Nat × String × Int)) :
    (ids_of location T).length ≤ T.length := by
  unfold ids_of
  rw [List.length_map]
  exact List.length_filter_le _ _

/-- The counters after a call of the name generator that takes an id. -/
theorem name_generator_counter (H : Helpers) (s : Subscriber) (c : StdMap Nat)
    (proxy : ProxyNode) (a : NameAttribute) (hid : a.id = -1) (location : String) :
    (name_generator H s c proxy a).id =
      to_int ((counter_of c a.location + 1) % 18446744073709551616) ∧
    counter_of (name_generator H s c proxy a).location_counter location =
      if location = a.location then (counter_of c a.location + 1) % 18446744073709551616
      else counter_of c location := by
  unfold name_generator counter_of
  simp only [hid, if_true, StdMap.find_insert_self, Option.getD_some, true_and]
  by_cases hl : location = a.location
  · subst hl
    rw [if_pos rfl, StdMap.find_update_self, StdMap.find_insert_self]
    rfl
  · rw [if_neg hl, StdMap.find_update_other _ _ _ _ hl, StdMap.find_insert_other _ _ _ _ hl]

theorem name_generator_explicit (H : Helpers) (s : Subscriber) (c : StdMap Nat)
    (proxy : ProxyNode) (a : NameAttribute) (hid : a.id ≠ -1) :
    (name_generator H s c proxy a).location_counter = c := by
  unfold name_generator
  simp [hid]

theorem awaits_id_iff (nodes : List ProxyNode) (h : Nat) (location : String) :
    awaits_id nodes h location = true ↔
      ∃ node a, nodes[h]? = some node ∧ node.attributes = some a ∧ a.id = -1 ∧
        a.location = location := by
  unfold awaits_id
  cases hget : nodes[h]? with
  | none => simp
  | some node =>
    cases hattr : node.attributes with
    | none => simp [hattr]
    | some a => simp [hattr]

theorem Visits.nil (st : Assembly) : Visits st [] st where
  length_eq := rfl
  stripped := by simp
  untouched := fun _ _ => rfl
  trace := ⟨[], by simp, by simp, by simp, by simp, by
    intro location _
    simp [ids_of, consecutive]⟩

/-- Visits compose. -/
theorem Visits.append {st st1 st2 : Assembly} {hs1 hs2 : List Nat}
    (v1 : Visits st hs1 st1) (v2 : Visits st1 hs2 st2) : Visits st (hs1 ++ hs2) st2 := by
  obtain ⟨T1, ha1, hn1, hl1, hi1, hc1⟩ := v1.trace
  obtain ⟨T2, ha2, hn2, hl2, hi2, hc2⟩ := v2.trace
  have hfresh : ∀ h location, h ∈ hs1 → ¬ awaits_id st1.nodes h location = true := by
    intro h location hh haw
    obtain ⟨node, a, hget, hattr, _, _⟩ := (awaits_id_iff _ _ _).1 haw
    rw [v1.stripped h hh node hget] at hattr
    exact absurd hattr (by simp)
  refine ⟨v2.length_eq.trans v1.length_eq, ?_, ?_, ⟨T1 ++ T2, ?_, ?_, ?_, ?_, ?_⟩⟩
  · intro h hh node hget
    by_cases h2 : h ∈ hs2
    · exact v2.stripped h h2 node hget
    · have h1 : h ∈ hs1 := by
        rcases List.mem_append.1 hh with h1 | h1
        · exact h1
        · exact absurd h1 h2
      rw [v2.untouched h h2] at hget
      exact v1.stripped h h1 node hget
  · intro h hh
    rw [List.mem_append, not_or] at hh
    rw [v2.untouched h hh.2, v1.untouched h hh.1]
  · rw [ha2, ha1, List.append_assoc]
  · rw [List.map_append, List.nodup_append]
    refine ⟨hn1, hn2, ?_⟩
    intro h hm1 hm2
    obtain ⟨⟨h1, loc1, id1⟩, ht1, rfl⟩ := List.mem_map.1 hm1
    obtain ⟨⟨h2, loc2, id2⟩, ht2, heq⟩ := List.mem_map.1 hm2
    simp only at heq
    subst heq
    have e1 := (hi1 h2 loc1).1 ⟨id1, ht1⟩
    have e2 := (hi2 h2 loc2).1 ⟨id2, ht2⟩
    exact hfresh h2 loc2 e1.1 e2.2
  · rw [List.length_append, List.length_append]
    omega
  · intro h location
    constructor
    · rintro ⟨id, hm⟩
      rcases List.mem_append.1 hm with hm | hm
      · have e1 := (hi1 h location).1 ⟨id, hm⟩
        exact ⟨List.mem_append_left _ e1.1, e1.2⟩
      · have e2 := (hi2 h location).1 ⟨id, hm⟩
        have hnot : h ∉ hs1 := fun hh => hfresh h location hh e2.2
        refine ⟨List.mem_append_right _ e2.1, ?_⟩
        have e3 := e2.2
        unfold awaits_id at e3 ⊢
        rw [v1.untouched h hnot] at e3
        exact e3
    · rintro ⟨hh, haw⟩
      by_cases h1 : h ∈ hs1
      · obtain ⟨id, hm⟩ := (hi1 h location).2 ⟨h1, haw⟩
        exact ⟨id, List.mem_append_left _ hm⟩
      · have h2 : h ∈ hs2 := by
          rcases List.mem_append.1 hh with h3 | h3
          · exact absurd h3 h1
          · exact h3
        have haw1 : awaits_id st1.nodes h location = true := by
          unfold awaits_id at haw ⊢
          rw [v1.untouched h h1]
          exact haw
        obtain ⟨id, hm⟩ := (hi2 h location).2 ⟨h2, haw1⟩
        exact ⟨id, List.mem_append_right _ hm⟩
  · intro location hb
    rw [List.length_append] at hb
    obtain ⟨e1, k1⟩ := hc1 location (by omega)
    have hle := ids_of_length_le location T1
    obtain ⟨e2, k2⟩ := hc2 location (by rw [k1]; omega)
    rw [ids_of_append, List.length_append]
    constructor
    · rw [← consecutive_append]
      rw [k1] at e2
      have e2a : ids_of location T2 =
          consecutive (counter_of st.location_counter location + 1 + (ids_of location T1).length)
            (ids_of location T2).length := by
        rw [e2]
        congr 1
        · omega
        · rw [← e2]
      rw [← e2a, ← e1]
    · rw [k2, k1]
      omega

/-- The state after a visit of a record that carries attributes. -/
theorem get_proxy_attributes (H : Helpers) (s : Subscriber) (name : String) (st : Assembly)
    (current : List String) (handle : Nat) (proxy : ProxyNode) (a : NameAttribute)
    (hget : st.nodes[handle]? = some proxy) (hattr : proxy.attributes = some a) :
    get_proxy H s name st current handle =
      ({ nodes := st.nodes.set handle
           { proxy with name := (name_generator H s st.location_counter proxy a).label,
                        attributes := none }
         location_counter := (name_generator H s st.location_counter proxy a).location_counter
         flat := if name ≠ "netflix" then st.flat ++ [handle] else st.flat
         assigned := st.assigned ++
           (if a.id = -1 then
              [(handle, a.location, (name_generator H s st.location_counter proxy a).id)]
            else []) },
       current ++ [(name_generator H s st.location_counter proxy a).label]) := by
  unfold get_proxy
  rw [hget]
  simp only [hattr]

/-- The state after a visit of a record without attributes. -/
theorem get_proxy_plain (H : Helpers) (s : Subscriber) (name : String) (st : Assembly)
    (current : List String) (handle : Nat) (proxy : ProxyNode)
    (hget : st.nodes[handle]? = some proxy) (hattr : proxy.attributes = none) :
    get_proxy H s name st current handle =
      ({ nodes := st.nodes.set handle { proxy with name := proxy.name, attributes := none }
         location_counter := st.location_counter
         flat := if name ≠ "netflix" then st.flat ++ [handle] else st.flat
         assigned := st.assigned ++ [] },
       current ++ [proxy.name]) := by
  unfold get_proxy
  rw [hget]
  simp only [hattr]

theorem getElem?_set_attributes (nodes : List ProxyNode) (handle h : Nat) (node new : ProxyNode)
    (hnew : new.attributes = none) (hh : h ∈ [handle])
    (hget : (nodes.set handle new)[h]? = some node) : node.attributes = none := by
  rw [List.mem_singleton] at hh
  subst hh
  rw [List.getElem?_set] at hget
  simp only [if_true] at hget
  by_cases hlt : h < nodes.length
  · rw [if_pos hlt, Option.some.injEq] at hget
    rw [← hget]; exact hnew
  · rw [if_neg hlt] at hget
    exact absurd hget (by simp)

theorem getElem?_set_other (nodes : List ProxyNode) (handle h : Nat) (new : ProxyNode)
    (hh : h ∉ [handle]) : (nodes.set handle new)[h]? = nodes[h]? := by
  rw [List.mem_singleton] at hh
  exact List.getElem?_set_ne (fun heq => hh heq.symm)

/-- A single visit. -/
theorem Visits.single (H : Helpers) (s : Subscriber) (name : String) (st : Assembly)
    (current : List String) (handle : Nat) :
    Visits st [handle] (get_proxy H s name st current handle).1 := by
  cases hget : st.nodes[handle]? with
  | none =>
    rw [get_proxy_invalid H s name st current handle hget]
    refine ⟨rfl, ?_, fun _ _ => rfl, ⟨[], by simp, by simp, by simp, ?_, ?_⟩⟩
    · intro h hh node hnode
      rw [List.mem_singleton] at hh
      subst hh
      rw [hget] at hnode
      exact absurd hnode (by simp)
    · intro h location
      constructor
      · rintro ⟨id, hm⟩
        exact absurd hm (by simp)
      · rintro ⟨hh, haw⟩
        obtain ⟨node, a, hnode, _⟩ := (awaits_id_iff _ _ _).1 haw
        rw [List.mem_singleton] at hh
        subst hh
        rw [hget] at hnode
        exact absurd hnode (by simp)
    · intro location _
      simp [ids_of, consecutive]
  | some proxy =>
    cases hattr : proxy.attributes with
    | none =>
      rw [get_proxy_plain H s name st current handle proxy hget hattr]
      refine ⟨by simp, ?_, ?_, ⟨[], by simp, by simp, by simp, ?_, ?_⟩⟩
      · intro h hh node hnode
        exact getElem?_set_attributes st.nodes handle h node _ rfl hh hnode
      · intro h hh
        exact getElem?_set_other st.nodes handle h _ hh
      · intro h location
        constructor
        · rintro ⟨id, hm⟩
          exact absurd hm (by simp)
        · rintro ⟨hh, haw⟩
          obtain ⟨node, a, hnode, ha, _⟩ := (awaits_id_iff _ _ _).1 haw
          rw [List.mem_singleton] at hh
          subst hh
          rw [hget, Option.some.injEq] at hnode
          rw [← hnode, hattr] at ha
          exact absurd ha (by simp)
      · intro location _
        simp [ids_of, consecutive]
    | some a =>
      rw [get_proxy_attributes H s name st current handle proxy a hget hattr]
      by_cases hid : a.id = -1
      · refine ⟨by simp, ?_, ?_,
          ⟨[(handle, a.location, (name_generator H s st.location_counter proxy a).id)],
            by simp [hid], by simp, by simp, ?_, ?_⟩⟩
        · intro h hh node hnode
          exact getElem?_set_attributes st.nodes handle h node _ rfl hh hnode
        · intro h hh
          exact getElem?_set_other st.nodes handle h _ hh
        · intro h location
          constructor
          · rintro ⟨id, hm⟩
            rw [List.mem_singleton, Prod.mk.injEq, Prod.mk.injEq] at hm
            obtain ⟨rfl, rfl, _⟩ := hm
            exact ⟨List.mem_singleton.2 rfl,
              (awaits_id_iff _ _ _).2 ⟨proxy, a, hget, hattr, hid, rfl⟩⟩
          · rintro ⟨hh, haw⟩
            obtain ⟨node, a1, hnode, ha, _, hloc⟩ := (awaits_id_iff _ _ _).1 haw
            rw [List.mem_singleton] at hh
            subst hh
            rw [hget, Option.some.injEq] at hnode
            rw [← hnode, hattr, Option.some.injEq] at ha
            subst ha
            exact ⟨_, List.mem_singleton.2 (by rw [hloc])⟩
        · intro location hb
          simp only [List.length_singleton] at hb
          obtain ⟨gid, gc⟩ := name_generator_counter H s st.location_counter proxy a hid location
          simp only [gc]
          by_cases hl : location = a.location
          · subst hl
            have hmod : (counter_of st.location_counter a.location + 1) % 18446744073709551616 =
                counter_of st.location_counter a.location + 1 := Nat.mod_eq_of_lt (by omega)
            rw [hmod] at gid
            rw [to_int_small _ hb] at gid
            simp [ids_of, gid, consecutive_one, hmod]
          · have hl1 : ¬ a.location = location := fun h => hl h.symm
            simp [ids_of, hl, hl1, consecutive]
      · refine ⟨by simp, ?_, ?_, ⟨[], by simp [hid], by simp, by simp, ?_, ?_⟩⟩
        · intro h hh node hnode
          exact getElem?_set_attributes st.nodes handle h node _ rfl hh hnode
        · intro h hh
          exact getElem?_set_other st.nodes handle h _ hh
        · intro h location
          constructor
          · rintro ⟨id, hm⟩
            exact absurd hm (by simp)
          · rintro ⟨hh, haw⟩
            obtain ⟨node, a1, hnode, ha, hid1, _⟩ := (awaits_id_iff _ _ _).1 haw
            rw [List.mem_singleton] at hh
            subst hh
            rw [hget, Option.some.injEq] at hnode
            rw [← hnode, hattr, Option.some.injEq] at ha
            subst ha
            exact absurd hid1 hid
        · intro location _
          simp only [name_generator_explicit H s st.location_counter proxy a hid]
          simp [ids_of, consecutive]

theorem get_members_visits (H : Helpers) (s : Subscriber) (name : String) (handles : List Nat)
    (st : Assembly) (current : List String) :
    Visits st handles (get_members H s name handles st current).1 := by
  induction handles generalizing st current with
  | nil => exact Visits.nil st
  | cons handle rest ih =>
    rw [get_members_cons]
    exact (Visits.single H s name st current handle).append (ih _ _)

theorem get_groups_visits (H : Helpers) (s : Subscriber) (head : String) (g : StdMap (List Nat))
    (st : Assembly) (groups : List Group) (group_name : List String) :
    Visits st (members g) (get_groups H s head g st groups group_name).1 := by
  induction g generalizing st groups group_name with
  | nil => exact Visits.nil st
  | cons e rest ih =>
    rw [get_groups_cons, members_cons]
    exact (get_members_visits H s e.1 e.2 st []).append (ih _ _ _)

/-- The run of `get` visits the members of the buckets, bucket after bucket. -/
theorem get_visits (H : Helpers) (s : Subscriber) (counter : StdMap Nat) :
    Visits { nodes := s.proxies, location_counter := counter, flat := [], assigned := [] }
      (members s.group_result) (Subscriber.get H s counter).assembly := by
  unfold Subscriber.get
  by_cases he : s.group_result.isEmpty = true
  · rw [if_pos he]
    have : s.group_result = [] := List.isEmpty_iff.1 he
    rw [this]
    exact Visits.nil _
  · rw [if_neg he]
    exact get_groups_visits H s _ _ _ _ _

/-- C4, refuted as stated: a pass over the one record `HK` (no explicit id)
assigns the id 1; a second pass in the same process, on a fresh subscriber in
the same state, starts from the counters the first pass left (they are a
function-local static) and assigns the id 2, not 1. -/
theorem second_pass_continues_ids :
    ∃ s1, grouping Sample.helpers { Sample.plain with proxies := [Sample.record "HK"] } 1 =
        .ok s1 ∧
      (Subscriber.get Sample.helpers s1 []).assembly.assigned = [(0, "HK", 1)] ∧
      (Subscriber.get Sample.helpers s1 []).assembly.location_counter = [("HK", 1)] ∧
      (Subscriber.get Sample.helpers s1
        (Subscriber.get Sample.helpers s1 []).assembly.location_counter).assembly.assigned =
        [(0, "HK", 2)] :=
  ⟨{ Sample.plain with
      proxies := [{ name := "HK", attributes := some (default_attribute "HK"), fields := [] }]
      group_result := [("HK", [0])] },
   rfl, by decide, by decide, by decide⟩

/-- C4, amended: in a run of `get` that starts with the value `c` of
`location_counter[L]` (0 in a fresh process; otherwise what the earlier runs
of the process left, whatever subscriber they ran on), and as long as `c` plus
the number of bucket members stays below `2^31`, the ids that the name
generator assigns for the location `L` are `c + 1, c + 2, ..` in the order of
processing, the counter ends at `c` plus their number, no record is assigned
an id twice, and a record is assigned an id for `L` exactly when it is a
member of some bucket and carries attributes of location `L` without explicit
id; so the ids are the set from `c + 1` to `c + K` for the `K` such records,
whatever their order. -/
theorem generated_ids_continue_counter (H : Helpers) (s : Subscriber) (counter : StdMap Nat)
    (location : String)
    (hb : counter_of counter location + (members s.group_result).length < 2147483648) :
    ids_of location (Subscriber.get H s counter).assembly.assigned =
      consecutive (counter_of counter location + 1)
        (ids_of location (Subscriber.get H s counter).assembly.assigned).length ∧
    counter_of (Subscriber.get H s counter).assembly.location_counter location =
      counter_of counter location +
        (ids_of location (Subscriber.get H s counter).assembly.assigned).length ∧
    ((Subscriber.get H s counter).assembly.assigned.map (fun t => t.1)).Nodup ∧
    (∀ h, (∃ id, (h, location, id) ∈ (Subscriber.get H s counter).assembly.assigned) ↔
      (h ∈ members s.group_result ∧ awaits_id s.proxies h location = true)) := by
  obtain ⟨T, ha, hn, _, hi, hc⟩ := (get_visits H s counter).trace
  simp only [List.nil_append] at ha
  rw [ha]
  obtain ⟨h1, h2⟩ := hc location hb
  exact ⟨h1, h2, hn, fun h => hi h location⟩

/-- C4, evaluated: the records `HK`, `JP`, `HK` in buckets `HK` and `JP`, in a
fresh process: the ids for `HK` are 1 and 2. -/
theorem generated_ids_continue_counter_witness :
    counter_of [] "HK" + (members [("HK", [0, 2]), ("JP", [1])]).length < 2147483648 ∧
    ids_of "HK" (Subscriber.get Sample.helpers
      { Sample.plain with
        proxies := [{ name := "HK", attributes := some (default_attribute "HK"), fields := [] },
                    { name := "JP", attributes := some (default_attribute "JP"), fields := [] },
                    { name := "HK", attributes := some (default_attribute "HK"), fields := [] }]
        group_result := [("HK", [0, 2]), ("JP", [1])] } []).assembly.assigned = [1, 2] ∧
    ids_of "HK" (Subscriber.get Sample.helpers
      { Sample.plain with
        proxies := [{ name := "HK", attributes := some (default_attribute "HK"), fields := [] },
                    { name := "JP", attributes := some (default_attribute "JP"), fields := [] },
                    { name := "HK", attributes := some (default_attribute "HK"), fields := [] }]
        group_result := [("HK", [0, 2]), ("JP", [1])] } []).assembly.assigned =
      consecutive (counter_of [] "HK" + 1)
        (ids_of "HK" (Subscriber.get Sample.helpers
          { Sample.plain with
            proxies := [{ name := "HK", attributes := some (default_attribute "HK"), fields := [] },
                        { name := "JP", attributes := some (default_attribute "JP"), fields := [] },
                        { name := "HK", attributes := some (default_attribute "HK"), fields := [] }]
            group_result := [("HK", [0, 2]), ("JP", [1])] } []).assembly.assigned).length :=
  ⟨by decide, by decide,
   (generated_ids_continue_counter Sample.helpers
      { Sample.plain with
        proxies := [{ name := "HK", attributes := some (default_attribute "HK"), fields := [] },
                    { name := "JP", attributes := some (default_attribute "JP"), fields := [] },
                    { name := "HK", attributes := some (default_attribute "HK"), fields := [] }]
        group_result := [("HK", [0, 2]), ("JP", [1])] } [] "HK" (by decide)).1⟩

/-! ## Member names and the flat list -/

theorem settled_get_proxy (H : Helpers) (s : Subscriber) (name : String) (st : Assembly)
    (current : List String) (handle : Nat) (label : String) (hs : settled st label) :
    settled (get_proxy H s name st current handle).1 label := by
  obtain ⟨h0, hflat, node0, hnode0, hname0, hattr0⟩ := hs
  cases hget : st.nodes[handle]? with
  | none =>
    rw [get_proxy_invalid H s name st current handle hget]
    exact ⟨h0, hflat, node0, hnode0, hname0, hattr0⟩
  | some proxy =>
    have hlt : handle < st.nodes.length := (List.getElem?_eq_some_iff.1 hget).1
    by_cases heq : handle = h0
    · subst heq
      rw [hget, Option.some.injEq] at hnode0
      subst hnode0
      rw [get_proxy_plain H s name st current handle proxy hget hattr0]
      refine ⟨handle, ?_, { proxy with name := proxy.name, attributes := none }, ?_, hname0, rfl⟩
      · by_cases hn : name ≠ "netflix"
        · simp only [hn, ne_eq, not_false_eq_true, if_true]
          exact List.mem_append_left _ hflat
        · simp only [hn, if_false]
          exact hflat
      · simp only [List.getElem?_set, if_true, if_pos hlt]
    · have hflat1 : h0 ∈ (get_proxy H s name st current handle).1.flat := by
        rw [get_proxy_flat]
        exact List.mem_append_left _ hflat
      refine ⟨h0, hflat1, node0, ?_, hname0, hattr0⟩
      cases hattr : proxy.attributes with
      | none =>
        rw [get_proxy_plain H s name st current handle proxy hget hattr]
        simp only [List.getElem?_set_ne heq]
        exact hnode0
      | some a =>
        rw [get_proxy_attributes H s name st current handle proxy a hget hattr]
        simp only [List.getElem?_set_ne heq]
        exact hnode0

/-- The label that a visit adds to a group other than `netflix` is settled
after the visit. -/
theorem get_proxy_label_settled (H : Helpers) (s : Subscriber) (name : String) (st : Assembly)
    (current : List String) (handle : Nat) (hn : name ≠ "netflix") (label : String)
    (hm : label ∈ (get_proxy H s name st current handle).2) :
    label ∈ current ∨ settled (get_proxy H s name st current handle).1 label := by
  cases hget : st.nodes[handle]? with
  | none =>
    rw [get_proxy_invalid H s name st current handle hget] at hm
    exact Or.inl hm
  | some proxy =>
    have hlt : handle < st.nodes.length := (List.getElem?_eq_some_iff.1 hget).1
    cases hattr : proxy.attributes with
    | none =>
      rw [get_proxy_plain H s name st current handle proxy hget hattr] at hm ⊢
      rcases List.mem_append.1 hm with h1 | h1
      · exact Or.inl h1
      · rw [List.mem_singleton] at h1
        refine Or.inr ⟨handle, ?_, { proxy with name := proxy.name, attributes := none }, ?_,
          h1.symm, rfl⟩
        · simp only [hn, ne_eq, not_false_eq_true, if_true]
          exact List.mem_append_right _ (List.mem_singleton.2 rfl)
        · simp only [List.getElem?_set, if_true, if_pos hlt]
    | some a =>
      rw [get_proxy_attributes H s name st current handle proxy a hget hattr] at hm ⊢
      rcases List.mem_append.1 hm with h1 | h1
      · exact Or.inl h1
      · rw [List.mem_singleton] at h1
        refine Or.inr ⟨handle, ?_,
          { proxy with name := (name_generator H s st.location_counter proxy a).label,
                       attributes := none }, ?_, h1.symm, rfl⟩
        · simp only [hn, ne_eq, not_false_eq_true, if_true]
          exact List.mem_append_right _ (List.mem_singleton.2 rfl)
        · simp only [List.getElem?_set, if_true, if_pos hlt]

theorem settled_get_members (H : Helpers) (s : Subscriber) (name : String) (handles : List Nat)
    (st : Assembly) (current : List String) (label : String) (hs : settled st label) :
    settled (get_members H s name handles st current).1 label := by
  induction handles generalizing st current with
  | nil => exact hs
  | cons handle rest ih =>
    rw [get_members_cons]
    exact ih _ _ (settled_get_proxy H s name st current handle label hs)

theorem get_members_labels_settled (H : Helpers) (s : Subscriber) (name : String)
    (hn : name ≠ "netflix") (handles : List Nat) (st : Assembly) (current : List String)
    (hc : ∀ label ∈ current, settled st label) :
    ∀ label ∈ (get_members H s name handles st current).2,
      settled (get_members H s name handles st current).1 label := by
  induction handles generalizing st current with
  | nil => exact hc
  | cons handle rest ih =>
    rw [get_members_cons]
    apply ih
    intro label hm
    rcases get_proxy_label_settled H s name st current handle hn label hm with h1 | h1
    · exact settled_get_proxy H s name st current handle label (hc label h1)
    · exact h1

theorem get_groups_labels_settled (H : Helpers) (s : Subscriber) (head : String)
    (g : StdMap (List Nat)) (st : Assembly) (groups : List Group) (group_name : List String)
    (hc : ∀ grp ∈ groups, grp.name ≠ head ++ "-" ++ "netflix" →
      ∀ label ∈ grp.proxies, settled st label) :
    ∀ grp ∈ (get_groups H s head g st groups group_name).2.1,
      grp.name ≠ head ++ "-" ++ "netflix" →
      ∀ label ∈ grp.proxies, settled (get_groups H s head g st groups group_name).1 label := by
  induction g generalizing st groups group_name with
  | nil => exact hc
  | cons e rest ih =>
    rw [get_groups_cons]
    apply ih
    intro grp hgrp hne label hl
    rcases List.mem_append.1 hgrp with h1 | h1
    · exact settled_get_members H s e.1 e.2 st [] label (hc grp h1 hne label hl)
    · rw [List.mem_singleton] at h1
      subst h1
      have hn : e.1 ≠ "netflix" := by
        intro heq
        apply hne
        simp only [heq]
      exact get_members_labels_settled H s e.1 hn e.2 st [] (by simp) label hl

/-- C5: in the document returned by `get`, for every state of the subscriber
and with symbol mode on or off, every member name listed in a group other than
the netflix group is the `name` of a record of the flat `proxies` list of the
same document (the name generator writes the generated label into the record
through the handle `proxy_name`). -/
theorem member_names_in_flat_list (H : Helpers) (s : Subscriber) (counter : StdMap Nat)
    (grp : Group) (label : String)
    (hgrp : grp ∈ (Subscriber.get H s counter).groups)
    (hne : grp.name ≠ label_head_of s ++ "-" ++ "netflix")
    (hl : label ∈ grp.proxies) :
    ∃ node ∈ (Subscriber.get H s counter).document.proxies, node.name = label := by
  have hset : settled (Subscriber.get H s counter).assembly label := by
    unfold Subscriber.get at hgrp ⊢
    by_cases he : s.group_result.isEmpty = true
    · rw [if_pos he] at hgrp
      exact absurd hgrp (by simp)
    · rw [if_neg he] at hgrp ⊢
      exact get_groups_labels_settled H s (label_head_of s) s.group_result _ [] [] (by simp)
        grp hgrp hne label hl
  obtain ⟨h, hflat, node, hnode, hname, _⟩ := hset
  refine ⟨node, ?_, hname⟩
  unfold Output.document
  exact List.mem_filterMap.2 ⟨h, hflat, hnode⟩

/-- C5, evaluated with symbol mode on: the records `HK-a` and `HK-b` get the
labels `HK01` and `HK02`, in the group and as names in the flat list. -/
theorem member_names_in_flat_list_witness :
    ∃ s1, grouping Sample.helpers
        { Sample.plain with
          proxies := [Sample.record "HK-a", Sample.record "HK-b"]
          use_emoji := true
          name_pattern := Sample.dash_fields 2
          provider :=
            { definition := some { location_name := some 1, position := some (-1),
                                   netflix := some (-1), amplification := some (-1) }
              group_merge := [], label_head := none } } 1 = .ok s1 ∧
      (Subscriber.get Sample.helpers s1 []).groups =
        [{ name := "Generated-HK", proxies := ["HK01", "HK02"] }] ∧
      (Subscriber.get Sample.helpers s1 []).document.proxies.map (fun node => node.name) =
        ["HK01", "HK02"] ∧
      ∃ node ∈ (Subscriber.get Sample.helpers s1 []).document.proxies, node.name = "HK02" :=
  ⟨{ Sample.plain with
      proxies := [{ name := "HK-a",
                    attributes := some { location := "HK", id := -1, netflix := false,
                                         amplification := FloatVal.one },
                    fields := [] },
                  { name := "HK-b",
                    attributes := some { location := "HK", id := -1, netflix := false,
                                         amplification := FloatVal.one },
                    fields := [] }]
      use_emoji := true
      name_pattern := Sample.dash_fields 2
      provider :=
        { definition := some { location_name := some 1, position := some (-1),
                               netflix := some (-1), amplification := some (-1) }
          group_merge := [], label_head := none }
      group_result := [("HK", [0, 1])] },
   rfl, by decide, by decide,
   member_names_in_flat_list Sample.helpers _ []
     { name := "Generated-HK", proxies := ["HK01", "HK02"] } "HK02"
     (by decide) (by decide) (by decide)⟩

/-! ## Merge rules with a missing bucket, default attributes, collapse mode -/

/-- C18: applying a merge rule whose source bucket or target bucket does not
exist changes nothing: the loop goes on with the same buckets and the same
`remove_list`, and the merge step of that one rule returns the bucket set as it
was (the step is a total function: no error is raised). -/
theorem merge_rule_missing_bucket (g : StdMap (List Nat)) (source_name target_name : String)
    (rest : List (String × String)) (remove_list : List String)
    (h : g.count source_name = false ∨ g.count target_name = false) :
    merge_loop ((source_name, target_name) :: rest) g remove_list =
      merge_loop rest g remove_list ∧
    merge_groups [(source_name, target_name)] g = g ∧
    merge_rule g (source_name, target_name) = g := by
  have hc : ¬ (g.count source_name && g.count target_name) = true := by
    rcases h with h | h <;> simp [h]
  refine ⟨?_, ?_, ?_⟩
  · rw [merge_loop_cons, if_neg hc]
  · unfold merge_groups
    rw [merge_loop_cons, if_neg hc]
    rfl
  · unfold merge_rule
    rw [if_neg hc]

/-- C18, evaluated: the rule `X → B` on the buckets `A`, `B`. -/
theorem merge_rule_missing_bucket_witness :
    (StdMap.count ([("A", [0]), ("B", [1])] : StdMap (List Nat)) "X" = false ∨
      StdMap.count ([("A", [0]), ("B", [1])] : StdMap (List Nat)) "B" = false) ∧
    merge_loop [("X", "B"), ("A", "B")] [("A", [0]), ("B", [1])] [] =
      merge_loop [("A", "B")] [("A", [0]), ("B", [1])] [] ∧
    merge_groups [("X", "B")] [("A", [0]), ("B", [1])] = [("A", [0]), ("B", [1])] ∧
    merge_rule [("A", [0]), ("B", [1])] ("X", "B") = [("A", [0]), ("B", [1])] :=
  ⟨Or.inl (by decide),
   merge_rule_missing_bucket [("A", [0]), ("B", [1])] "X" "B" [("A", "B")] []
     (Or.inl (by decide))⟩

/-- C19: `parse_name` returns the default attributes (location the full name,
id `-1`, netflix false, amplification `1.0`) for every name that the pattern
does not match and, whatever the match, whenever the provider has no
`definition` map. -/
theorem parse_name_default (H : Helpers) (s : Subscriber) (name : String)
    (h : s.name_pattern name = none ∨ s.provider.definition = none) :
    parse_name H s name =
      .ok { location := name, id := -1, netflix := false, amplification := FloatVal.finite 1 } := by
  unfold parse_name
  rcases h with h | h
  · rw [h]
    rfl
  · cases hm : s.name_pattern name with
    | none => rfl
    | some result =>
      simp only [h]
      rfl

/-- C19, evaluated: a name that the pattern does not match, and a matching name
under a provider without `definition`. -/
theorem parse_name_default_witness :
    (Sample.plain.name_pattern "HK-01" = none ∨ Sample.plain.provider.definition = none) ∧
    parse_name Sample.helpers Sample.plain "HK-01" =
      .ok { location := "HK-01", id := -1, netflix := false,
            amplification := FloatVal.finite 1 } ∧
    ({ Sample.plain with name_pattern := Sample.dash_fields 2 } : Subscriber).name_pattern
      "HK-01" = some ["HK-01", "HK", "01"] ∧
    parse_name Sample.helpers { Sample.plain with name_pattern := Sample.dash_fields 2 } "HK-01" =
      .ok { location := "HK-01", id := -1, netflix := false,
            amplification := FloatVal.finite 1 } :=
  ⟨Or.inl rfl,
   parse_name_default Sample.helpers Sample.plain "HK-01" (Or.inl rfl),
   by decide,
   parse_name_default Sample.helpers { Sample.plain with name_pattern := Sample.dash_fields 2 }
     "HK-01" (Or.inr rfl)⟩

theorem get_value_in_range (regex_result : List String) (i : Nat) (default_value : String)
    (h : i < regex_result.length) :
    get_value regex_result (some (i : Int)) default_value = .ok (regex_result.getD i "") := by
  unfold get_value
  have h1 : ((i : Int) ≠ -1 ∧ (regex_result.length : Int) > (i : Int)) := by
    constructor
    · omega
    · exact_mod_cast h
  simp only [h1, and_self, if_true]
  have h2 : (0 : Int) ≤ (i : Int) := by omega
  simp [h2]

/-- C20: with collapse mode off `get_regex_result` returns the sub-matches
unchanged (whole match first, then each group); with collapse mode on it
returns them without the empty ones, in the same relative order, so that the
configured index `i` selects the `i`-th non-empty sub-match; the collapsed
sequence holds no empty string, and collapsing twice is collapsing once. -/
theorem regex_result_collapse (s : Subscriber) (result : List String) :
    (s.regex_collapse = false → get_regex_result s result = result) ∧
    (s.regex_collapse = true →
      get_regex_result s result = result.filter (fun m => !m.isEmpty) ∧
      (∀ m ∈ get_regex_result s result, m ≠ "") ∧
      (∀ (i : Nat) (default_value : String),
        i < (result.filter (fun m => !m.isEmpty)).length →
        get_value (get_regex_result s result) (some (i : Int)) default_value =
          .ok ((result.filter (fun m => !m.isEmpty)).getD i ""))) ∧
    (get_regex_result s result).Sublist result ∧
    get_regex_result s (get_regex_result s result) = get_regex_result s result := by
  unfold get_regex_result
  refine ⟨?_, ?_, ?_, ?_⟩
  · intro h
    simp [h]
  · intro h
    rw [if_pos h]
    refine ⟨rfl, ?_, ?_⟩
    · intro m hm heq
      subst heq
      rw [List.mem_filter] at hm
      exact absurd hm.2 (by decide)
    · intro i default_value hi
      exact get_value_in_range _ i default_value hi
  · by_cases h : s.regex_collapse = true
    · simp only [h, if_true]
      exact List.filter_sublist _
    · simp only [h, if_false]
      exact List.Sublist.refl _
  · by_cases h : s.regex_collapse = true
    · simp only [h, if_true, List.filter_filter, Bool.and_self]
    · rw [if_neg h, if_neg h]

/-- C20, evaluated on the sub-matches `HK-01`, (empty), `HK`, `01`: with
collapse mode on, index 1 selects `HK` and index 2 selects `01`. -/
theorem regex_result_collapse_witness :
    get_regex_result { Sample.plain with regex_collapse := false } ["HK-01", "", "HK", "01"] =
      ["HK-01", "", "HK", "01"] ∧
    get_regex_result { Sample.plain with regex_collapse := true } ["HK-01", "", "HK", "01"] =
      ["HK-01", "HK", "01"] ∧
    (∀ m ∈ get_regex_result { Sample.plain with regex_collapse := true }
      ["HK-01", "", "HK", "01"], m ≠ "") ∧
    get_value (get_regex_result { Sample.plain with regex_collapse := true }
      ["HK-01", "", "HK", "01"]) (some 2) "-1" = .ok "01" :=
  ⟨(regex_result_collapse { Sample.plain with regex_collapse := false }
      ["HK-01", "", "HK", "01"]).1 rfl,
   ((regex_result_collapse { Sample.plain with regex_collapse := true }
      ["HK-01", "", "HK", "01"]).2.1 rfl).1,
   ((regex_result_collapse { Sample.plain with regex_collapse := true }
      ["HK-01", "", "HK", "01"]).2.1 rfl).2.1,
   ((regex_result_collapse { Sample.plain with regex_collapse := true }
      ["HK-01", "", "HK", "01"]).2.1 rfl).2.2 2 "-1" (by decide)⟩

/-! ## Properties of the query parameter parser -/

theorem get_parameters_fold (H : Helpers) (query_string : String) :
    get_parameters H query_string = (H.split query_string '&').foldl (add_parameter H) [] := rfl

theorem add_parameter_two (H : Helpers) (parameters : StdMap String) (pair key value : String)
    (h : H.split pair '=' = [key, value]) :
    add_parameter H parameters pair = parameters.insert key value := by
  unfold add_parameter
  rw [h]

theorem add_parameter_other (H : Helpers) (parameters : StdMap String) (pair : String)
    (h : (H.split pair '=').length ≠ 2) : add_parameter H parameters pair = parameters := by
  unfold add_parameter
  rcases hs : H.split pair '=' with _ | ⟨a, _ | ⟨b, _ | ⟨c, rest⟩⟩⟩
  · rfl
  · rfl
  · rw [hs] at h
    exact absurd rfl h
  · rfl

theorem length_two_cases (l : List String) :
    (∃ key value, l = [key, value]) ∨ l.length ≠ 2 := by
  rcases l with _ | ⟨a, _ | ⟨b, _ | ⟨c, rest⟩⟩⟩
  · exact Or.inr (by simp)
  · exact Or.inr (by simp)
  · exact Or.inl ⟨a, b, rfl⟩
  · exact Or.inr (by simp)

theorem value_for_two (H : Helpers) (key pair k value : String)
    (h : H.split pair '=' = [k, value]) :
    value_for H key pair = if k = key then some value else none := by
  unfold value_for
  rw [h]

theorem value_for_other (H : Helpers) (key pair : String)
    (h : (H.split pair '=').length ≠ 2) : value_for H key pair = none := by
  unfold value_for
  rcases hs : H.split pair '=' with _ | ⟨a, _ | ⟨b, _ | ⟨c, rest⟩⟩⟩
  · rfl
  · rfl
  · rw [hs] at h
    exact absurd rfl h
  · rfl

/-- The loop of `get_parameters` started with any map: a key that the map
holds keeps its value, another key gets the value of the first pair that
carries it. -/
theorem fold_parameters_find (H : Helpers) (pairs : List String) (parameters : StdMap String)
    (key : String) :
    (pairs.foldl (add_parameter H) parameters).find key =
      match parameters.find key with
      | some value => some value
      | none => (pairs.filterMap (value_for H key)).head? := by
  induction pairs generalizing parameters with
  | nil =>
    cases hf : parameters.find key <;> simp [hf]
  | cons pair rest ih =>
    rw [List.foldl_cons, ih, List.filterMap_cons]
    rcases length_two_cases (H.split pair '=') with ⟨k, value, hs⟩ | hs
    · rw [add_parameter_two H parameters pair k value hs, value_for_two H key pair k value hs]
      by_cases hk : k = key
      · subst hk
        rw [StdMap.find_insert_self, if_pos rfl]
        cases hf : parameters.find k <;> simp
      · rw [StdMap.find_insert_other _ _ _ _ (fun h => hk h.symm), if_neg hk]
    · rw [add_parameter_other H parameters pair hs, value_for_other H key pair hs]

theorem fold_parameters_nodup (H : Helpers) (pairs : List String) (parameters : StdMap String)
    (hn : parameters.keys.Nodup) : (pairs.foldl (add_parameter H) parameters).keys.Nodup := by
  induction pairs generalizing parameters with
  | nil => exact hn
  | cons pair rest ih =>
    rw [List.foldl_cons]
    apply ih
    rcases length_two_cases (H.split pair '=') with ⟨k, value, hs⟩ | hs
    · rw [add_parameter_two H parameters pair k value hs]
      exact StdMap.nodup_keys_insert _ _ _ hn
    · rw [add_parameter_other H parameters pair hs]
      exact hn

theorem fold_parameters_filter (H : Helpers) (p : String → Bool) (pairs : List String)
    (parameters : StdMap String)
    (hp : ∀ pair, p pair = false → ∀ m, add_parameter H m pair = m) :
    pairs.foldl (add_parameter H) parameters =
      (pairs.filter p).foldl (add_parameter H) parameters := by
  induction pairs generalizing parameters with
  | nil => rfl
  | cons pair rest ih =>
    rw [List.foldl_cons, List.filter_cons]
    cases hpp : p pair with
    | true => simp only [if_true, List.foldl_cons]; exact ih _
    | false =>
      rw [hp pair hpp]
      simp only [Bool.false_eq_true, if_false]
      exact ih _

theorem split_chars_length (delim : Char) (cs piece : List Char) :
    (Sample.split_chars delim cs piece).length = cs.count delim + 1 := by
  induction cs generalizing piece with
  | nil => simp [Sample.split_chars]
  | cons c rest ih =>
    rw [Sample.split_chars]
    by_cases h : c = delim
    · subst h
      simp [ih]
    · rw [if_neg h, ih, List.count_cons_of_ne (fun heq => h heq.symm)]

/-- The sample `split` yields one piece more than there are delimiters. -/
theorem sample_split_length (text : String) :
    (Sample.split text '=').length = equals_count text + 1 :=
  split_chars_length '=' text.data []

/-- C11: when `Utils::split` yields one piece more than there are delimiters
(it "splits on" the delimiter), the map returned by `get_parameters` is built
from the `&`-separated pairs that contain exactly one `=` alone: a pair with no
`=` or with two or more leaves the map as it is, and every entry of the map is
the key and value of such a pair. -/
theorem parameters_need_one_equals (H : Helpers) (query_string : String)
    (hsplit : ∀ text, (H.split text '=').length = equals_count text + 1) :
    get_parameters H query_string =
      ((H.split query_string '&').filter (fun pair => decide (equals_count pair = 1))).foldl
        (add_parameter H) [] ∧
    (∀ pair parameters, equals_count pair ≠ 1 → add_parameter H parameters pair = parameters) ∧
    (∀ key value, (get_parameters H query_string).find key = some value →
      ∃ pair ∈ H.split query_string '&', equals_count pair = 1 ∧
        H.split pair '=' = [key, value]) := by
  have hskip : ∀ pair parameters, equals_count pair ≠ 1 →
      add_parameter H parameters pair = parameters := by
    intro pair parameters hc
    apply add_parameter_other
    rw [hsplit]
    omega
  refine ⟨?_, hskip, ?_⟩
  · rw [get_parameters_fold]
    apply fold_parameters_filter
    intro pair hp m
    exact hskip pair m (by simpa using hp)
  · intro key value hf
    rw [get_parameters_fold, fold_parameters_find] at hf
    simp only [StdMap.find] at hf
    have hm := List.mem_of_mem_head? hf
    rw [List.mem_filterMap] at hm
    obtain ⟨pair, hpair, hv⟩ := hm
    refine ⟨pair, hpair, ?_, ?_⟩
    · rcases length_two_cases (H.split pair '=') with ⟨k, v, hs⟩ | hs
      · have := hsplit pair
        rw [hs] at this
        simp at this
        omega
      · rw [value_for_other H key pair hs] at hv
        exact absurd hv (by simp)
    · rcases length_two_cases (H.split pair '=') with ⟨k, v, hs⟩ | hs
      · rw [value_for_two H key pair k v hs] at hv
        by_cases hk : k = key
        · rw [if_pos hk, Option.some.injEq] at hv
          rw [hs, hk, hv]
        · rw [if_neg hk] at hv
          exact absurd hv (by simp)
      · rw [value_for_other H key pair hs] at hv
        exact absurd hv (by simp)

/-- C11, evaluated on `a=1&b&c=2=3&sni=x&d=`: the pairs `b` (no `=`) and `c=2=3`
(two) leave no entry. -/
theorem parameters_need_one_equals_witness :
    (∀ text, (Sample.split text '=').length = equals_count text + 1) ∧
    get_parameters Sample.helpers "a=1&b&c=2=3&sni=x&d=" =
      [("a", "1"), ("d", ""), ("sni", "x")] ∧
    get_parameters Sample.helpers "a=1&b&c=2=3&sni=x&d=" =
      ((Sample.split "a=1&b&c=2=3&sni=x&d=" '&').filter
        (fun pair => decide (equals_count pair = 1))).foldl (add_parameter Sample.helpers) [] :=
  ⟨sample_split_length, by decide,
   (parameters_need_one_equals Sample.helpers "a=1&b&c=2=3&sni=x&d=" sample_split_length).1⟩

/-- C12, refuted as stated: in `sni=x&sni=y` the key `sni` occurs twice; the map
holds the value `x` of the first occurrence (`emplace` keeps a present key),
not the value `y` of the last. -/
theorem parameters_keep_first :
    get_parameters Sample.helpers "sni=x&sni=y" = [("sni", "x")] ∧
    (get_parameters Sample.helpers "sni=x&sni=y").find "sni" = some "x" ∧
    last_value Sample.helpers "sni=x&sni=y" "sni" = some "y" := by
  decide

/-- C12, amended: for every query string the map returned by `get_parameters`
has at most one entry for a key, and the value under a key is the value of the
first pair that splits at `=` into that key and a value (no entry when there
is no such pair). -/
theorem parameters_first_occurrence (H : Helpers) (query_string key : String) :
    (get_parameters H query_string).keys.Nodup ∧
    (get_parameters H query_string).find key = first_value H query_string key := by
  rw [get_parameters_fold]
  refine ⟨fold_parameters_nodup H _ [] (by simp [StdMap.keys]), ?_⟩
  rw [fold_parameters_find]
  rfl

/-! ## Configured indices and numeric captures -/

/-- What `get_value` yields for each configured index: the default for `-1` and
for an index at or beyond the number of sub-matches, the sub-match for an index
in range, and a read outside the vector for an index below `-1`. -/
theorem get_value_cases (regex_result : List String) (index : Int) (default_value : String) :
    (index = -1 ∨ (regex_result.length : Int) ≤ index →
      get_value regex_result (some index) default_value = .ok default_value) ∧
    (0 ≤ index ∧ index < (regex_result.length : Int) →
      get_value regex_result (some index) default_value =
        .ok (regex_result.getD index.toNat "")) ∧
    (index < -1 →
      get_value regex_result (some index) default_value = .error .undefined_behaviour) := by
  unfold get_value
  dsimp only
  refine ⟨?_, ?_, ?_⟩
  · intro h
    have : ¬ (index ≠ -1 ∧ (regex_result.length : Int) > index) := by
      rintro ⟨h1, h2⟩
      rcases h with h | h
      · exact h1 h
      · omega
    rw [if_neg this]
  · rintro ⟨h0, h1⟩
    have : index ≠ -1 ∧ (regex_result.length : Int) > index := ⟨by omega, by omega⟩
    rw [if_pos this, if_pos h0]
  · intro h
    have h1 : index ≠ -1 ∧ (regex_result.length : Int) > index := ⟨by omega, by omega⟩
    have h2 : ¬ (0 ≤ index) := by omega
    rw [if_pos h1, if_neg h2]

/-- C13, the failing input: with `location_name: -2` the test
`size > def_index` passes (`3 > -2`) and `regex_result[def_index]` reads
outside the vector; `parse_name` of the matching name `HK-01` does not return
the defaults. -/
theorem negative_index_reads_outside :
    Sample.dash_fields 2 "HK-01" = some ["HK-01", "HK", "01"] ∧
    get_value ["HK-01", "HK", "01"] (some (-2)) "" = .error .undefined_behaviour ∧
    parse_name Sample.helpers
      { Sample.plain with
        name_pattern := Sample.dash_fields 2
        provider :=
          { definition := some { location_name := some (-2), position := some (-1),
                                 netflix := some (-1), amplification := some (-1) }
            group_merge := [], label_head := none } } "HK-01" =
      .error .undefined_behaviour ∧
    get_value ["HK-01", "HK", "01"] (some (-1)) "" = .ok "" ∧
    get_value ["HK-01", "HK", "01"] (some 7) "" = .ok "" := by
  decide

theorem grouping_loop_fails (H : Helpers) (s : Subscriber) (proxies : List ProxyNode)
    (acc : Bucketing) (proxy : ProxyNode) (e : Failure) (hmem : proxy ∈ proxies)
    (hp : parse_name H s (H.trim_copy proxy.name) = .error e) :
    ∃ e1, grouping_loop H s proxies acc = .error e1 := by
  induction proxies generalizing acc with
  | nil => simp at hmem
  | cons head rest ih =>
    rw [grouping_loop]
    cases hs : grouping_step H s acc head with
    | error e1 => exact ⟨e1, rfl⟩
    | ok acc1 =>
      simp only
      rcases List.mem_cons.1 hmem with heq | hrest
      · subst heq
        obtain ⟨a, ha, _⟩ := grouping_step_ok H s acc acc1 proxy hs
        rw [hp] at ha
        exact absurd ha (by simp)
      · exact ih acc1 hrest

/-- C14, refuted as stated: the position capture `x` of the record `HK-x` is
not a number; `std::stoi` throws, `parse_name` passes the exception on and
`grouping`, which has no handler, ends with it: the record `JP-1` is not
bucketed either. -/
theorem invalid_number_not_recovered :
    parse_name Sample.helpers
      { Sample.plain with
        name_pattern := Sample.dash_fields 2
        provider :=
          { definition := some { location_name := some 1, position := some 2,
                                 netflix := some (-1), amplification := some (-1) }
            group_merge := [], label_head := none } } "HK-x" = .error .invalid_argument ∧
    (grouping Sample.helpers
      { Sample.plain with
        proxies := [Sample.record "HK-x", Sample.record "JP-1"]
        name_pattern := Sample.dash_fields 2
        provider :=
          { definition := some { location_name := some 1, position := some 2,
                                 netflix := some (-1), amplification := some (-1) }
            group_merge := [], label_head := none } } 1).toOption.isNone = true ∧
    ((grouping Sample.helpers
      { Sample.plain with
        proxies := [Sample.record "JP-1"]
        name_pattern := Sample.dash_fields 2
        provider :=
          { definition := some { location_name := some 1, position := some 2,
                                 netflix := some (-1), amplification := some (-1) }
            group_merge := [], label_head := none } } 1).toOption.map
        (fun s1 => s1.group_result)) = some [("JP", [0])] := by
  decide

/-- C14, amended: for every record whose trimmed name matches the pattern with
a location capture that is not empty and whose `position` capture is rejected
by `std::stoi`, or whose `amplification` capture is not empty and rejected by
`std::stof`, `parse_name` ends with that exception, and `grouping` (grouping
enabled) does not recover: it ends with an exception as a whole and produces
no bucket set, whatever the other records are. -/
theorem invalid_number_aborts_grouping (H : Helpers) (s : Subscriber) (group_min_size : Nat)
    (proxy : ProxyNode) (result : List String) (d : Definition) (location : String)
    (e : Failure)
    (hen : s.enable_grouping = true) (hmem : proxy ∈ s.proxies)
    (hmatch : s.name_pattern (H.trim_copy proxy.name) = some result)
    (hdef : s.provider.definition = some d)
    (hloc : get_value (get_regex_result s result) d.location_name "" = .ok location)
    (hlne : location.isEmpty = false)
    (hnum :
      (∃ text, get_value (get_regex_result s result) d.position "-1" = .ok text ∧
        stoi text = .error e) ∨
      (∃ text id netflix amplification,
        get_value (get_regex_result s result) d.position "-1" = .ok text ∧
        stoi text = .ok id ∧
        get_value (get_regex_result s result) d.netflix "" = .ok netflix ∧
        get_value (get_regex_result s result) d.amplification "1.0f" = .ok amplification ∧
        amplification.isEmpty = false ∧ H.stof amplification = .error e)) :
    parse_name H s (H.trim_copy proxy.name) = .error e ∧
    ∃ e1, grouping H s group_min_size = .error e1 := by
  have hp : parse_name H s (H.trim_copy proxy.name) = .error e := by
    unfold parse_name
    simp only [hmatch, hdef, hloc, bind, Except.bind, hlne, Bool.false_eq_true, if_false]
    rcases hnum with ⟨text, h1, h2⟩ | ⟨text, id, netflix, amplification, h1, h2, h3, h4, h5, h6⟩
    · simp only [h1, h2]
    · simp only [h1, h2, h3, h4, h5, Bool.false_eq_true, if_false, h6]
  refine ⟨hp, ?_⟩
  obtain ⟨e1, he1⟩ := grouping_loop_fails H s s.proxies
    { nodes := [], group_result := s.group_result, netflix_group := [] } proxy e hmem hp
  refine ⟨e1, ?_⟩
  unfold grouping
  rw [if_pos hen, he1]

/-- C14, evaluated: the records `HK-x` and `JP-1`. -/
theorem invalid_number_aborts_grouping_witness :
    parse_name Sample.helpers
      { Sample.plain with
        proxies := [Sample.record "HK-x", Sample.record "JP-1"]
        name_pattern := Sample.dash_fields 2
        provider :=
          { definition := some { location_name := some 1, position := some 2,
                                 netflix := some (-1), amplification := some (-1) }
            group_merge := [], label_head := none } } "HK-x" = .error .invalid_argument ∧
    ∃ e1, grouping Sample.helpers
      { Sample.plain with
        proxies := [Sample.record "HK-x", Sample.record "JP-1"]
        name_pattern := Sample.dash_fields 2
        provider :=
          { definition := some { location_name := some 1, position := some 2,
                                 netflix := some (-1), amplification := some (-1) }
            group_merge := [], label_head := none } } 1 = .error e1 :=
  invalid_number_aborts_grouping Sample.helpers
    { Sample.plain with
      proxies := [Sample.record "HK-x", Sample.record "JP-1"]
      name_pattern := Sample.dash_fields 2
      provider :=
        { definition := some { location_name := some 1, position := some 2,
                               netflix := some (-1), amplification := some (-1) }
          group_merge := [], label_head := none } }
    1 (Sample.record "HK-x") ["HK-x", "HK", "x"]
    { location_name := some 1, position := some 2, netflix := some (-1),
      amplification := some (-1) }
    "HK" .invalid_argument rfl (by decide) (by decide) rfl (by decide) (by decide)
    (Or.inl ⟨"x", by decide, by decide⟩)

/-! ## Stripped attributes -/

/-- C16: no record of the flat `proxies` list of the document returned by `get`
carries the `attributes` key, whatever the state of the subscriber (so also
after `grouping` with grouping enabled, and for a record that is a member of
both a location bucket and the netflix bucket): every record that `get`
visits ends without attributes, and the flat list holds visited records
only. -/
theorem emitted_records_without_attributes (H : Helpers) (s : Subscriber)
    (counter : StdMap Nat) (node : ProxyNode)
    (hnode : node ∈ (Subscriber.get H s counter).document.proxies) :
    node.attributes = none := by
  unfold Output.document at hnode
  obtain ⟨h, hflat, hget⟩ := List.mem_filterMap.1 hnode
  have hmem : h ∈ members s.group_result :=
    mem_flat_source _ _ (mem_get_flat H s counter h hflat).1
  exact (get_visits H s counter).stripped h hmem node hget

/-- C16, evaluated: the record `HK-1-NF` is a member of the bucket `HK` and of
the netflix bucket, the record `zz-3-NF` of the netflix bucket and of the
bucket `zz`, which comes after it; both are emitted without attributes. -/
theorem emitted_records_without_attributes_witness :
    ∃ s1, grouping Sample.helpers
        { Sample.plain with
          proxies := [Sample.record "HK-1-NF", Sample.record "zz-3-NF"]
          name_pattern := Sample.dash_fields 3
          provider :=
            { definition := some { location_name := some 1, position := some 2,
                                   netflix := some 3, amplification := some (-1) }
              group_merge := [], label_head := none } } 1 = .ok s1 ∧
      s1.group_result = [("HK", [0]), ("netflix", [0, 1]), ("zz", [1])] ∧
      s1.proxies.map (fun node => node.attributes.isSome) = [true, true] ∧
      (Subscriber.get Sample.helpers s1 []).document.proxies =
        [{ name := "HK-1-NF", attributes := none, fields := [] },
         { name := "zz-3-NF", attributes := none, fields := [] }] ∧
      ({ name := "zz-3-NF", attributes := none, fields := [] } : ProxyNode).attributes = none :=
  ⟨{ Sample.plain with
      proxies := [{ name := "HK-1-NF",
                    attributes := some { location := "HK", id := 1, netflix := true,
                                         amplification := FloatVal.finite 1 },
                    fields := [] },
                  { name := "zz-3-NF",
                    attributes := some { location := "zz", id := 3, netflix := true,
                                         amplification := FloatVal.finite 1 },
                    fields := [] }]
      name_pattern := Sample.dash_fields 3
      provider :=
        { definition := some { location_name := some 1, position := some 2,
                               netflix := some 3, amplification := some (-1) }
          group_merge := [], label_head := none }
      group_result := [("HK", [0]), ("netflix", [0, 1]), ("zz", [1])] },
   rfl, rfl, by decide, by decide,
   emitted_records_without_attributes Sample.helpers
     { Sample.plain with
       proxies := [{ name := "HK-1-NF",
                     attributes := some { location := "HK", id := 1, netflix := true,
                                          amplification := FloatVal.finite 1 },
                     fields := [] },
                   { name := "zz-3-NF",
                     attributes := some { location := "zz", id := 3, netflix := true,
                                          amplification := FloatVal.finite 1 },
                     fields := [] }]
       name_pattern := Sample.dash_fields 3
       provider :=
         { definition := some { location_name := some 1, position := some 2,
                                netflix := some 3, amplification := some (-1) }
           group_merge := [], label_head := none }
       group_result := [("HK", [0]), ("netflix", [0, 1]), ("zz", [1])] }
     [] { name := "zz-3-NF", attributes := none, fields := [] } (by decide)⟩

/-! ## Names that the name generator leaves alone -/

theorem filterMap_range_getElem? {α : Type} (l : List α) :
    (List.range l.length).filterMap (fun h => l[h]?) = l := by
  induction l using List.reverseRecOn with
  | nil => rfl
  | append_singleton l a ih =>
    rw [List.length_append, List.length_singleton, List.range_succ, List.filterMap_append]
    have hleft : List.filterMap (fun h => (l ++ [a])[h]?) (List.range l.length) =
        List.filterMap (fun h => l[h]?) (List.range l.length) := by
      apply List.filterMap_congr
      intro h hh
      rw [List.mem_range] at hh
      exact List.getElem?_append_left hh
    rw [hleft, ih]
    simp

theorem set_same_image {β : Type} (f : ProxyNode → β) (nodes : List ProxyNode) (handle : Nat)
    (proxy new : ProxyNode) (hget : nodes[handle]? = some proxy) (hf : f new = f proxy) :
    (nodes.set handle new).map f = nodes.map f := by
  apply List.ext_getElem?
  intro i
  rw [List.map_set, List.getElem?_set]
  by_cases hi : handle = i
  · subst hi
    have hlt : handle < nodes.length := (List.getElem?_eq_some_iff.1 hget).1
    rw [List.getElem?_map, hget]
    simp [hf, hlt]
  · simp [hi]

theorem name_generator_label_plain (H : Helpers) (s : Subscriber) (c : StdMap Nat)
    (proxy : ProxyNode) (a : NameAttribute) (h : s.use_emoji = false) :
    (name_generator H s c proxy a).label = proxy.name := by
  unfold name_generator
  by_cases hid : a.id = -1 <;> simp [hid, h]

/-- A visit with symbol mode off, or of a record without attributes, pushes
the name of the record and only strips the attributes. -/
theorem get_proxy_stable (H : Helpers) (s : Subscriber) (name : String) (st : Assembly)
    (current : List String) (handle : Nat) (proxy : ProxyNode)
    (hget : st.nodes[handle]? = some proxy)
    (hst : s.use_emoji = false ∨ proxy.attributes = none) :
    (get_proxy H s name st current handle).2 = current ++ [proxy.name] ∧
    (get_proxy H s name st current handle).1.nodes =
      st.nodes.set handle { proxy with attributes := none } := by
  cases hattr : proxy.attributes with
  | none =>
    rw [get_proxy_plain H s name st current handle proxy hget hattr]
    exact ⟨rfl, rfl⟩
  | some a =>
    have hemoji : s.use_emoji = false := by
      rcases hst with h | h
      · exact h
      · rw [hattr] at h
        exact absurd h (by simp)
    rw [get_proxy_attributes H s name st current handle proxy a hget hattr,
      name_generator_label_plain H s _ proxy a hemoji]
    exact ⟨rfl, rfl⟩

/-- With symbol mode off, or when no record carries attributes, the member
list of a bucket is the list of the names of its (valid) members, and the
names of the records stay as they are. -/
theorem get_members_names (H : Helpers) (s : Subscriber) (name : String) (handles : List Nat)
    (st : Assembly) (current : List String)
    (hst : s.use_emoji = false ∨ ∀ node ∈ st.nodes, node.attributes = none) :
    (get_members H s name handles st current).2 =
      current ++ handles.filterMap (fun h => (st.nodes[h]?).map (fun node => node.name)) ∧
    (get_members H s name handles st current).1.nodes.map (fun node => node.name) =
      st.nodes.map (fun node => node.name) ∧
    (s.use_emoji = false ∨
      ∀ node ∈ (get_members H s name handles st current).1.nodes, node.attributes = none) := by
  induction handles generalizing st current with
  | nil => exact ⟨by simp [get_members], rfl, hst⟩
  | cons handle rest ih =>
    rw [get_members_cons]
    cases hget : st.nodes[handle]? with
    | none =>
      rw [get_proxy_invalid H s name st current handle hget]
      obtain ⟨i1, i2, i3⟩ := ih st current hst
      refine ⟨?_, i2, i3⟩
      rw [i1, List.filterMap_cons, hget]
      rfl
    | some proxy =>
      have hst1 : s.use_emoji = false ∨ proxy.attributes = none := by
        rcases hst with h | h
        · exact Or.inl h
        · exact Or.inr (h proxy (List.mem_iff_getElem?.2 ⟨handle, hget⟩))
      obtain ⟨hcur, hnodes⟩ := get_proxy_stable H s name st current handle proxy hget hst1
      have hnames : (get_proxy H s name st current handle).1.nodes.map (fun node => node.name) =
          st.nodes.map (fun node => node.name) := by
        rw [hnodes]
        exact set_same_image (fun node => node.name) st.nodes handle proxy _ hget rfl
      have hst2 : s.use_emoji = false ∨
          ∀ node ∈ (get_proxy H s name st current handle).1.nodes, node.attributes = none := by
        rcases hst with h | h
        · exact Or.inl h
        · refine Or.inr ?_
          intro node hn
          rw [hnodes] at hn
          rcases List.mem_or_eq_of_mem_set hn with h1 | h1
          · exact h node h1
          · rw [h1]
      obtain ⟨i1, i2, i3⟩ := ih _ (get_proxy H s name st current handle).2 hst2
      refine ⟨?_, i2.trans hnames, i3⟩
      rw [i1, hcur, List.filterMap_cons, hget]
      simp only [Option.map_some', List.append_assoc, List.singleton_append]
      congr 2
      apply List.filterMap_congr
      intro h _
      have := congrArg (fun l => l[h]?) hnames
      simpa only [List.getElem?_map] using this

/-- The document for a bucket set of one bucket. -/
theorem get_single_bucket (H : Helpers) (s : Subscriber) (counter : StdMap Nat) (label : String)
    (handles : List Nat) (hg : s.group_result = [(label, handles)]) :
    (Subscriber.get H s counter).groups =
      [{ name := label_head_of s ++ "-" ++ label
         proxies := (get_members H s label handles
           { nodes := s.proxies, location_counter := counter, flat := [], assigned := [] }
           []).2 }] ∧
    (Subscriber.get H s counter).group_name = [label_head_of s ++ "-" ++ label] ∧
    (Subscriber.get H s counter).assembly =
      (get_members H s label handles
        { nodes := s.proxies, location_counter := counter, flat := [], assigned := [] } []).1 := by
  unfold Subscriber.get
  rw [hg]
  simp only [List.isEmpty_cons, Bool.false_eq_true, if_false, get_groups_cons, get_groups,
    List.nil_append, and_self]

/-- A bucket set of one bucket that holds every handle in order: the one
group lists the names of the records in order. -/
theorem get_whole_bucket (H : Helpers) (s : Subscriber) (counter : StdMap Nat) (label : String)
    (hg : s.group_result = [(label, List.range s.proxies.length)])
    (hst : s.use_emoji = false ∨ ∀ node ∈ s.proxies, node.attributes = none) :
    (Subscriber.get H s counter).groups =
      [{ name := label_head_of s ++ "-" ++ label
         proxies := s.proxies.map (fun node => node.name) }] ∧
    (Subscriber.get H s counter).group_name = [label_head_of s ++ "-" ++ label] := by
  obtain ⟨h1, h2, _⟩ := get_single_bucket H s counter label _ hg
  obtain ⟨i1, _, _⟩ := get_members_names H s label (List.range s.proxies.length)
    { nodes := s.proxies, location_counter := counter, flat := [], assigned := [] } [] hst
  refine ⟨?_, h2⟩
  rw [h1, i1]
  have hr := filterMap_range_getElem? (s.proxies.map (fun node => node.name))
  rw [List.length_map] at hr
  simp only [List.getElem?_map] at hr
  simp only [List.nil_append]
  rw [hr]

/-- One pass of the first loop of `grouping` for a record that is kept and has
no netflix flag. -/
theorem grouping_step_kept (H : Helpers) (s : Subscriber) (acc : Bucketing) (proxy : ProxyNode)
    (a : NameAttribute) (hp : parse_name H s (H.trim_copy proxy.name) = .ok a)
    (hkeep : (s.exclude_amplified_node && a.amplification.gtOne) = false)
    (hnf : a.netflix = false) :
    grouping_step H s acc proxy = .ok
      { nodes := acc.nodes ++ [{ proxy with name := H.trim_copy proxy.name, attributes := some a }]
        group_result :=
          (acc.group_result.insert a.location []).update a.location
            (fun v => v ++ [acc.nodes.length])
        netflix_group := acc.netflix_group } := by
  unfold grouping_step
  simp only [hp, hkeep, hnf, Bool.false_eq_true, if_false]

/-- Appending the next handle to the only bucket. -/
theorem single_bucket_push (L : String) (g : StdMap (List Nat)) (k : Nat)
    (hg : (g = [] ∧ k = 0) ∨ g = [(L, List.range k)]) :
    (g.insert L []).update L (fun v => v ++ [k]) = [(L, List.range (k + 1))] := by
  rcases hg with ⟨rfl, rfl⟩ | rfl
  · simp [StdMap.insert, StdMap.count, StdMap.place, StdMap.update, List.range_succ]
  · simp [StdMap.insert, StdMap.count, StdMap.update, List.range_succ]

/-- The first loop of `grouping` over records that all parse to the location
`L`, without netflix flag and none dropped: it does not throw, and it fills
the one bucket `L` with the handles in order. -/
theorem grouping_loop_uniform (H : Helpers) (s : Subscriber) (L : String)
    (proxies : List ProxyNode) (acc : Bucketing) (hnf : acc.netflix_group = [])
    (hacc : (acc.group_result = [] ∧ acc.nodes.length = 0) ∨
      acc.group_result = [(L, List.range acc.nodes.length)])
    (hall : ∀ p ∈ proxies, ∃ a, parse_name H s (H.trim_copy p.name) = .ok a ∧
      a.location = L ∧ a.netflix = false ∧
      (s.exclude_amplified_node && a.amplification.gtOne) = false) :
    ∃ b, grouping_loop H s proxies acc = .ok b ∧ b.netflix_group = [] ∧
      ((b.group_result = [] ∧ b.nodes.length = 0) ∨
        b.group_result = [(L, List.range b.nodes.length)]) ∧
      b.nodes.map (fun node => node.name) =
        acc.nodes.map (fun node => node.name) ++ proxies.map (fun p => H.trim_copy p.name) := by
  induction proxies generalizing acc with
  | nil => exact ⟨acc, rfl, hnf, hacc, by simp⟩
  | cons proxy rest ih =>
    obtain ⟨a, hp, hloc, hnfa, hkeep⟩ := hall proxy (List.mem_cons_self _ _)
    have hstep := grouping_step_kept H s acc proxy a hp hkeep hnfa
    rw [hloc, single_bucket_push L acc.group_result acc.nodes.length hacc] at hstep
    obtain ⟨b, hb, h1, h2, h3⟩ := ih
      { nodes := acc.nodes ++
          [{ proxy with name := H.trim_copy proxy.name, attributes := some a }]
        group_result := [(L, List.range (acc.nodes.length + 1))]
        netflix_group := acc.netflix_group }
      hnf (Or.inr (by simp))
      (fun p hmem => hall p (List.mem_cons_of_mem _ hmem))
    refine ⟨b, ?_, h1, h2, ?_⟩
    · rw [grouping_loop, hstep]
      exact hb
    · rw [h3]
      simp

/-- The whole of `grouping` over records of one location: one bucket with every
handle in order, the names trimmed. -/
theorem grouping_uniform (H : Helpers) (s : Subscriber) (group_min_size : Nat) (L : String)
    (hen : s.enable_grouping = true) (hfresh : s.group_result = [])
    (hne : s.proxies ≠ []) (hrules : s.provider.group_merge = [])
    (hall : ∀ p ∈ s.proxies, ∃ a, parse_name H s (H.trim_copy p.name) = .ok a ∧
      a.location = L ∧ a.netflix = false ∧
      (s.exclude_amplified_node && a.amplification.gtOne) = false)
    (hsize : group_min_size ≤ s.proxies.length) :
    ∃ s1, grouping H s group_min_size = .ok s1 ∧
      s1.group_result = [(L, List.range s1.proxies.length)] ∧
      s1.proxies.map (fun node => node.name) = s.proxies.map (fun p => H.trim_copy p.name) ∧
      s1.use_emoji = s.use_emoji ∧ s1.provider = s.provider := by
  obtain ⟨b, hb, hnf, hres, hnames⟩ := grouping_loop_uniform H s L s.proxies
    { nodes := [], group_result := s.group_result, netflix_group := [] } rfl
    (Or.inl ⟨hfresh, rfl⟩) hall
  simp only [List.map_nil, List.nil_append] at hnames
  have hlen : b.nodes.length = s.proxies.length := by
    have := congrArg List.length hnames
    simpa using this
  have hpos : b.nodes.length ≠ 0 := by
    rw [hlen]
    exact fun h => hne (List.length_eq_zero.1 h)
  have hres1 : b.group_result = [(L, List.range b.nodes.length)] := by
    rcases hres with ⟨_, h0⟩ | h
    · exact absurd h0 hpos
    · exact h
  have hbig : ¬ (List.range b.nodes.length).length < group_min_size := by
    rw [List.length_range, hlen]
    omega
  refine ⟨{ s with proxies := b.nodes, group_result := [(L, List.range b.nodes.length)] },
    ?_, rfl, hnames, rfl, rfl⟩
  unfold grouping
  rw [if_pos hen, hb]
  simp only [hrules, hres1, hnf, merge_groups, merge_loop, remove_groups, List.foldl_nil,
    size_loop, if_neg hbig, insert_special, List.isEmpty_nil, if_true]

/-- C17, amended: for every list of records that is not empty, of a subscriber
that has not grouped before, when every record parses to the same location
`L` (with an explicit id or without) without netflix flag and none is dropped
by the exclude-amplified policy, with no merge rules, no configured label head
and symbol mode off, and the number of records is at least the minimum group
size: `grouping` returns and `get` yields exactly one group, named
`Generated-L`, whose members are the trimmed names of the records in order,
and `group_name` is the one-element list of that label. -/
theorem single_location_single_group (H : Helpers) (s : Subscriber) (group_min_size : Nat)
    (counter : StdMap Nat) (L : String)
    (hen : s.enable_grouping = true) (hfresh : s.group_result = [])
    (hne : s.proxies ≠ []) (hrules : s.provider.group_merge = [])
    (hhead : s.provider.label_head = none) (hemoji : s.use_emoji = false)
    (hall : ∀ p ∈ s.proxies, ∃ a, parse_name H s (H.trim_copy p.name) = .ok a ∧
      a.location = L ∧ a.netflix = false ∧
      (s.exclude_amplified_node && a.amplification.gtOne) = false)
    (hsize : group_min_size ≤ s.proxies.length) :
    ∃ s1, grouping H s group_min_size = .ok s1 ∧
      (Subscriber.get H s1 counter).document.groups =
        [{ name := "Generated" ++ "-" ++ L
           proxies := s.proxies.map (fun p => H.trim_copy p.name) }] ∧
      (Subscriber.get H s1 counter).document.group_name = ["Generated" ++ "-" ++ L] := by
  obtain ⟨s1, hg, hres, hnames, hemoji1, hprov⟩ :=
    grouping_uniform H s group_min_size L hen hfresh hne hrules hall hsize
  have hlabel : label_head_of s1 = "Generated" := by
    unfold label_head_of
    rw [hprov, hhead]
  obtain ⟨h1, h2⟩ := get_whole_bucket H s1 counter L hres (Or.inl (hemoji1.trans hemoji))
  refine ⟨s1, hg, ?_, ?_⟩
  · show (Subscriber.get H s1 counter).groups = _
    rw [h1, hlabel, hnames]
  · show (Subscriber.get H s1 counter).group_name = _
    rw [h2, hlabel]

/-- C17, evaluated on the scenario of the specification: the records `HK-01`
and `HK-02` with location `HK`, ids 1 and 2 and minimum size 2. -/
theorem single_location_single_group_witness :
    parse_name Sample.helpers
      { Sample.plain with
        proxies := [Sample.record "HK-01", Sample.record "HK-02"]
        name_pattern := Sample.dash_fields 2
        provider :=
          { definition := some { location_name := some 1, position := some 2,
                                 netflix := some (-1), amplification := some (-1) }
            group_merge := [], label_head := none } } "HK-02" =
      .ok { location := "HK", id := 2, netflix := false, amplification := .finite 1 } ∧
    ∃ s1, grouping Sample.helpers
        { Sample.plain with
          proxies := [Sample.record "HK-01", Sample.record "HK-02"]
          name_pattern := Sample.dash_fields 2
          provider :=
            { definition := some { location_name := some 1, position := some 2,
                                   netflix := some (-1), amplification := some (-1) }
              group_merge := [], label_head := none } } 2 = .ok s1 ∧
      (Subscriber.get Sample.helpers s1 []).document.groups =
        [{ name := "Generated-HK", proxies := ["HK-01", "HK-02"] }] ∧
      (Subscriber.get Sample.helpers s1 []).document.group_name = ["Generated-HK"] :=
  ⟨by decide,
   single_location_single_group Sample.helpers
    { Sample.plain with
      proxies := [Sample.record "HK-01", Sample.record "HK-02"]
      name_pattern := Sample.dash_fields 2
      provider :=
        { definition := some { location_name := some 1, position := some 2,
                               netflix := some (-1), amplification := some (-1) }
          group_merge := [], label_head := none } }
    2 [] "HK" rfl rfl (by decide) rfl rfl rfl
    (by
      intro p hp
      rcases List.mem_cons.1 hp with h | h
      · subst h
        exact ⟨{ location := "HK", id := 1, netflix := false, amplification := .finite 1 },
          by decide, rfl, rfl, rfl⟩
      · rcases List.mem_cons.1 h with h | h
        · subst h
          exact ⟨{ location := "HK", id := 2, netflix := false, amplification := .finite 1 },
            by decide, rfl, rfl, rfl⟩
        · simp at h)
    (by decide)⟩

/-- C17, refuted as stated: the records `HK-01-2.0` and `HK-02-2.0` both parse
to the location `HK` with the explicit ids 1 and 2 and no netflix flag, there
are no merge rules, no label head, symbol mode is off and the minimum size is
2; with the exclude-amplified policy on both are dropped, and `get` yields no
group at all.  An empty record list with minimum size 0 yields no group
either. -/
theorem amplified_location_no_group :
    parse_name Sample.helpers
      { Sample.plain with
        proxies := [Sample.record "HK-01-2.0", Sample.record "HK-02-2.0"]
        exclude_amplified_node := true
        name_pattern := Sample.dash_fields 3
        provider :=
          { definition := some { location_name := some 1, position := some 2,
                                 netflix := some (-1), amplification := some 3 }
            group_merge := [], label_head := none } } "HK-01-2.0" =
      .ok { location := "HK", id := 1, netflix := false, amplification := .finite 2 } ∧
    parse_name Sample.helpers
      { Sample.plain with
        proxies := [Sample.record "HK-01-2.0", Sample.record "HK-02-2.0"]
        exclude_amplified_node := true
        name_pattern := Sample.dash_fields 3
        provider :=
          { definition := some { location_name := some 1, position := some 2,
                                 netflix := some (-1), amplification := some 3 }
            group_merge := [], label_head := none } } "HK-02-2.0" =
      .ok { location := "HK", id := 2, netflix := false, amplification := .finite 2 } ∧
    ((grouping Sample.helpers
      { Sample.plain with
        proxies := [Sample.record "HK-01-2.0", Sample.record "HK-02-2.0"]
        exclude_amplified_node := true
        name_pattern := Sample.dash_fields 3
        provider :=
          { definition := some { location_name := some 1, position := some 2,
                                 netflix := some (-1), amplification := some 3 }
            group_merge := [], label_head := none } } 2).toOption.map
        (fun s1 => ((Subscriber.get Sample.helpers s1 []).document.groups,
          (Subscriber.get Sample.helpers s1 []).document.group_name))) = some ([], []) ∧
    ((grouping Sample.helpers Sample.plain 0).toOption.map
        (fun s1 => ((Subscriber.get Sample.helpers s1 []).document.groups,
          (Subscriber.get Sample.helpers s1 []).document.group_name))) = some ([], []) := by
  decide

end ClashSub
